import Mathlib

/-!
# slogger: buffered syslog sender and RELP client

Shallow embedding of `syslog/buffer.go`, `syslog/sender.go`,
`syslog/mock/syslog_writer.go`, `syslog/relp/message.go` and
`syslog/relp/client.go`, followed by the properties proved about them.

Conventions of the embedding

* A Go `string` is a byte sequence: `GoString = List UInt8`; `len` is `List.length`.
* A Go `int` is an `Int`.  Indices and counters of the ring buffer stay far
  below `2^63`, so no wrap-around is modelled there; the bit operations of the
  RELP priority are taken modulo `2^64`.
* A run-time panic (index out of range, nil dereference, a `make` that the
  runtime refuses) is the result `Except.error Fault.panic`; a loop that is cut off by its fuel is
  `Except.error Fault.outOfFuel`.
* A Go `error` is `Option GoError`, `none` being `nil`.
* A pointer `*bufferRecord` is `Option bufferRecord`, `none` being `nil`.
-/

namespace Slogger

/-! ## Common Go notions -/

/-- Go `string`: a sequence of bytes. -/
abbrev GoString := List UInt8

/-- The bytes of an ASCII literal. -/
def ascii (s : String) : GoString := s.data.map (fun c => UInt8.ofNat c.toNat)

/-- Abnormal ends of an execution. -/
inductive Fault where
  | panic
  | outOfFuel
deriving DecidableEq, Repr

/-- Go `error` values, named after the place that creates them. -/
inductive GoError where
  /-- `fmt.Errorf("buffer is full")` in `messageBuffer.add`. -/
  | bufferFull
  /-- `fmt.Errorf("buffer if empty")` in `messageBuffer.remove`. -/
  | bufferEmpty
  /-- `fmt.Errorf("message buffer not inited")` in `syslog.Send`. -/
  | notInited
  /-- `fmt.Errorf("cannot add message to syslog buffer: %v", err)` in `syslog.Send`. -/
  | cannotAdd (inner : GoError)
  /-- An error reported by the environment (network, transport), with a code. -/
  | io (code : Nat)
  /-- The `strconv.Atoi` syntax error. -/
  | atoiSyntax
  /-- The `strconv.Atoi` range error. -/
  | atoiRange
  /-- `errors.New("log/syslog: invalid priority")` in `relp.Dial`. -/
  | invalidPriority
  /-- `fmt.Errorf("response to txn %d was %s: %s", ...)` in `Client.sendMessage`. -/
  | badResponseCommand (txn : Int) (command data : GoString)
  /-- `fmt.Errorf("response txn to %d was %d", ...)` in `Client.sendMessage`. -/
  | badResponseTxn (txn got : Int)
  /-- `fmt.Errorf("server responded to offer with: %s", ...)` in `Client.connect`. -/
  | offerRejected (line : GoString)
  /-- The error `io.EOF`. -/
  | eof
  /-- The error `io.ErrUnexpectedEOF`. -/
  | unexpectedEOF
deriving DecidableEq, Repr

/-- A `context.Context`, reduced to an identity and whether it is cancelled. -/
structure Context where
  id : Nat
  done : Bool
deriving DecidableEq, Repr

/-- Decimal digits of a natural number, most significant first (`fuel` bounds the
number of digits). -/
def natDigits : Nat → Nat → GoString
  | 0, _ => []
  | fuel + 1, n =>
    if n < 10 then [UInt8.ofNat (48 + n)]
    else natDigits fuel (n / 10) ++ [UInt8.ofNat (48 + n % 10)]

/-- `strconv.Itoa`, also the verb `%d` of `fmt`: the decimal form, with a leading
`-` for a negative number. -/
def Itoa (i : Int) : GoString :=
  if i < 0 then 45 :: natDigits (i.natAbs + 1) i.natAbs
  else natDigits (i.natAbs + 1) i.natAbs

/-! ## syslog/buffer.go -/

/-- The `bufferRecord` struct. -/
structure bufferRecord where
  ctx : Context
  ts : GoString
  level : Int
  value : GoString
deriving DecidableEq, Repr

/-- The `messageBuffer` struct (the lock is not part of the sequential state). -/
structure messageBuffer where
  buffer : List (Option bufferRecord)
  head : Int
  tail : Int
deriving DecidableEq, Repr

/-- `newMessageBuffer(size)`: `size++`, then `make` of that many nil slots.
`make` panics on a negative length.  Memory is not bounded here: `make` is taken to
succeed for every non-negative length, and `size++` not to wrap (the runtime refuses
lengths far below the largest `int`). -/
def newMessageBuffer (size : Int) : Except Fault messageBuffer :=
  let size := size + 1
  if size < 0 then .error .panic
  else .ok { buffer := List.replicate size.toNat none, head := 0, tail := 0 }

namespace messageBuffer

/-- `reset`: head and tail go back to 0, the slots are kept. -/
def reset (mb : messageBuffer) : messageBuffer :=
  { mb with head := 0, tail := 0 }

/-- `len`: `len(mb.buffer) - 1`. -/
def len (mb : messageBuffer) : Int :=
  (mb.buffer.length : Int) - 1

/-- `size`: the two-branch difference of tail and head. -/
def size (mb : messageBuffer) : Int :=
  if mb.head > mb.tail then (mb.buffer.length : Int) - mb.head + mb.tail
  else mb.tail - mb.head

/-- `empty`: `mb.head == mb.tail`. -/
def empty (mb : messageBuffer) : Bool :=
  decide (mb.head = mb.tail)

/-- `add`: error when `size() == len()`, otherwise store at `tail` and advance
`tail` modulo the array length.  The slot write panics when `tail` is not an
index of the array.  (In the non-panicking branch `tail + 1 ≥ 0` and `l > 0`, where
Go's `%` and `Int`'s `%` agree.) -/
def add (mb : messageBuffer) (v : Option bufferRecord) :
    Except Fault (Option GoError × messageBuffer) :=
  if mb.size = mb.len then .ok (some .bufferFull, mb)
  else
    let l : Int := mb.buffer.length
    if 0 ≤ mb.tail ∧ mb.tail < l then
      .ok (none, { mb with buffer := mb.buffer.set mb.tail.toNat v,
                           tail := (mb.tail + 1) % l })
    else .error .panic

/-- `remove`: error when `empty()`, otherwise read the slot at `head` and
advance `head` modulo the array length.  The slot read panics when `head` is
not an index of the array. -/
def remove (mb : messageBuffer) :
    Except Fault ((Option bufferRecord × Option GoError) × messageBuffer) :=
  if mb.empty then .ok ((none, some .bufferEmpty), mb)
  else
    let l : Int := mb.buffer.length
    if 0 ≤ mb.head ∧ mb.head < l then
      .ok ((mb.buffer.getD mb.head.toNat none, none),
           { mb with head := (mb.head + 1) % l })
    else .error .panic

end messageBuffer

/-! ### Drivers used to state the buffer laws -/

/-- Call `add` for each record in turn, collecting the returned errors. -/
def addAll : messageBuffer → List (Option bufferRecord) →
    Except Fault (List (Option GoError) × messageBuffer)
  | mb, [] => .ok ([], mb)
  | mb, v :: vs =>
    match mb.add v with
    | .error f => .error f
    | .ok (e, mb1) =>
      match addAll mb1 vs with
      | .error f => .error f
      | .ok (es, mb2) => .ok (e :: es, mb2)

/-- Call `remove` `n` times, collecting the returned pairs. -/
def removeN : Nat → messageBuffer →
    Except Fault (List (Option bufferRecord × Option GoError) × messageBuffer)
  | 0, mb => .ok ([], mb)
  | n + 1, mb =>
    match mb.remove with
    | .error f => .error f
    | .ok (r, mb1) =>
      match removeN n mb1 with
      | .error f => .error f
      | .ok (rs, mb2) => .ok (r :: rs, mb2)

/-! ### Abstraction of a buffer state -/

/-- Head and tail are indices of the slot array. -/
def messageBuffer.wf (mb : messageBuffer) : Prop :=
  0 ≤ mb.head ∧ mb.head < mb.buffer.length ∧ 0 ≤ mb.tail ∧ mb.tail < mb.buffer.length

/-- The queued records, oldest first: the slots from `head` up to `tail`,
cyclically. -/
def messageBuffer.contents (mb : messageBuffer) : List (Option bufferRecord) :=
  (List.range mb.size.toNat).map
    (fun i => mb.buffer.getD ((mb.head.toNat + i) % mb.buffer.length) none)

/-- One call on a buffer, as a test or the sender may issue it. -/
inductive BufOp where
  | add (v : Option bufferRecord)
  | remove
  | reset
deriving DecidableEq, Repr

/-- Perform one call, keeping only the new state. -/
def applyOp (mb : messageBuffer) : BufOp → Except Fault messageBuffer
  | .add v => match mb.add v with
    | .error f => .error f
    | .ok (_, mb1) => .ok mb1
  | .remove => match mb.remove with
    | .error f => .error f
    | .ok (_, mb1) => .ok mb1
  | .reset => .ok mb.reset

/-- Perform a sequence of calls. -/
def runOps : messageBuffer → List BufOp → Except Fault messageBuffer
  | mb, [] => .ok mb
  | mb, op :: ops => match applyOp mb op with
    | .error f => .error f
    | .ok mb1 => runOps mb1 ops

/-! ## syslog/sender.go -/

/-- The `SyslogWriter` interface: the methods of a transport session, acting on
the state `W` of the world outside the sender. -/
structure SyslogWriter (W : Type) where
  Close : W → Option GoError × W
  Write : GoString → W → (Int × Option GoError) × W
  Emerg : GoString → W → Option GoError × W
  Alert : GoString → W → Option GoError × W
  Crit : GoString → W → Option GoError × W
  Err : GoString → W → Option GoError × W
  Warning : GoString → W → Option GoError × W
  Notice : GoString → W → Option GoError × W
  Info : GoString → W → Option GoError × W
  Debug : GoString → W → Option GoError × W

/-- The type `dialMethodFunc`: context, protocol, address and tag to a writer
(possibly nil) and the flag `ok`. -/
abbrev dialMethodFunc (W : Type) :=
  Context → GoString → GoString → GoString → W → (Option (SyslogWriter W) × Bool) × W

/-- The lines the sender passes to `log.Printf`. -/
inductive LogLine where
  /-- "cannot move remove from syslog buffer: %v". -/
  | cannotRemove (e : GoError)
  /-- "cannot send to syslog: %v". -/
  | cannotSend (e : GoError)
deriving DecidableEq, Repr

/-- The effects of the Go runtime the sender uses: `log.Printf` and
`time.Sleep(1 * time.Second)`. -/
structure Runtime (W : Type) where
  logPrintf : LogLine → W → W
  sleep : W → W

/-- The `syslog` struct: configuration, dial strategy (a func value, possibly nil)
and the buffer pointer (possibly nil).  The cancel func and the wait group
belong to the goroutine plumbing and carry no data. -/
structure syslog (W : Type) where
  syslogProtocol : GoString
  syslogAddr : GoString
  syslogTag : GoString
  dialMethod : Option (dialMethodFunc W)
  syslogBuffer : Option messageBuffer

/-- The severities of `log/syslog`. -/
def LOG_EMERG : Int := 0
def LOG_ALERT : Int := 1
def LOG_CRIT : Int := 2
def LOG_ERR : Int := 3
def LOG_WARNING : Int := 4
def LOG_NOTICE : Int := 5
def LOG_INFO : Int := 6
def LOG_DEBUG : Int := 7

/-- `New`: the sender with a fresh buffer and the default dial strategy
`syslogDial` (given as a parameter: it opens real connections).  The goroutine it
starts is `syslogSend`, modelled below. -/
def New {W : Type} (syslogDial : dialMethodFunc W)
    (syslogProtocol syslogAddr syslogTag : GoString) (bufferSizeMessages : Int) :
    Except Fault (syslog W) :=
  match newMessageBuffer bufferSizeMessages with
  | .error f => .error f
  | .ok mb => .ok { syslogProtocol := syslogProtocol, syslogAddr := syslogAddr,
                    syslogTag := syslogTag, syslogBuffer := some mb,
                    dialMethod := some syslogDial }

namespace syslog

variable {W : Type}

/-- `SetDialMethod`. -/
def SetDialMethod (s : syslog W) (dialFunc : Option (dialMethodFunc W)) : syslog W :=
  { s with dialMethod := dialFunc }

/-- `Send`: builds the record (with the clock reading `now`) and adds it to the buffer. -/
def Send (s : syslog W) (now : GoString) (ctx : Context) (level : Int) (v : GoString) :
    Except Fault (Option GoError × syslog W) :=
  match s.syslogBuffer with
  | none => .ok (some .notInited, s)
  | some mb =>
    match mb.add (some { ctx := ctx, ts := now, level := level, value := v }) with
    | .error f => .error f
    | .ok (some err, mb1) => .ok (some (.cannotAdd err), { s with syslogBuffer := some mb1 })
    | .ok (none, mb1) => .ok (none, { s with syslogBuffer := some mb1 })

/-- `toSyslog`: the switch over the eight severities (no default case), then the
log line when the writer returned an error. -/
def toSyslog (rt : Runtime W) (sl : SyslogWriter W) (lvl : Int) (st : GoString) (w : W) : W :=
  let r : Option GoError × W :=
    if lvl = LOG_EMERG then sl.Emerg st w
    else if lvl = LOG_ALERT then sl.Alert st w
    else if lvl = LOG_CRIT then sl.Crit st w
    else if lvl = LOG_ERR then sl.Err st w
    else if lvl = LOG_WARNING then sl.Warning st w
    else if lvl = LOG_NOTICE then sl.Notice st w
    else if lvl = LOG_INFO then sl.Info st w
    else if lvl = LOG_DEBUG then sl.Debug st w
    else (none, w)
  match r.1 with
  | some err => rt.logPrintf (.cannotSend err) r.2
  | none => r.2

/-- The dial loop of `toSyslogBulk`: call the dial strategy until it reports `ok`,
sleeping after every failure.  The context is only passed on to the strategy. -/
def dialLoop (rt : Runtime W) (dial : dialMethodFunc W) (s : syslog W) (ctx : Context) :
    Nat → W → Except Fault (Option (SyslogWriter W) × W)
  | 0, _ => .error .outOfFuel
  | fuel + 1, w =>
    match dial ctx s.syslogProtocol s.syslogAddr s.syslogTag w with
    | ((slog, true), w1) => .ok (slog, w1)
    | ((_, false), w1) => dialLoop rt dial s ctx fuel (rt.sleep w1)

/-- The `range records` loop of `toSyslogBulk`; reading the fields of a nil record
panics. -/
def writeRecords (rt : Runtime W) (sl : SyslogWriter W) :
    List (Option bufferRecord) → W → Except Fault W
  | [], w => .ok w
  | none :: _, _ => .error .panic
  | some r :: rs, w => writeRecords rt sl rs (toSyslog rt sl r.level r.value w)

/-- `toSyslogBulk`: nothing for an empty configuration, an empty batch or a nil
dial strategy; otherwise dial, write every record, and close (the deferred call).
`defer slog.Close()` on a nil writer panics. -/
def toSyslogBulk (rt : Runtime W) (fuel : Nat) (s : syslog W) (ctx : Context)
    (records : List (Option bufferRecord)) (w : W) : Except Fault W :=
  if s.syslogProtocol = [] ∨ s.syslogAddr = [] ∨ s.syslogTag = [] ∨ records.length = 0 then .ok w
  else
    match s.dialMethod with
    | none => .ok w
    | some dial =>
      match dialLoop rt dial s ctx fuel w with
      | .error f => .error f
      | .ok (none, _) => .error .panic
      | .ok (some slog, w1) =>
        match writeRecords rt slog records w1 with
        | .error f => .error f
        | .ok w2 => .ok (slog.Close w2).2

/-- The loop of the tick case: `for !empty() && i < maxRecsToSend`, with `continue`
on a failed `remove` and `recs[i] = r; i++` otherwise. -/
def tickLoop (rt : Runtime W) (maxRecsToSend : Int) :
    Nat → messageBuffer → Int → List (Option bufferRecord) → W →
      Except Fault (messageBuffer × Int × List (Option bufferRecord) × W)
  | 0, _, _, _, _ => .error .outOfFuel
  | fuel + 1, mb, i, recs, w =>
    if mb.empty = false ∧ i < maxRecsToSend then
      match mb.remove with
      | .error f => .error f
      | .ok ((_, some err), mb1) =>
        tickLoop rt maxRecsToSend fuel mb1 i recs (rt.logPrintf (.cannotRemove err) w)
      | .ok ((r, none), mb1) =>
        if 0 ≤ i ∧ i < recs.length then
          tickLoop rt maxRecsToSend fuel mb1 (i + 1) (recs.set i.toNat r) w
        else .error .panic
    else .ok (mb, i, recs, w)

/-- The loop of the cancellation case: `for !empty()`, appending every removed
record. -/
def doneLoop (rt : Runtime W) :
    Nat → messageBuffer → List (Option bufferRecord) → W →
      Except Fault (messageBuffer × List (Option bufferRecord) × W)
  | 0, _, _, _ => .error .outOfFuel
  | fuel + 1, mb, recs, w =>
    if mb.empty = false then
      match mb.remove with
      | .error f => .error f
      | .ok ((_, some err), mb1) =>
        doneLoop rt fuel mb1 recs (rt.logPrintf (.cannotRemove err) w)
      | .ok ((r, none), mb1) => doneLoop rt fuel mb1 (recs ++ [r]) w
    else .ok (mb, recs, w)

end syslog

/-- The state of a running sender: the struct, the scratch slice `recs` of
`syslogSend`, whether the loop has been left, and the world. -/
structure Sys (W : Type) where
  s : syslog W
  recs : List (Option bufferRecord)
  stopped : Bool
  w : W

namespace syslog

variable {W : Type}

/-- The start of `syslogSend`: `make([]*bufferRecord, maxRecsToSend, maxRecsToSend)`. -/
def syslogSendInit (s : syslog W) (maxRecsToSend : Int) (w : W) : Except Fault (Sys W) :=
  if maxRecsToSend < 0 then .error .panic
  else .ok { s := s, recs := List.replicate maxRecsToSend.toNat none, stopped := false, w := w }

/-- The body of `case <-tickCh`. -/
def tickCase (rt : Runtime W) (fuel : Nat) (ctx : Context) (maxRecsToSend : Int) (st : Sys W) :
    Except Fault (Sys W) :=
  match st.s.syslogBuffer with
  | none => .error .panic
  | some mb =>
    match tickLoop rt maxRecsToSend fuel mb 0 st.recs st.w with
    | .error f => .error f
    | .ok (mb1, i, recs1, w1) =>
      let s1 := { st.s with syslogBuffer := some mb1 }
      match toSyslogBulk rt fuel s1 ctx (recs1.take i.toNat) w1 with
      | .error f => .error f
      | .ok w2 => .ok { s := s1, recs := recs1, stopped := false, w := w2 }

/-- The body of `case <-ctx.Done()`, ending with `break loop`.  The records are
appended to `recs[0:0]`; the scratch slice is not read again once the loop is left. -/
def doneCase (rt : Runtime W) (fuel : Nat) (ctx : Context) (st : Sys W) :
    Except Fault (Sys W) :=
  match st.s.syslogBuffer with
  | none => .error .panic
  | some mb =>
    match doneLoop rt fuel mb [] st.w with
    | .error f => .error f
    | .ok (mb1, recs1, w1) =>
      let s1 := { st.s with syslogBuffer := some mb1 }
      match toSyslogBulk rt fuel s1 ctx recs1 w1 with
      | .error f => .error f
      | .ok w2 => .ok { s := s1, recs := st.recs, stopped := true, w := w2 }

end syslog

/-- What happens to a running sender: a producer calls `Send`, or the loop's
`select` takes the tick case or the cancellation case. -/
inductive Step where
  | send (now : GoString) (ctx : Context) (level : Int) (v : GoString)
  | tick
  | done
deriving DecidableEq, Repr

/-- One step.  `Send` works on the buffer whether or not the loop still runs; the
loop's cases do nothing once the loop has been left.  The second component is the
error returned by `Send`, for a send step. -/
def Sys.step {W : Type} (rt : Runtime W) (fuel : Nat) (ctx : Context) (maxRecsToSend : Int)
    (st : Sys W) : Step → Except Fault (Sys W × Option (Option GoError))
  | .send now c level v =>
    match st.s.Send now c level v with
    | .error f => .error f
    | .ok (err, s1) => .ok ({ st with s := s1 }, some err)
  | .tick =>
    if st.stopped then .ok (st, none)
    else match syslog.tickCase rt fuel ctx maxRecsToSend st with
      | .error f => .error f
      | .ok st1 => .ok (st1, none)
  | .done =>
    if st.stopped then .ok (st, none)
    else match syslog.doneCase rt fuel { ctx with done := true } st with
      | .error f => .error f
      | .ok st1 => .ok (st1, none)

/-- A sequence of steps; the errors returned by the `Send` calls are collected
in order. -/
def Sys.run {W : Type} (rt : Runtime W) (fuel : Nat) (ctx : Context) (maxRecsToSend : Int) :
    Sys W → List Step → Except Fault (Sys W × List (Option GoError))
  | st, [] => .ok (st, [])
  | st, x :: xs =>
    match st.step rt fuel ctx maxRecsToSend x with
    | .error f => .error f
    | .ok (st1, r) =>
      match Sys.run rt fuel ctx maxRecsToSend st1 xs with
      | .error f => .error f
      | .ok (st2, rs) => .ok (st2, r.toList ++ rs)

/-! ## Library functions used by the RELP client -/

/-- Go `int` arithmetic: the value of a 64-bit two's complement result. -/
def wrapInt64 (x : Int) : Int := (x + 2 ^ 63) % 2 ^ 64 - 2 ^ 63

/-- The bit pattern of a Go `int`. -/
def toU64 (x : Int) : Nat := (x % 2 ^ 64).toNat

/-- The Go `int` of a bit pattern. -/
def ofU64 (n : Nat) : Int := if n < 2 ^ 63 then n else (n : Int) - 2 ^ 64

/-- The operator `&` on Go `int`. -/
def and64 (a b : Int) : Int := ofU64 (toU64 a &&& toU64 b)

/-- The operator `|` on Go `int`. -/
def or64 (a b : Int) : Int := ofU64 (toU64 a ||| toU64 b)

/-- `strings.HasPrefix` on bytes. -/
def startsWith (s p : GoString) : Bool := p.isPrefixOf s

/-- `strings.HasSuffix` on bytes. -/
def endsWith (s p : GoString) : Bool := p.reverse.isPrefixOf s.reverse

/-- `strings.TrimSuffix`. -/
def TrimSuffix (s p : GoString) : GoString :=
  if endsWith s p then s.take (s.length - p.length) else s

/-- The UTF-8 encodings of the runes for which `unicode.IsSpace` holds: tab, line
feed, vertical tab, form feed, carriage return, space, U+0085, U+00A0, U+1680,
U+2000 to U+200A, U+2028, U+2029, U+202F, U+205F, U+3000. -/
def spaceSeqs : List GoString :=
  [[0x09], [0x0A], [0x0B], [0x0C], [0x0D], [0x20], [0xC2, 0x85], [0xC2, 0xA0],
   [0xE1, 0x9A, 0x80],
   [0xE2, 0x80, 0x80], [0xE2, 0x80, 0x81], [0xE2, 0x80, 0x82], [0xE2, 0x80, 0x83],
   [0xE2, 0x80, 0x84], [0xE2, 0x80, 0x85], [0xE2, 0x80, 0x86], [0xE2, 0x80, 0x87],
   [0xE2, 0x80, 0x88], [0xE2, 0x80, 0x89], [0xE2, 0x80, 0x8A],
   [0xE2, 0x80, 0xA8], [0xE2, 0x80, 0xA9], [0xE2, 0x80, 0xAF], [0xE2, 0x81, 0x9F],
   [0xE3, 0x80, 0x80]]

/-- Drop one of the given byte sequences from the front, if one is there. -/
def stripOne (seqs : List GoString) (s : GoString) : Option GoString :=
  seqs.findSome? (fun p => if p.isPrefixOf s then some (s.drop p.length) else none)

/-- Drop the given byte sequences from the front for as long as one is there. -/
def trimFront (seqs : List GoString) : Nat → GoString → GoString
  | 0, s => s
  | fuel + 1, s =>
    match stripOne seqs s with
    | some r => trimFront seqs fuel r
    | none => s

/-- `strings.TrimSpace`: leading and trailing white space (as runes) removed.  A
malformed encoding is no space, so trimming stops there. -/
def TrimSpace (s : GoString) : GoString :=
  let l := trimFront spaceSeqs s.length s
  (trimFront (spaceSeqs.map List.reverse) l.length l.reverse).reverse

/-- The value of a non-empty string of decimal digits. -/
def digitsValue : GoString → Option Nat
  | [] => none
  | bs => bs.foldl (fun acc b =>
      match acc with
      | none => none
      | some n => if 48 ≤ b.toNat ∧ b.toNat ≤ 57 then some (n * 10 + (b.toNat - 48)) else none)
    (some 0)

/-- The loop of `strconv.ParseUint(s, 10, 64)` with `n` accumulated so far: a byte that is
no digit ends it with 0 and the syntax error; digits whose value leaves `uint64` end it with
the largest `uint64` and the range error, before the bytes after them are looked at. -/
def scanDigits : GoString → Nat → Nat × Option GoError
  | [], n => (n, none)
  | c :: cs, n =>
    if 48 ≤ c.toNat ∧ c.toNat ≤ 57 then
      -- cutoff = maxUint64/10 + 1: n*10 overflows
      if n ≥ (2 ^ 64 - 1) / 10 + 1 then (2 ^ 64 - 1, some .atoiRange)
      -- n*10 + d overflows
      else if n * 10 + (c.toNat - 48) > 2 ^ 64 - 1 then (2 ^ 64 - 1, some .atoiRange)
      else scanDigits cs (n * 10 + (c.toNat - 48))
    else (0, some .atoiSyntax)

/-- `strconv.ParseUint(s, 10, 64)`: the empty string is a syntax error. -/
def ParseUint (s : GoString) : Nat × Option GoError :=
  if s = [] then (0, some .atoiSyntax) else scanDigits s 0

/-- `strconv.Atoi` on a 64-bit platform, which is `ParseInt(s, 10, 0)` (the fast path for
short strings gives the same results): an optional sign, then `ParseUint`; 0 with the syntax
error; the nearest `int` with the range error when the value does not fit. -/
def Atoi (s : GoString) : Int × Option GoError :=
  let neg : Bool := s.head? = some 45
  let ds : GoString := if s.head? = some 45 ∨ s.head? = some 43 then s.drop 1 else s
  match ParseUint ds with
  | (_, some .atoiSyntax) => (0, some .atoiSyntax)
  | (un, _) =>
    if neg then
      if un > 2 ^ 63 then (-(2 ^ 63), some .atoiRange) else (-(un : Int), none)
    else
      if un ≥ 2 ^ 63 then (2 ^ 63 - 1, some .atoiRange) else ((un : Int), none)

/-- `bufio.Reader.ReadString(delim)` on the bytes still to come: the bytes up to and
including the first `delim`, whether it was found, and what remains. -/
def readString (delim : UInt8) : List UInt8 → GoString × Bool × List UInt8
  | [] => ([], false, [])
  | b :: bs =>
    if b = delim then ([b], true, bs)
    else
      let r := readString delim bs
      (b :: r.1, r.2.1, r.2.2)

/-! ## syslog/relp/message.go -/

def CommandOpen : GoString := ascii "open"
def CommandSyslog : GoString := ascii "syslog"
def CommandClose : GoString := ascii "close"
def CommandRsp : GoString := ascii "rsp"
def CommandAbort : GoString := ascii "abort"

/-- The `Message` struct (the fields `Acked` and `sourceConnection` serve `Ack`
only, which the client never calls). -/
structure Message where
  Txn : Int
  Command : GoString
  Data : GoString
deriving DecidableEq, Repr

/-- The string `outString` of `Message.send`:
`fmt.Sprintf("%d %s %d %s\n", m.Txn, m.Command, outLength, m.Data)`. -/
def Message.frame (m : Message) : GoString :=
  Itoa m.Txn ++ [32] ++ m.Command ++ [32] ++ Itoa (m.Data.length : Int) ++ [32] ++ m.Data ++ [10]

/-! ## The network as the RELP client sees it -/

/-- A connection, named by the number of the dial that opened it. -/
abbrev Conn := Nat

/-- What the client did on the network, with the outcome it got back. -/
inductive NetEvent where
  | dial (raddr : GoString) (timeout : Int) (err : Option GoError)
  | send (conn : Conn) (m : Message) (err : Option GoError)
  | read (conn : Conn)
  | close (conn : Conn) (err : Option GoError)
deriving DecidableEq, Repr

/-- The world of the RELP client: the network events so far, oldest first. -/
abbrev NetTrace := List NetEvent

def isNetDial : NetEvent → Bool
  | .dial .. => true
  | _ => false

def isNetSend : NetEvent → Bool
  | .send .. => true
  | _ => false

def isNetRead : NetEvent → Bool
  | .read .. => true
  | _ => false

def isNetClose : NetEvent → Bool
  | .close .. => true
  | _ => false

/-- The behaviour of the environment of a client: the outcome of the n-th dial,
write and close; for the n-th `readMessage`, the bytes its reader can get and the
error that ends them; the local address of a connection; and the process: clock
readings formatted by RFC 3339, pid, `os.Args[0]`, `os.Hostname()`. -/
structure Env where
  dialErr : Nat → Option GoError
  writeErr : Nat → Option GoError
  input : Nat → List UInt8 × GoError
  closeErr : Nat → Option GoError
  localAddr : GoString
  clock : Nat → GoString
  pid : Int
  args0 : GoString
  osHostname : GoString

/-- `Message.send`: one `Write` of the frame on the connection; a nil writer
panics. -/
def Message.send (E : Env) (m : Message) (out : Option Conn) (t : NetTrace) :
    Except Fault ((Int × Option GoError) × NetTrace) :=
  match out with
  | none => .error .panic
  | some conn =>
    let err := E.writeErr (t.countP isNetSend)
    .ok ((if err.isSome then 0 else (m.frame.length : Int), err), t ++ [.send conn m err])

/-! ## syslog/relp/client.go -/

/-- The largest allocation of the Go runtime on a 64-bit platform (`maxAlloc`, 48 address
bits): `make([]byte, n)` panics for a negative `n` and for `n` beyond it. -/
def maxAlloc : Int := 2 ^ 48

/-- The body of `readMessage` on the bytes `bs` its reader can get before the error
`eof` ends them.  `make([]byte, dataLen)` panics on a negative length and on a length
beyond `maxAlloc`; an allocation within `maxAlloc` is taken to succeed. -/
def parseMessage (bs : List UInt8) (endErr : GoError) : Except Fault (Message × Option GoError) :=
  let message : Message := { Txn := 0, Command := [], Data := [] }
  -- txn, err := reader.ReadString(' ')
  let r1 := readString 32 bs
  if r1.2.1 = false then .ok (message, some endErr)
  else
    let message := { message with Txn := (Atoi (TrimSpace r1.1)).1 }
    -- cmd, err := reader.ReadString(' ')
    let r2 := readString 32 r1.2.2
    if r2.2.1 = false then .ok (message, some endErr)
    else
      let message := { message with Command := TrimSpace r2.1 }
      -- peekLen, err := reader.Peek(1)
      let peekLen := r2.2.2.take 1
      let err : Option GoError := if r2.2.2 = [] then some endErr else none
      let message := { message with Data := [] }
      if peekLen ≠ [48] then
        -- dataLenS, err := reader.ReadString(' ')
        let r3 := readString 32 r2.2.2
        if r3.2.1 = false then .ok (message, some endErr)
        else
          match Atoi (TrimSpace r3.1) with
          | (_, some e) => .ok (message, some e)
          | (dataLen, none) =>
            -- dataBytes := make([]byte, dataLen)
            if dataLen < 0 ∨ dataLen > maxAlloc then .error .panic
            else if r3.2.2.length < dataLen.toNat then
              -- io.ReadFull comes up short
              .ok (message, some (if r3.2.2 ≠ [] ∧ endErr = .eof then .unexpectedEOF else endErr))
            else .ok ({ message with Data := r3.2.2.take dataLen.toNat }, err)
      else .ok (message, err)

/-- `readMessage(conn)`: a fresh reader on the connection, then `parseMessage` on
what that reader can get. -/
def readMessage (E : Env) (conn : Option Conn) (t : NetTrace) :
    Except Fault ((Message × Option GoError) × NetTrace) :=
  match conn with
  | none => .error .panic
  | some k =>
    let inp := E.input (t.countP isNetRead)
    match parseMessage inp.1 inp.2 with
    | .error f => .error f
    | .ok r => .ok (r, t ++ [.read k])

/-- The `Client` struct (without its mutex). -/
structure Client where
  priority : Int
  tag : GoString
  hostname : GoString
  raddr : GoString
  timeout : Int
  connection : Option Conn
  nextTxn : Int
deriving DecidableEq, Repr

def relpVersion : Int := 0
def relpSoftware : GoString := ascii "slogger"
def severityMask : Int := 0x07
def facilityMask : Int := 0xf8

/-- The part of a string before its first line feed: `strings.Split(s, "\n")[0]`. -/
def firstLine (s : GoString) : GoString := s.takeWhile (fun b => b != 10)

/-- `syslogMessage`, with the clock reading and the pid it takes from the process. -/
def syslogMessage (now : GoString) (pid : Int) (p : Int) (hostname tag msg : GoString) :
    GoString :=
  let msg := if endsWith msg [10] then TrimSuffix msg [10] else msg
  ascii "<" ++ Itoa p ++ ascii ">" ++ now ++ ascii " " ++ hostname ++ ascii " " ++ tag ++
    ascii "[" ++ Itoa pid ++ ascii "]: " ++ msg

namespace Client

/-- `connect`: close and forget an old connection, dial, send the offer
(transaction 1), read the response.  The outcome of the check of the response is
assigned to `err` and not returned. -/
def connect (E : Env) (c : Client) (t : NetTrace) :
    Except Fault (Option GoError × Client × NetTrace) :=
  let t0 : NetTrace := match c.connection with
    | some conn => t ++ [.close conn (E.closeErr (t.countP isNetClose))]
    | none => t
  let n := t0.countP isNetDial
  match E.dialErr n with
  | some e => .ok (some e, { c with connection := none }, t0 ++ [.dial c.raddr c.timeout (some e)])
  | none =>
    let t1 := t0 ++ [.dial c.raddr c.timeout none]
    let c1 := { c with connection := some n }
    let c2 := if c1.hostname = [] then { c1 with hostname := E.localAddr } else c1
    let offer : Message :=
      { Txn := 1, Command := CommandOpen,
        Data := ascii "relp_version=" ++ Itoa relpVersion ++ ascii "\nrelp_software=" ++
          relpSoftware ++ ascii "\ncommands=syslog" }
    match offer.send E c2.connection t1 with
    | .error f => .error f
    | .ok (_, t2) =>
      match readMessage E c2.connection t2 with
      | .error f => .error f
      | .ok ((_, some err), t3) => .ok (some err, c2, t3)
      | .ok ((offerResponse, none), t3) =>
        let _err : Option GoError :=
          if startsWith (firstLine offerResponse.Data) (ascii "200 OK") = false then
            some (.offerRejected (firstLine offerResponse.Data))
          else none
        .ok (none, { c2 with nextTxn := 2 }, t3)

/-- `sendMessage`: advance `nextTxn`, send the frame (the result of the send is
overwritten by the read), read the next frame and compare it with the request. -/
def sendMessage (E : Env) (c : Client) (msg : Message) (t : NetTrace) :
    Except Fault (Option GoError × Client × NetTrace) :=
  let c1 := { c with nextTxn := wrapInt64 (c.nextTxn + 1) }
  match msg.send E c1.connection t with
  | .error f => .error f
  | .ok (_, t1) =>
    match readMessage E c1.connection t1 with
    | .error f => .error f
    | .ok ((_, some err), t2) => .ok (some err, c1, t2)
    | .ok ((ack, none), t2) =>
      if ack.Command ≠ CommandRsp then
        .ok (some (.badResponseCommand msg.Txn ack.Command ack.Data), c1, t2)
      else if ack.Txn ≠ msg.Txn then
        .ok (some (.badResponseTxn msg.Txn ack.Txn), c1, t2)
      else .ok (none, c1, t2)

/-- `sendString`. -/
def sendString (E : Env) (c : Client) (msg : GoString) (t : NetTrace) :
    Except Fault (Option GoError × Client × NetTrace) :=
  sendMessage E c { Txn := c.nextTxn, Command := CommandSyslog, Data := msg } t

/-- `write`: format, send, and report the length of the unformatted message. -/
def write (E : Env) (c : Client) (p : Int) (tag msg : GoString) (t : NetTrace) :
    Except Fault ((Int × Option GoError) × Client × NetTrace) :=
  let m := syslogMessage (E.clock t.length) E.pid p c.hostname tag msg
  match sendString E c m t with
  | .error f => .error f
  | .ok (some err, c1, t1) => .ok ((0, some err), c1, t1)
  | .ok (none, c1, t1) => .ok (((msg.length : Int), none), c1, t1)

/-- `writeAndRetry` (pointer receiver): one write on a live connection; after a
failure, or without a connection, one `connect` and one more write. -/
def writeAndRetry (E : Env) (c : Client) (p : Int) (tag s : GoString) (t : NetTrace) :
    Except Fault ((Int × Option GoError) × Client × NetTrace) :=
  let pr := or64 (and64 c.priority facilityMask) (and64 p severityMask)
  let retry (c0 : Client) (t0 : NetTrace) :
      Except Fault ((Int × Option GoError) × Client × NetTrace) :=
    match connect E c0 t0 with
    | .error f => .error f
    | .ok (some err, c1, t1) => .ok ((0, some err), c1, t1)
    | .ok (none, c1, t1) => write E c1 pr tag s t1
  match c.connection with
  | some _ =>
    match write E c pr tag s t with
    | .error f => .error f
    | .ok ((n, none), c1, t1) => .ok ((n, none), c1, t1)
    | .ok ((_, some _), c1, t1) => retry c1 t1
  | none => retry c t

/-- `Close` (pointer receiver): send the close frame, then close and forget the
connection. -/
def Close (E : Env) (c : Client) (t : NetTrace) :
    Except Fault (Option GoError × Client × NetTrace) :=
  match (Message.mk c.nextTxn CommandClose []).send E c.connection t with
  | .error f => .error f
  | .ok (_, t1) =>
    match c.connection with
    | some conn =>
      let err := E.closeErr (t1.countP isNetClose)
      .ok (err, { c with connection := none }, t1 ++ [.close conn err])
    | none => .ok (none, c, t1)

/-! The writer methods have value receivers (`func (c Client) ...`): each works on
a copy of the client, so the caller's client is the same after the call and only
the results and the network events remain. -/

/-- The result of a call on a copy: the changes to the copy are dropped. -/
def onCopy {α : Type} (r : Except Fault (α × Client × NetTrace)) : Except Fault (α × NetTrace) :=
  match r with
  | .error f => .error f
  | .ok (a, _, t) => .ok (a, t)

def swrite (E : Env) (c : Client) (b tag : GoString) (t : NetTrace) :
    Except Fault ((Int × Option GoError) × NetTrace) :=
  onCopy (writeAndRetry E c c.priority tag b t)

/-- The shape of `semerg` to `sdebug`: `_, err := c.writeAndRetry(level, tag, m)`. -/
def swriteLevel (E : Env) (c : Client) (level : Int) (m tag : GoString) (t : NetTrace) :
    Except Fault (Option GoError × NetTrace) :=
  match onCopy (writeAndRetry E c level tag m t) with
  | .error f => .error f
  | .ok ((_, err), t1) => .ok (err, t1)

def semerg (E : Env) (c : Client) := swriteLevel E c LOG_EMERG
def salert (E : Env) (c : Client) := swriteLevel E c LOG_ALERT
def scrit (E : Env) (c : Client) := swriteLevel E c LOG_CRIT
def serr (E : Env) (c : Client) := swriteLevel E c LOG_ERR
def swarning (E : Env) (c : Client) := swriteLevel E c LOG_WARNING
def snotice (E : Env) (c : Client) := swriteLevel E c LOG_NOTICE
def sinfo (E : Env) (c : Client) := swriteLevel E c LOG_INFO
def sdebug (E : Env) (c : Client) := swriteLevel E c LOG_DEBUG

def Write (E : Env) (c : Client) (b : GoString) (t : NetTrace) := swrite E c b c.tag t
def Emerg (E : Env) (c : Client) (m : GoString) (t : NetTrace) := semerg E c m c.tag t
def Alert (E : Env) (c : Client) (m : GoString) (t : NetTrace) := salert E c m c.tag t
def Crit (E : Env) (c : Client) (m : GoString) (t : NetTrace) := scrit E c m c.tag t
def Err (E : Env) (c : Client) (m : GoString) (t : NetTrace) := serr E c m c.tag t
def Warning (E : Env) (c : Client) (m : GoString) (t : NetTrace) := swarning E c m c.tag t
def Notice (E : Env) (c : Client) (m : GoString) (t : NetTrace) := snotice E c m c.tag t
def Info (E : Env) (c : Client) (m : GoString) (t : NetTrace) := sinfo E c m c.tag t
def Debug (E : Env) (c : Client) (m : GoString) (t : NetTrace) := sdebug E c m c.tag t

end Client

/-- `Dial`: check the priority, fill in tag and hostname, connect.  The result is
the client (a pointer, nil on failure) and the error. -/
def Dial (E : Env) (raddr : GoString) (priority : Int) (tag : GoString) (timeout : Int)
    (t : NetTrace) : Except Fault ((Option Client × Option GoError) × NetTrace) :=
  if priority < 0 ∨ priority > 191 then .ok ((none, some .invalidPriority), t)
  else
    let tag := if tag = [] then E.args0 else tag
    let c : Client :=
      { priority := priority, tag := tag, hostname := E.osHostname, raddr := raddr,
        timeout := timeout, connection := none, nextTxn := 0 }
    match c.connect E t with
    | .error f => .error f
    | .ok (some err, _, t1) => .ok ((none, some err), t1)
    | .ok (none, c1, t1) => .ok ((some c1, none), t1)

/-- The command and transaction id of every frame sent, in order. -/
def sentFrames (t : NetTrace) : List (GoString × Int) :=
  t.filterMap (fun e => match e with
    | .send _ m _ => some (m.Command, m.Txn)
    | _ => none)

/-- The number of `syslog` frames sent: the write attempts. -/
def writeAttempts (t : NetTrace) : Nat :=
  t.countP (fun e => match e with
    | .send _ m _ => m.Command = CommandSyslog
    | _ => false)

/-- The number of dials: the calls of `connect`. -/
def connects (t : NetTrace) : Nat := t.countP isNetDial

/-! ### A transport that records what the sender does to it -/

/-- The methods of a `SyslogWriter` that carry a message. -/
inductive Method where
  | Write | Emerg | Alert | Crit | Err | Warning | Notice | Info | Debug
deriving DecidableEq, Repr

/-- What the sender did to the outside world, with the outcome it got back. -/
inductive Event where
  | dial (ctx : Context) (protocol addr tag : GoString) (ok : Bool)
  | sleep
  | call (m : Method) (msg : GoString) (err : Option GoError)
  | close (err : Option GoError)
  | log (line : LogLine)
deriving DecidableEq, Repr

/-- The world of the recording transport: the events so far, oldest first. -/
abbrev Trace := List Event

/-- The behaviour of a transport: the outcome of the n-th dial, of the n-th
writer call and of the n-th close, for all n. -/
structure Transport where
  dialOk : Nat → Bool
  writeErr : Nat → Option GoError
  closeErr : Nat → Option GoError

def isDial : Event → Bool
  | .dial .. => true
  | _ => false

def isCall : Event → Bool
  | .call .. => true
  | _ => false

def isClose : Event → Bool
  | .close .. => true
  | _ => false

/-- A writer call on the recording transport: the outcome comes from the
transport, the call is appended to the trace. -/
def recordCall (T : Transport) (m : Method) (msg : GoString) (t : Trace) :
    Option GoError × Trace :=
  let err := T.writeErr (t.countP isCall)
  (err, t ++ [.call m msg err])

/-- The writer handed out by the recording dial strategy. -/
def recordingWriter (T : Transport) : SyslogWriter Trace where
  Close t := let err := T.closeErr (t.countP isClose); (err, t ++ [.close err])
  Write b t :=
    let r := recordCall T .Write b t
    ((if r.1.isSome then 0 else (b.length : Int), r.1), r.2)
  Emerg := recordCall T .Emerg
  Alert := recordCall T .Alert
  Crit := recordCall T .Crit
  Err := recordCall T .Err
  Warning := recordCall T .Warning
  Notice := recordCall T .Notice
  Info := recordCall T .Info
  Debug := recordCall T .Debug

/-- The recording dial strategy: the outcome comes from the transport. -/
def recordingDial (T : Transport) : dialMethodFunc Trace :=
  fun ctx protocol addr tag t =>
    let ok := T.dialOk (t.countP isDial)
    ((if ok then some (recordingWriter T) else none, ok), t ++ [.dial ctx protocol addr tag ok])

/-- The runtime of the recording world: log lines and sleeps are events. -/
def traceRuntime : Runtime Trace where
  logPrintf line t := t ++ [.log line]
  sleep t := t ++ [.sleep]

/-- What reaches the transport, outcomes and log lines left out. -/
inductive Wire where
  | dial (ctx : Context) (protocol addr tag : GoString) (ok : Bool)
  | sleep
  | call (m : Method) (msg : GoString)
  | close
deriving DecidableEq, Repr

def Event.wire : Event → Option Wire
  | .dial c p a t ok => some (.dial c p a t ok)
  | .sleep => some .sleep
  | .call m msg _ => some (.call m msg)
  | .close _ => some .close
  | .log _ => none

/-- The transport's view of a trace. -/
def wire (t : Trace) : List Wire := t.filterMap Event.wire

/-- The messages written to the transport, in order. -/
def written (t : Trace) : List (Method × GoString) :=
  t.filterMap (fun e => match e with
    | .call m msg _ => some (m, msg)
    | _ => none)

/-- The writer method `toSyslog` selects for a level, if any. -/
def methodOf (lvl : Int) : Option Method :=
  if lvl = LOG_EMERG then some .Emerg
  else if lvl = LOG_ALERT then some .Alert
  else if lvl = LOG_CRIT then some .Crit
  else if lvl = LOG_ERR then some .Err
  else if lvl = LOG_WARNING then some .Warning
  else if lvl = LOG_NOTICE then some .Notice
  else if lvl = LOG_INFO then some .Info
  else if lvl = LOG_DEBUG then some .Debug
  else none

/-- The level is one of the eight severities. -/
def isSeverity (lvl : Int) : Prop := 0 ≤ lvl ∧ lvl ≤ 7

instance (lvl : Int) : Decidable (isSeverity lvl) := by
  unfold isSeverity; infer_instance

/-- The writer calls a batch gives rise to: for every record whose level selects a
method, that method with the record's value. -/
def callsOf (rs : List bufferRecord) : List (Method × GoString) :=
  rs.filterMap (fun r => (methodOf r.level).map (fun m => (m, r.value)))

/-- The session a non-empty batch gives rise to on the transport: one successful
dial, the writer calls, one close. -/
def sessionWire (s : syslog Trace) (ctx : Context) (rs : List bufferRecord) : List Wire :=
  match rs with
  | [] => []
  | _ :: _ =>
    Wire.dial ctx s.syslogProtocol s.syslogAddr s.syslogTag true ::
      ((callsOf rs).map (fun c => Wire.call c.1 c.2) ++ [Wire.close])

/-- The record a `Send` step hands to `add`. -/
def Step.record : Step → Option bufferRecord
  | .send now ctx level v => some { ctx := ctx, ts := now, level := level, value := v }
  | _ => none

/-- The records of the `Send` steps, in order. -/
def sendsOf (steps : List Step) : List bufferRecord := steps.filterMap Step.record

/-- The records whose `Send` returned nil, given the errors the `Send` calls returned. -/
def accepted : List bufferRecord → List (Option GoError) → List bufferRecord
  | r :: rs, none :: es => r :: accepted rs es
  | _ :: rs, some _ :: es => accepted rs es
  | _, _ => []

/-- A running sender on the recording transport `T`: its buffer is well formed with
capacity `C` and queues `q`, the scratch slice has `M` slots, protocol, address and
tag are not empty, and the dial strategy is the recording one. -/
def Sys.Inv (T : Transport) (C : Int) (M : Nat) (st : Sys Trace) (q : List bufferRecord) : Prop :=
  ∃ mb, st.s.syslogBuffer = some mb ∧ mb.wf ∧ mb.len = C ∧ mb.contents = q.map some ∧
    st.recs.length = M ∧ st.s.syslogProtocol ≠ [] ∧ st.s.syslogAddr ≠ [] ∧
    st.s.syslogTag ≠ [] ∧ st.s.dialMethod = some (recordingDial T)

/-- The `Send` step that produces a given record. -/
def sendStep (r : bufferRecord) : Step := .send r.ts r.ctx r.level r.value

/-! ### Concrete inputs -/

/-- A transport on which nothing fails. -/
def okTransport : Transport where
  dialOk _ := true
  writeErr _ := none
  closeErr _ := none

/-- A transport whose dial succeeds and whose every writer call fails. -/
def failingWrites : Transport where
  dialOk _ := true
  writeErr _ := some (.io 1)
  closeErr _ := none

/-- A background context. -/
def ctx0 : Context := { id := 0, done := false }

/-- What a test can see of a run: the errors returned by `Send`, the messages
written to the transport, whether the loop has been left and the queued records. -/
def Sys.observe (r : Except Fault (Sys Trace × List (Option GoError))) :
    Option (List (Option GoError) × List (Method × GoString) × Bool ×
      Option (List (Option bufferRecord))) :=
  match r with
  | .error _ => none
  | .ok (st, errs) => some (errs, written st.w, st.stopped, st.s.syslogBuffer.map (·.contents))

/-- A sender made by `New` with the recording dial strategy of `T` set, at the start
of `syslogSend` in an empty world; `none` when a step of the construction panics. -/
def startSys (T : Transport) (protocol addr tag : GoString) (C M : Int) : Option (Sys Trace) :=
  match New (recordingDial T) protocol addr tag C with
  | .error _ => none
  | .ok s0 =>
    match syslog.syslogSendInit (s0.SetDialMethod (some (recordingDial T))) M [] with
    | .error _ => none
    | .ok st0 => some st0

/-- Three records with severities `LOG_ERR`, `LOG_WARNING` and `LOG_DEBUG`. -/
def recA : bufferRecord := { ctx := ctx0, ts := ascii "t0", level := 3, value := ascii "a" }
def recB : bufferRecord := { ctx := ctx0, ts := ascii "t1", level := 4, value := ascii "b" }
def recC : bufferRecord := { ctx := ctx0, ts := ascii "t2", level := 7, value := ascii "c" }

/-- A buffer of capacity 3 that queues `recA`, `recB`, `recC`. -/
def exBuffer : messageBuffer :=
  { buffer := [some recA, some recB, some recC, none], head := 0, tail := 3 }

/-- A buffer of capacity 3 that queues `recA` only, after a wrap-around. -/
def exBuffer1 : messageBuffer :=
  { buffer := [some recC, some recB, none, some recA], head := 3, tail := 0 }

/-- A sender with a non-empty configuration on the transport whose writes all fail,
holding `exBuffer`. -/
def exSender : syslog Trace :=
  { syslogProtocol := ascii "tcp", syslogAddr := ascii "host:514", syslogTag := ascii "tag",
    dialMethod := some (recordingDial failingWrites), syslogBuffer := some exBuffer }

/-- The same sender holding `exBuffer1`. -/
def exSender1 : syslog Trace := { exSender with syslogBuffer := some exBuffer1 }

/-- An environment in which nothing fails and the server acknowledges: the first
frame read is the answer to the offer, each later one acknowledges transaction 2. -/
def ackEnv : Env where
  dialErr _ := none
  writeErr _ := none
  input n := if n = 0 then (ascii "1 rsp 6 200 OK\n", .eof) else (ascii "2 rsp 6 200 OK\n", .eof)
  closeErr _ := none
  localAddr := ascii "127.0.0.1:40000"
  clock _ := ascii "2006-01-02T15:04:05Z"
  pid := 42
  args0 := ascii "app"
  osHostname := ascii "host"

/-- What a test can see of `Dial` followed by some calls of `Emerg` on the client it
returned: the errors returned and the frames sent. -/
def dialThenEmerg (E : Env) (msgs : List GoString) :
    Option (List (Option GoError) × List (GoString × Int)) :=
  match Dial E (ascii "server:2514") 28 (ascii "tag") 5 [] with
  | .ok ((some c, none), t0) =>
    let step (acc : Option (List (Option GoError) × NetTrace)) (m : GoString) :=
      match acc with
      | none => none
      | some (errs, t) =>
        match c.Emerg E m t with
        | .error _ => none
        | .ok (err, t1) => some (errs ++ [err], t1)
    (msgs.foldl step (some ([], t0))).map (fun r => (r.1, sentFrames r.2))
  | _ => none

/-- A client as `Dial` leaves it: connection 0, next transaction 2. -/
def exClient : Client :=
  { priority := 28, tag := ascii "tag", hostname := ascii "host", raddr := ascii "server:2514",
    timeout := 5, connection := some 0, nextTxn := 2 }

/-- The network events of a finished `Dial`. -/
def exDialled : NetTrace :=
  [.dial (ascii "server:2514") 5 none,
   .send 0 { Txn := 1, Command := CommandOpen, Data := ascii "relp_version=0" } none,
   .read 0]

/-- The `Send` calls of `TestSyslog_Send`: `bufSize + 2 = 34` records of level
`LOG_ERR` whose values are the decimal numbers 0 to 33. -/
def testSends : List Step :=
  (List.range 34).map (fun i => Step.send (ascii "ts") ctx0 LOG_ERR (Itoa i))

/-- A transport whose dial never succeeds. -/
def deadTransport : Transport where
  dialOk _ := false
  writeErr _ := none
  closeErr _ := none

/-- A transport whose dial fails twice and then succeeds. -/
def slowTransport : Transport where
  dialOk n := decide (2 ≤ n)
  writeErr _ := none
  closeErr _ := none

/-- A context that is already cancelled. -/
def ctxDone : Context := { id := 0, done := true }

/-- The sender `exSender` on the transport whose dial never succeeds. -/
def exSenderDead : syslog Trace := { exSender with dialMethod := some (recordingDial deadTransport) }

/-- The sender `exSender` on the transport whose dial succeeds at the third attempt. -/
def exSenderSlow : syslog Trace := { exSender with dialMethod := some (recordingDial slowTransport) }

/-- The events of `k` failed dials, each followed by the sleep. -/
def retryEvents (s : syslog Trace) (ctx : Context) (k : Nat) : Trace :=
  (List.replicate k
    [Event.dial ctx s.syslogProtocol s.syslogAddr s.syslogTag false, Event.sleep]).flatten

/-! ### The buffer as seen through its methods -/

/-- A call of a method of the buffer. -/
inductive Call where
  | add (v : Option bufferRecord)
  | remove
  | size
  | empty
  | len
  | reset
deriving DecidableEq, Repr

/-- What a call returns. -/
inductive Ret where
  /-- The error of `add`. -/
  | err (e : Option GoError)
  /-- The record and the error of `remove`. -/
  | record (v : Option bufferRecord) (e : Option GoError)
  /-- The number of `size` or `len`. -/
  | int (n : Int)
  /-- The answer of `empty`. -/
  | bool (b : Bool)
  /-- The return of `reset`. -/
  | unit
deriving DecidableEq, Repr

/-- Perform one call: the value returned and the new state. -/
def messageBuffer.call (mb : messageBuffer) : Call → Except Fault (Ret × messageBuffer)
  | .add v => match mb.add v with
    | .error f => .error f
    | .ok (e, mb1) => .ok (.err e, mb1)
  | .remove => match mb.remove with
    | .error f => .error f
    | .ok ((v, e), mb1) => .ok (.record v e, mb1)
  | .size => .ok (.int mb.size, mb)
  | .empty => .ok (.bool mb.empty, mb)
  | .len => .ok (.int mb.len, mb)
  | .reset => .ok (.unit, mb.reset)

/-- Perform a sequence of calls, collecting what they return. -/
def messageBuffer.calls : messageBuffer → List Call → Except Fault (List Ret × messageBuffer)
  | mb, [] => .ok ([], mb)
  | mb, c :: cs =>
    match mb.call c with
    | .error f => .error f
    | .ok (r, mb1) =>
      match messageBuffer.calls mb1 cs with
      | .error f => .error f
      | .ok (rs, mb2) => .ok (r :: rs, mb2)

/-- The call that a `BufOp` stands for. -/
def BufOp.toCall : BufOp → Call
  | .add v => .add v
  | .remove => .remove
  | .reset => .reset

/-- The ring buffer of the specification, one call: a FIFO queue `q` of capacity `C`
with `add(record) → ok | Full`, `remove() → record | Empty`, `size()`, `empty()`,
and `reset()` dropping all contents. -/
def specCall (C : Int) (q : List (Option bufferRecord)) :
    Call → Ret × List (Option bufferRecord)
  | .add v => if (q.length : Int) = C then (.err (some .bufferFull), q) else (.err none, q ++ [v])
  | .remove => match q with
    | [] => (.record none (some .bufferEmpty), [])
    | v :: q1 => (.record v none, q1)
  | .size => (.int q.length, q)
  | .empty => (.bool q.isEmpty, q)
  | .len => (.int C, q)
  | .reset => (.unit, [])

/-- The ring buffer of the specification, a sequence of calls. -/
def specCalls (C : Int) : List (Option bufferRecord) → List Call →
    List Ret × List (Option bufferRecord)
  | q, [] => ([], q)
  | q, c :: cs =>
    let r := specCall C q c
    let rest := specCalls C r.2 cs
    (r.1 :: rest.1, rest.2)

/-- The queue of the specification after a sequence of `add`, `remove` and `reset`
calls on an empty queue of capacity `C`. -/
def specQueue (C : Int) (ops : List BufOp) : List (Option bufferRecord) :=
  (specCalls C [] (ops.map BufOp.toCall)).2

/-- The number of `add` calls that returned nil. -/
def addsOk (rs : List Ret) : Nat :=
  rs.countP (fun r => match r with
    | .err none => true
    | _ => false)

/-- The number of `remove` calls that returned nil as error. -/
def removesOk (rs : List Ret) : Nat :=
  rs.countP (fun r => match r with
    | .record _ none => true
    | _ => false)

/-! ## syslog/mock/syslog_writer.go -/

namespace mock

/-- The mock `SyslogWriter` struct: the messages received, by level (the embedded
`syslog.Writer` is never used and the lock is not part of the sequential state). -/
structure SyslogWriter where
  EmergM : List GoString
  AlertM : List GoString
  CritM : List GoString
  ErrM : List GoString
  WarningM : List GoString
  NoticeM : List GoString
  InfoM : List GoString
  DebugM : List GoString
deriving DecidableEq, Repr

namespace SyslogWriter

/-- `Write`: the length of the bytes, nothing stored. -/
def Write (w : SyslogWriter) (b : GoString) : (Int × Option GoError) × SyslogWriter :=
  (((b.length : Int), none), w)

/-- `Close`. -/
def Close (w : SyslogWriter) : Option GoError × SyslogWriter := (none, w)

def Emerg (w : SyslogWriter) (m : GoString) : Option GoError × SyslogWriter :=
  (none, { w with EmergM := w.EmergM ++ [m] })

def Alert (w : SyslogWriter) (m : GoString) : Option GoError × SyslogWriter :=
  (none, { w with AlertM := w.AlertM ++ [m] })

def Crit (w : SyslogWriter) (m : GoString) : Option GoError × SyslogWriter :=
  (none, { w with CritM := w.CritM ++ [m] })

def Err (w : SyslogWriter) (m : GoString) : Option GoError × SyslogWriter :=
  (none, { w with ErrM := w.ErrM ++ [m] })

def Warning (w : SyslogWriter) (m : GoString) : Option GoError × SyslogWriter :=
  (none, { w with WarningM := w.WarningM ++ [m] })

def Notice (w : SyslogWriter) (m : GoString) : Option GoError × SyslogWriter :=
  (none, { w with NoticeM := w.NoticeM ++ [m] })

def Info (w : SyslogWriter) (m : GoString) : Option GoError × SyslogWriter :=
  (none, { w with InfoM := w.InfoM ++ [m] })

def Debug (w : SyslogWriter) (m : GoString) : Option GoError × SyslogWriter :=
  (none, { w with DebugM := w.DebugM ++ [m] })

/-- `TotalMessages`: the sum of the eight lengths. -/
def TotalMessages (w : SyslogWriter) : Int :=
  (w.EmergM.length : Int) + w.AlertM.length + w.CritM.length + w.ErrM.length +
    w.WarningM.length + w.NoticeM.length + w.InfoM.length + w.DebugM.length

/-- `Messages(l)`: the number of messages of a severity; the total for any other
level. -/
def Messages (w : SyslogWriter) (l : Int) : Int :=
  if l = LOG_EMERG then w.EmergM.length
  else if l = LOG_ALERT then w.AlertM.length
  else if l = LOG_CRIT then w.CritM.length
  else if l = LOG_ERR then w.ErrM.length
  else if l = LOG_WARNING then w.WarningM.length
  else if l = LOG_NOTICE then w.NoticeM.length
  else if l = LOG_INFO then w.InfoM.length
  else if l = LOG_DEBUG then w.DebugM.length
  else w.TotalMessages

/-- `Message(l, idx)`: the message number `idx` of a severity; the empty string
for a negative or too large index and for any other level. -/
def Message (w : SyslogWriter) (l : Int) (idx : Int) : GoString :=
  if idx < 0 then []
  else
    let m : Option (List GoString) :=
      if l = LOG_EMERG then some w.EmergM
      else if l = LOG_ALERT then some w.AlertM
      else if l = LOG_CRIT then some w.CritM
      else if l = LOG_ERR then some w.ErrM
      else if l = LOG_WARNING then some w.WarningM
      else if l = LOG_NOTICE then some w.NoticeM
      else if l = LOG_INFO then some w.InfoM
      else if l = LOG_DEBUG then some w.DebugM
      else none
    match m with
    | some ms => if (ms.length : Int) > idx then ms.getD idx.toNat [] else []
    | none => []

end SyslogWriter

/-- The mock as a value of the `SyslogWriter` interface: the world is the mock
itself. -/
def writer : Slogger.SyslogWriter SyslogWriter where
  Close w := w.Close
  Write b w := w.Write b
  Emerg m w := w.Emerg m
  Alert m w := w.Alert m
  Crit m w := w.Crit m
  Err m w := w.Err m
  Warning m w := w.Warning m
  Notice m w := w.Notice m
  Info m w := w.Info m
  Debug m w := w.Debug m

/-- The mock of `&mock.SyslogWriter{}`: no message yet. -/
def empty : SyslogWriter :=
  { EmergM := [], AlertM := [], CritM := [], ErrM := [], WarningM := [], NoticeM := [],
    InfoM := [], DebugM := [] }

end mock

/-- A runtime for the world of the mock: log lines and sleeps leave the mock alone. -/
def mockRuntime : Runtime mock.SyslogWriter where
  logPrintf _ w := w
  sleep w := w

/-! ### Concurrent producers

`add` takes the lock twice: `size()` reads head and tail under the read lock, which
is released before `add` takes the write lock for the insertion.  Each of the two
critical sections is one atomic step; steps of different goroutines interleave. -/

/-- The first critical section of `add`: the comparison `mb.size() == mb.len()`. -/
def messageBuffer.addCheck (mb : messageBuffer) : Bool := decide (mb.size = mb.len)

/-- The second critical section of `add`: the slot write and the advance of `tail`,
under the write lock. -/
def messageBuffer.addInsert (mb : messageBuffer) (v : Option bufferRecord) :
    Except Fault messageBuffer :=
  let l : Int := mb.buffer.length
  if 0 ≤ mb.tail ∧ mb.tail < l then
    .ok { mb with buffer := mb.buffer.set mb.tail.toNat v, tail := (mb.tail + 1) % l }
  else .error .panic

/-- A goroutine inside `add(v)`: `pc = 0` before the check, `pc = 1` between the check
and the insertion, `pc = 2` after the return, with the error it returned. -/
structure Producer where
  v : Option bufferRecord
  pc : Nat
  result : Option (Option GoError)
deriving DecidableEq, Repr

/-- A goroutine that is about to call `add(v)`. -/
def Producer.start (v : Option bufferRecord) : Producer := { v := v, pc := 0, result := none }

/-- One atomic step of a goroutine inside `add`. -/
def Producer.step (mb : messageBuffer) (p : Producer) : Except Fault (messageBuffer × Producer) :=
  if p.pc = 0 then
    if mb.addCheck then .ok (mb, { p with pc := 2, result := some (some .bufferFull) })
    else .ok (mb, { p with pc := 1 })
  else if p.pc = 1 then
    match mb.addInsert p.v with
    | .error f => .error f
    | .ok mb1 => .ok (mb1, { p with pc := 2, result := some none })
  else .ok (mb, p)

/-- Run the goroutines under a schedule: each entry names the goroutine that takes
the next step. -/
def runSchedule : messageBuffer → List Producer → List Nat →
    Except Fault (messageBuffer × List Producer)
  | mb, ps, [] => .ok (mb, ps)
  | mb, ps, i :: sched =>
    match ps.get? i with
    | none => runSchedule mb ps sched
    | some p =>
      match p.step mb with
      | .error f => .error f
      | .ok (mb1, p1) => runSchedule mb1 (ps.set i p1) sched

/-- What can be seen after a schedule on a fresh buffer of capacity `C`: the slots,
head, tail, `size()`, `empty()` and the errors the goroutines returned. -/
def raceOutcome (C : Int) (vs : List (Option bufferRecord)) (sched : List Nat) :
    Option (List (Option bufferRecord) × Int × Int × Int × Bool ×
      List (Option (Option GoError))) :=
  match newMessageBuffer C with
  | .error _ => none
  | .ok mb0 =>
    match runSchedule mb0 (vs.map Producer.start) sched with
    | .error _ => none
    | .ok (mb, ps) => some (mb.buffer, mb.head, mb.tail, mb.size, mb.empty, ps.map (·.result))

/-- An environment in which nothing fails and the server refuses the offer: the
frame read is readable, and its payload starts with "500", not with "200 OK". -/
def refusingEnv : Env := { ackEnv with input := fun _ => (ascii "1 rsp 8 500 nope\n", .eof) }

/-- A client before its first connect, as `Dial` builds it. -/
def exFreshClient : Client :=
  { priority := 28, tag := ascii "tag", hostname := ascii "host", raddr := ascii "server:2514",
    timeout := 5, connection := none, nextTxn := 0 }

/-- A printing ASCII byte: neither white space nor part of the encoding of a rune
above U+007F. -/
def plainByte (b : UInt8) : Prop := 32 < b.toNat ∧ b.toNat < 128

/-- A `syslog` message whose data holds spaces and a line feed. -/
def exMessage : Message := { Txn := 7, Command := CommandSyslog, Data := ascii "a b\nc" }


/-- The decimal numeral of the specification: the base ten digits of the absolute value, most
significant first (`0` for zero), after a `-` for a negative number. -/
def decimal (i : Int) : GoString :=
  let ds : GoString :=
    if i.natAbs = 0 then [48]
    else (Nat.digits 10 i.natAbs).reverse.map (fun d => UInt8.ofNat (48 + d))
  if i < 0 then 45 :: ds else ds


/-- The syslog line in the words of the specification, for the priority value `pr`: `m` loses
one trailing line feed when it ends in one. -/
def specLine (pr : Int) (timestamp hostname t : GoString) (pid : Int) (m : GoString) : GoString :=
  ascii "<" ++ decimal pr ++ ascii ">" ++ timestamp ++ ascii " " ++ hostname ++ ascii " " ++ t ++
    ascii "[" ++ decimal pid ++ ascii "]: " ++ (if m.getLast? = some 10 then m.dropLast else m)


/-- The bytes handed to `Write`, with the connection they went to, oldest first. -/
def wireBytes (t : NetTrace) : List (Conn × GoString) :=
  t.filterMap (fun e => match e with
    | .send conn m _ => some (conn, m.frame)
    | _ => none)


/-- An environment in which nothing fails and the server answers every frame with a response
that declares `2^62` data bytes and carries six. -/
def hugeLengthEnv : Env :=
  { ackEnv with input := fun _ => (ascii "2 rsp 4611686018427387904 200 OK\n", .eof) }

/-! # Properties -/

/-! ## Arithmetic of the indices -/

theorem int_succ_emod (x l : Int) (h0 : 0 ≤ x) (h1 : x < l) :
    (x + 1) % l = if x + 1 = l then 0 else x + 1 := by
  split
  · next h => rw [h]; exact Int.emod_self
  · next h => exact Int.emod_eq_of_lt (by omega) (by omega)

theorem nat_mod_wrap (x l : Nat) (h : x < 2 * l) :
    x % l = if x < l then x else x - l := by
  split
  · next h1 => exact Nat.mod_eq_of_lt h1
  · next h1 =>
    rw [Nat.mod_eq_sub_mod (by omega)]
    exact Nat.mod_eq_of_lt (by omega)

/-! ## The ring buffer as a queue -/

theorem messageBuffer.size_bounds (mb : messageBuffer) (hwf : mb.wf) :
    0 ≤ mb.size ∧ mb.size ≤ mb.len := by
  obtain ⟨h0, h1, t0, t1⟩ := hwf
  unfold messageBuffer.size messageBuffer.len
  split <;> constructor <;> omega

theorem messageBuffer.contents_length (mb : messageBuffer) :
    mb.contents.length = mb.size.toNat := by
  simp [messageBuffer.contents]

theorem messageBuffer.empty_iff_size (mb : messageBuffer) (hwf : mb.wf) :
    mb.empty = true ↔ mb.size = 0 := by
  obtain ⟨h0, h1, t0, t1⟩ := hwf
  unfold messageBuffer.size messageBuffer.empty
  simp only [decide_eq_true_eq]
  split <;> constructor <;> intro h <;> omega

/-- A successful `add` appends the record to the queue. -/
theorem messageBuffer.add_spec (mb : messageBuffer) (v : Option bufferRecord)
    (hwf : mb.wf) (hne : mb.size ≠ mb.len) :
    ∃ mb1, mb.add v = .ok (none, mb1) ∧ mb1.wf ∧
      mb1.buffer.length = mb.buffer.length ∧ mb1.size = mb.size + 1 ∧
      mb1.contents = mb.contents ++ [v] := by
  obtain ⟨buf, head, tail⟩ := mb
  obtain ⟨h0, h1, t0, t1⟩ := hwf
  simp only at h0 h1 t0 t1
  lift head to ℕ using h0
  lift tail to ℕ using t0
  have hsz := hne
  simp only [messageBuffer.size, messageBuffer.len] at hsz
  refine ⟨⟨buf.set tail v, head, ((tail : Int) + 1) % buf.length⟩, ?_, ?_, ?_, ?_, ?_⟩
  · simp only [messageBuffer.add, if_neg hne]
    rw [if_pos ⟨by omega, t1⟩]
    simp
  · simp only [messageBuffer.wf, List.length_set]
    rw [int_succ_emod _ _ (by omega) t1]
    refine ⟨by omega, h1, ?_, ?_⟩ <;> split <;> omega
  · simp
  · clear hne
    simp only [messageBuffer.size, List.length_set]
    rw [int_succ_emod _ _ (by omega) t1]
    split_ifs at hsz ⊢ <;> omega
  · clear hne
    have hL : tail < buf.length := by omega
    have hsize : (messageBuffer.size ⟨buf.set tail v, head, ((tail : Int) + 1) % buf.length⟩).toNat
        = (messageBuffer.size ⟨buf, head, tail⟩).toNat + 1 := by
      simp only [messageBuffer.size, List.length_set]
      rw [int_succ_emod _ _ (by omega) t1]
      split_ifs at hsz ⊢ <;> omega
    have hs : (messageBuffer.size ⟨buf, head, tail⟩).toNat
        = if head > tail then buf.length - head + tail else tail - head := by
      simp only [messageBuffer.size]
      split_ifs <;> omega
    simp only [messageBuffer.contents, hsize, List.range_succ, List.map_append, List.map_cons,
      List.map_nil, Int.toNat_ofNat, List.length_set]
    congr 1
    · apply List.map_congr_left
      intro i hi
      rw [List.mem_range, hs] at hi
      have hne : (head + i) % buf.length ≠ tail := by
        rw [nat_mod_wrap _ _ (by split_ifs at hi <;> omega)]
        split_ifs at hi ⊢ <;> omega
      simp [List.getD_eq_getElem?_getD, List.getElem?_set, Ne.symm hne]
    · have he : (head + (messageBuffer.size ⟨buf, head, tail⟩).toNat) % buf.length = tail := by
        rw [hs, nat_mod_wrap _ _ (by split_ifs <;> omega)]
        split_ifs <;> omega
      simp [he, List.getD_eq_getElem?_getD, List.getElem?_set, hL]

/-- A successful `remove` takes the oldest record off the queue. -/
theorem messageBuffer.remove_spec (mb : messageBuffer) (hwf : mb.wf) (hne : mb.head ≠ mb.tail) :
    ∃ v mb1, mb.remove = .ok ((v, none), mb1) ∧ mb1.wf ∧
      mb1.buffer.length = mb.buffer.length ∧ mb1.size = mb.size - 1 ∧
      mb1.tail = mb.tail ∧ mb1.buffer = mb.buffer ∧
      mb.contents = v :: mb1.contents := by
  obtain ⟨buf, head, tail⟩ := mb
  obtain ⟨h0, h1, t0, t1⟩ := hwf
  simp only at h0 h1 t0 t1 hne
  lift head to ℕ using h0
  lift tail to ℕ using t0
  have hcast : ((head : Int) + 1) % (buf.length : Int) = (((head + 1) % buf.length : ℕ) : Int) := by
    norm_cast
  refine ⟨buf.getD head none, ⟨buf, ((head : Int) + 1) % buf.length, tail⟩, ?_, ?_, rfl, ?_, rfl,
    rfl, ?_⟩
  · simp only [messageBuffer.remove, messageBuffer.empty, decide_eq_true_eq, if_neg hne]
    rw [if_pos ⟨by omega, h1⟩]
    simp
  · simp only [messageBuffer.wf]
    rw [int_succ_emod _ _ (by omega) h1]
    refine ⟨?_, ?_, by omega, t1⟩ <;> split <;> omega
  · simp only [messageBuffer.size]
    rw [int_succ_emod _ _ (by omega) h1]
    split_ifs <;> omega
  · have hsize : (messageBuffer.size ⟨buf, head, tail⟩).toNat
        = (messageBuffer.size ⟨buf, ((head : Int) + 1) % buf.length, tail⟩).toNat + 1 := by
      simp only [messageBuffer.size]
      rw [int_succ_emod _ _ (by omega) h1]
      split_ifs <;> omega
    simp only [messageBuffer.contents, hsize, List.range_succ_eq_map, List.map_cons, List.map_map,
      Int.toNat_ofNat, hcast, Nat.add_zero]
    congr 1
    · rw [Nat.mod_eq_of_lt (by omega)]
    · apply List.map_congr_left
      intro i _
      simp only [Function.comp, Nat.mod_add_mod]
      congr 2
      omega

theorem newMessageBuffer_spec (C : Int) (hC : 0 ≤ C) :
    ∃ mb, newMessageBuffer C = .ok mb ∧ mb.wf ∧ mb.len = C ∧ mb.contents = [] ∧
      mb.head = 0 ∧ mb.tail = 0 := by
  refine ⟨⟨List.replicate (C + 1).toNat none, 0, 0⟩, ?_, ?_, ?_, ?_, rfl, rfl⟩
  · simp only [newMessageBuffer]
    rw [if_neg (by omega)]
  · simp only [messageBuffer.wf, List.length_replicate]
    omega
  · simp only [messageBuffer.len, List.length_replicate]
    omega
  · simp [messageBuffer.contents, messageBuffer.size]

theorem addAll_spec (recs : List (Option bufferRecord)) :
    ∀ mb : messageBuffer, mb.wf → mb.size + recs.length ≤ mb.len →
      ∃ mb1, addAll mb recs = .ok (List.replicate recs.length none, mb1) ∧ mb1.wf ∧
        mb1.len = mb.len ∧ mb1.size = mb.size + recs.length ∧
        mb1.contents = mb.contents ++ recs := by
  induction recs with
  | nil => intro mb hwf _; exact ⟨mb, rfl, hwf, rfl, by simp, by simp⟩
  | cons v vs ih =>
    intro mb hwf hle
    simp only [List.length_cons, Nat.cast_add, Nat.cast_one] at hle
    obtain ⟨mb1, hadd, hwf1, hlen1, hsize1, hc1⟩ := mb.add_spec v hwf (by omega)
    have hl1 : mb1.len = mb.len := by simp only [messageBuffer.len, hlen1]
    obtain ⟨mb2, hall, hwf2, hlen2, hsize2, hc2⟩ := ih mb1 hwf1 (by rw [hl1, hsize1]; omega)
    refine ⟨mb2, ?_, hwf2, by rw [hlen2, hl1], ?_, ?_⟩
    · simp only [addAll, hadd, hall, List.length_cons, List.replicate_succ]
    · rw [hsize2, hsize1]; simp only [List.length_cons, Nat.cast_add, Nat.cast_one]; omega
    · rw [hc2, hc1]; simp

theorem removeN_spec (recs : List (Option bufferRecord)) :
    ∀ (mb : messageBuffer) (rest : List (Option bufferRecord)), mb.wf →
      mb.contents = recs ++ rest →
      ∃ mb1, removeN recs.length mb = .ok (recs.map (fun r => (r, none)), mb1) ∧ mb1.wf ∧
        mb1.len = mb.len ∧ mb1.contents = rest ∧ mb1.tail = mb.tail ∧
        mb1.buffer = mb.buffer := by
  induction recs with
  | nil => intro mb rest hwf hc; exact ⟨mb, rfl, hwf, rfl, by simpa using hc, rfl, rfl⟩
  | cons v vs ih =>
    intro mb rest hwf hc
    have hne : mb.head ≠ mb.tail := by
      intro h
      have hl := mb.contents_length
      rw [hc] at hl
      simp only [messageBuffer.size, h, gt_iff_lt, lt_self_iff_false, if_false, sub_self,
        Int.toNat_zero, List.cons_append, List.length_cons] at hl
      omega
    obtain ⟨w, mb1, hrem, hwf1, hlen1, _, htail1, hbuf1, hc1⟩ := mb.remove_spec hwf hne
    rw [hc] at hc1
    simp only [List.cons_append, List.cons.injEq] at hc1
    obtain ⟨hv, hrest⟩ := hc1
    subst hv
    obtain ⟨mb2, hall, hwf2, hlen2, hc2, htail2, hbuf2⟩ := ih mb1 rest hwf1 hrest.symm
    refine ⟨mb2, ?_, hwf2, ?_, hc2, by rw [htail2, htail1], by rw [hbuf2, hbuf1]⟩
    · simp only [List.length_cons, removeN, hrem, hall, List.map_cons]
    · rw [hlen2]; simp only [messageBuffer.len, hlen1]

/-- C1. FIFO law of the ring buffer: on a buffer made by `newMessageBuffer C`, adding a list of
at most `C` records succeeds for every record (each `add` returns nil), and as many `remove`
calls then all succeed and return exactly those records in insertion order, leaving the buffer
empty.  (Stated for every `C` that admits such a list, so also for `C = 0` with no record.) -/
theorem C1_fifo_law (C : Int) (recs : List (Option bufferRecord))
    (hN : (recs.length : Int) ≤ C) :
    ∃ mb0 mb1 mb2, newMessageBuffer C = .ok mb0 ∧
      addAll mb0 recs = .ok (List.replicate recs.length none, mb1) ∧
      removeN recs.length mb1 = .ok (recs.map (fun r => (r, none)), mb2) ∧
      mb2.empty = true := by
  obtain ⟨mb0, hnew, hwf0, hlen0, hc0, hh0, ht0⟩ := newMessageBuffer_spec C (by omega)
  have hs0 : mb0.size = 0 := by simp [messageBuffer.size, hh0, ht0]
  obtain ⟨mb1, hadd, hwf1, _, _, hc1⟩ := addAll_spec recs mb0 hwf0 (by rw [hs0, hlen0]; omega)
  rw [hc0, List.nil_append] at hc1
  obtain ⟨mb2, hrem, hwf2, _, hc2, _, _⟩ := removeN_spec recs mb1 [] hwf1 (by simpa using hc1)
  refine ⟨mb0, mb1, mb2, hnew, hadd, hrem, ?_⟩
  rw [mb2.empty_iff_size hwf2]
  have hl := mb2.contents_length
  rw [hc2] at hl
  have := (mb2.size_bounds hwf2).1
  simp only [List.length_nil] at hl
  omega

/-! ## Reachable buffer states -/

theorem messageBuffer.add_full (mb : messageBuffer) (v : Option bufferRecord)
    (h : mb.size = mb.len) : mb.add v = .ok (some .bufferFull, mb) := by
  simp only [messageBuffer.add, if_pos h]

theorem messageBuffer.remove_empty (mb : messageBuffer) (h : mb.head = mb.tail) :
    mb.remove = .ok ((none, some .bufferEmpty), mb) := by
  simp [messageBuffer.remove, messageBuffer.empty, h]

theorem messageBuffer.reset_wf (mb : messageBuffer) (hwf : mb.wf) :
    mb.reset.wf ∧ mb.reset.len = mb.len := by
  obtain ⟨h0, h1, t0, t1⟩ := hwf
  exact ⟨⟨le_refl 0, by show (0 : Int) < mb.buffer.length; omega, le_refl 0,
    by show (0 : Int) < mb.buffer.length; omega⟩, rfl⟩

theorem applyOp_wf (mb : messageBuffer) (op : BufOp) (hwf : mb.wf) :
    ∃ mb1, applyOp mb op = .ok mb1 ∧ mb1.wf ∧ mb1.len = mb.len := by
  cases op with
  | add v =>
    by_cases h : mb.size = mb.len
    · exact ⟨mb, by simp only [applyOp, mb.add_full v h], hwf, rfl⟩
    · obtain ⟨mb1, hadd, hwf1, hl, _, _⟩ := mb.add_spec v hwf h
      exact ⟨mb1, by simp only [applyOp, hadd], hwf1, by simp only [messageBuffer.len, hl]⟩
  | remove =>
    by_cases h : mb.head = mb.tail
    · exact ⟨mb, by simp only [applyOp, mb.remove_empty h], hwf, rfl⟩
    · obtain ⟨w, mb1, hrem, hwf1, hl, _, _, _, _⟩ := mb.remove_spec hwf h
      exact ⟨mb1, by simp only [applyOp, hrem], hwf1, by simp only [messageBuffer.len, hl]⟩
  | reset => exact ⟨mb.reset, rfl, (mb.reset_wf hwf).1, (mb.reset_wf hwf).2⟩

theorem runOps_wf (ops : List BufOp) :
    ∀ mb : messageBuffer, mb.wf → ∃ mb1, runOps mb ops = .ok mb1 ∧ mb1.wf ∧ mb1.len = mb.len := by
  induction ops with
  | nil => intro mb hwf; exact ⟨mb, rfl, hwf, rfl⟩
  | cons op ops ih =>
    intro mb hwf
    obtain ⟨mb1, h1, hwf1, hl1⟩ := applyOp_wf mb op hwf
    obtain ⟨mb2, h2, hwf2, hl2⟩ := ih mb1 hwf1
    exact ⟨mb2, by simp only [runOps, h1, h2], hwf2, by rw [hl2, hl1]⟩

/-- Every state reached from `newMessageBuffer C` by `add`, `remove` and `reset` calls
exists (no call panics), is well formed and has `len() = C`. -/
theorem reachable_wf (C : Int) (hC : 0 ≤ C) (ops : List BufOp) :
    ∃ mb0 mb, newMessageBuffer C = .ok mb0 ∧ runOps mb0 ops = .ok mb ∧ mb.wf ∧ mb.len = C := by
  obtain ⟨mb0, hnew, hwf0, hlen0, _, _, _⟩ := newMessageBuffer_spec C hC
  obtain ⟨mb, hrun, hwf, hlen⟩ := runOps_wf ops mb0 hwf0
  exact ⟨mb0, mb, hnew, hrun, hwf, by rw [hlen, hlen0]⟩

/-- `Send` on a sender whose buffer is `mb` returns an error exactly when `add` on `mb` does. -/
theorem syslog.Send_error_iff {W : Type} (s : syslog W) (mb : messageBuffer)
    (hs : s.syslogBuffer = some mb) (now : GoString) (ctx : Context) (level : Int)
    (v : GoString) (err : Option GoError) (mb1 : messageBuffer)
    (hadd : mb.add (some ⟨ctx, now, level, v⟩) = .ok (err, mb1)) :
    ∃ e, s.Send now ctx level v = .ok (e, { s with syslogBuffer := some mb1 }) ∧
      (e.isSome ↔ err.isSome) := by
  cases err with
  | none => exact ⟨none, by simp only [syslog.Send, hs, hadd], by simp⟩
  | some x => exact ⟨some (.cannotAdd x), by simp only [syslog.Send, hs, hadd], by simp⟩

/-- C2. Enqueue on a full buffer fails fast and changes nothing: in every state `mb` reached
from `newMessageBuffer C` (`C ≥ 0`) by a sequence of `add`, `remove` and `reset` calls, `add v`
returns an error if and only if `size() = C`; in that case the state (head, tail and all slots)
is unchanged, and otherwise the result is nil and `size()` has grown by exactly one.  `Send` on
a sender holding that buffer returns an error exactly when its `add` does, that is, exactly
when `C` records are queued. -/
theorem C2_add_on_full_buffer (C : Int) (hC : 0 ≤ C) (ops : List BufOp)
    (v : Option bufferRecord) :
    ∃ mb0 mb, newMessageBuffer C = .ok mb0 ∧ runOps mb0 ops = .ok mb ∧ mb.len = C ∧
      (∃ err mb1, mb.add v = .ok (err, mb1) ∧
        (err.isSome ↔ mb.size = C) ∧
        (mb.size = C → err = some .bufferFull ∧ mb1 = mb) ∧
        (mb.size ≠ C → err = none ∧ mb1.size = mb.size + 1)) ∧
      (∀ (W : Type) (s : syslog W) (now : GoString) (ctx : Context) (level : Int)
          (val : GoString), s.syslogBuffer = some mb →
        ∃ e s1 err mb1, s.Send now ctx level val = .ok (e, s1) ∧
          mb.add (some ⟨ctx, now, level, val⟩) = .ok (err, mb1) ∧
          s1.syslogBuffer = some mb1 ∧
          (e.isSome ↔ err.isSome) ∧ (e.isSome ↔ mb.size = C)) := by
  obtain ⟨mb0, mb, hnew, hrun, hwf, hlen⟩ := reachable_wf C hC ops
  have key : ∀ x : Option bufferRecord, ∃ err mb1, mb.add x = .ok (err, mb1) ∧
      (err.isSome ↔ mb.size = C) ∧
      (mb.size = C → err = some .bufferFull ∧ mb1 = mb) ∧
      (mb.size ≠ C → err = none ∧ mb1.size = mb.size + 1) := by
    intro x
    by_cases h : mb.size = C
    · refine ⟨some .bufferFull, mb, mb.add_full x (by rw [h, hlen]), by simp [h], ?_, ?_⟩
      · intro _; exact ⟨rfl, rfl⟩
      · intro h1; exact absurd h h1
    · obtain ⟨mb1, hadd, _, _, hsz, _⟩ := mb.add_spec x hwf (by rw [hlen]; exact h)
      refine ⟨none, mb1, hadd, by simp [h], ?_, ?_⟩
      · intro h1; exact absurd h1 h
      · intro _; exact ⟨rfl, hsz⟩
  refine ⟨mb0, mb, hnew, hrun, hlen, key v, ?_⟩
  intro W s now ctx level val hs
  obtain ⟨err, mb1, hadd, hiff, _, _⟩ := key (some ⟨ctx, now, level, val⟩)
  obtain ⟨e, hsend, he⟩ := s.Send_error_iff mb hs now ctx level val err mb1 hadd
  exact ⟨e, _, err, mb1, hsend, hadd, rfl, he, he.trans hiff⟩

/-! ## The drain loops -/

theorem take_succ_set {α : Type} (l : List α) (i : Nat) (a : α) (h : i < l.length) :
    (l.set i a).take (i + 1) = l.take i ++ [a] := by
  rw [List.take_succ, List.set_take, List.set_eq_of_length_le (by simp)]
  simp [h]

theorem messageBuffer.contents_nil_iff (mb : messageBuffer) (hwf : mb.wf) :
    mb.contents = [] ↔ mb.head = mb.tail := by
  have hl := mb.contents_length
  have hb := (mb.size_bounds hwf).1
  have he := mb.empty_iff_size hwf
  simp only [messageBuffer.empty, decide_eq_true_eq] at he
  rw [he]
  constructor
  · intro h; rw [h] at hl; simp only [List.length_nil] at hl; omega
  · intro h; rw [h] at hl; exact List.length_eq_zero.mp (by simpa using hl)

/-- The tick loop takes the `min (queued) (maxRecsToSend - i)` oldest records into
`recs[i:]` and leaves the others queued. -/
theorem syslog.tickLoop_spec {W : Type} (rt : Runtime W) (M : Nat) :
    ∀ (q : List (Option bufferRecord)) (fuel : Nat) (mb : messageBuffer) (i : Nat)
      (recs : List (Option bufferRecord)) (w : W),
      mb.wf → mb.contents = q → i ≤ M → recs.length = M → q.length < fuel →
      ∃ mb1 recs1,
        syslog.tickLoop rt M fuel mb i recs w
          = .ok (mb1, ((i + min q.length (M - i) : Nat) : Int), recs1, w) ∧
        mb1.wf ∧ mb1.len = mb.len ∧ mb1.contents = q.drop (min q.length (M - i)) ∧
        recs1.length = M ∧
        recs1.take (i + min q.length (M - i)) = recs.take i ++ q.take (min q.length (M - i)) := by
  intro q
  induction q with
  | nil =>
    intro fuel mb i recs w hwf hq _ hrecs hfuel
    obtain ⟨f, rfl⟩ : ∃ f, fuel = f + 1 := ⟨fuel - 1, by simp at hfuel; omega⟩
    have he : mb.empty = true := by
      simp only [messageBuffer.empty, decide_eq_true_eq]
      exact (mb.contents_nil_iff hwf).mp hq
    refine ⟨mb, recs, ?_, hwf, rfl, by simpa using hq, hrecs, by simp⟩
    simp [syslog.tickLoop, he]
  | cons v q ih =>
    intro fuel mb i recs w hwf hq hi hrecs hfuel
    obtain ⟨f, rfl⟩ : ∃ f, fuel = f + 1 := ⟨fuel - 1, by simp at hfuel; omega⟩
    have hne : mb.head ≠ mb.tail := by
      intro h
      rw [(mb.contents_nil_iff hwf).mpr h] at hq
      exact List.noConfusion hq
    have he : mb.empty = false := by simp [messageBuffer.empty, hne]
    by_cases hlt : i < M
    · obtain ⟨x, mb1, hrem, hwf1, hl1, _, _, _, hc1⟩ := mb.remove_spec hwf hne
      rw [hq] at hc1
      simp only [List.cons.injEq] at hc1
      obtain ⟨hx, hq1⟩ := hc1
      subst hx
      simp only [List.length_cons, Nat.succ_lt_succ_iff] at hfuel
      obtain ⟨mb2, recs2, hrun, hwf2, hl2, hc2, hlen2, htake2⟩ :=
        ih f mb1 (i + 1) (recs.set i v) w hwf1 hq1.symm (by omega) (by simpa using hrecs) hfuel
      have hmin : min (q.length + 1) (M - i) = min q.length (M - (i + 1)) + 1 := by omega
      refine ⟨mb2, recs2, ?_, hwf2, ?_, ?_, hlen2, ?_⟩
      · have hcond : mb.empty = false ∧ (i : Int) < (M : Int) := ⟨he, by omega⟩
        have hin : (0 : Int) ≤ (i : Int) ∧ (i : Int) < (recs.length : Int) := by omega
        simp only [syslog.tickLoop, if_pos hcond, hrem, if_pos hin, Int.toNat_ofNat]
        have hidx : ((i : Int) + 1) = ((i + 1 : Nat) : Int) := by push_cast; rfl
        rw [hidx, hrun, List.length_cons, hmin]
        congr 4
        omega
      · rw [hl2]; simp only [messageBuffer.len, hl1]
      · rw [hc2, List.length_cons, hmin, List.drop_succ_cons]
      · rw [List.length_cons, hmin, List.take_succ_cons]
        have e1 : i + (min q.length (M - (i + 1)) + 1) = i + 1 + min q.length (M - (i + 1)) := by
          omega
        rw [e1, htake2, take_succ_set recs i v (by omega)]
        simp
    · have hiM : i = M := by omega
      subst hiM
      refine ⟨mb, recs, ?_, hwf, rfl, by simpa using hq, hrecs, by simp⟩
      have hcond : ¬ (mb.empty = false ∧ (i : Int) < (i : Int)) := by
        intro h; omega
      simp [syslog.tickLoop, hcond]

/-- The cancellation loop takes every queued record, in order. -/
theorem syslog.doneLoop_spec {W : Type} (rt : Runtime W) :
    ∀ (q : List (Option bufferRecord)) (fuel : Nat) (mb : messageBuffer)
      (recs : List (Option bufferRecord)) (w : W),
      mb.wf → mb.contents = q → q.length < fuel →
      ∃ mb1, syslog.doneLoop rt fuel mb recs w = .ok (mb1, recs ++ q, w) ∧
        mb1.wf ∧ mb1.len = mb.len ∧ mb1.contents = [] ∧ mb1.empty = true := by
  intro q
  induction q with
  | nil =>
    intro fuel mb recs w hwf hq hfuel
    obtain ⟨f, rfl⟩ : ∃ f, fuel = f + 1 := ⟨fuel - 1, by simp at hfuel; omega⟩
    have he : mb.empty = true := by
      simp only [messageBuffer.empty, decide_eq_true_eq]
      exact (mb.contents_nil_iff hwf).mp hq
    exact ⟨mb, by simp [syslog.doneLoop, he], hwf, rfl, hq, he⟩
  | cons v q ih =>
    intro fuel mb recs w hwf hq hfuel
    obtain ⟨f, rfl⟩ : ∃ f, fuel = f + 1 := ⟨fuel - 1, by simp at hfuel; omega⟩
    have hne : mb.head ≠ mb.tail := by
      intro h
      rw [(mb.contents_nil_iff hwf).mpr h] at hq
      exact List.noConfusion hq
    have he : mb.empty = false := by simp [messageBuffer.empty, hne]
    obtain ⟨x, mb1, hrem, hwf1, hl1, _, _, _, hc1⟩ := mb.remove_spec hwf hne
    rw [hq] at hc1
    simp only [List.cons.injEq] at hc1
    obtain ⟨hx, hq1⟩ := hc1
    subst hx
    simp only [List.length_cons, Nat.succ_lt_succ_iff] at hfuel
    obtain ⟨mb2, hrun, hwf2, hl2, hc2, he2⟩ := ih f mb1 (recs ++ [v]) w hwf1 hq1.symm hfuel
    refine ⟨mb2, ?_, hwf2, ?_, hc2, he2⟩
    · simp only [syslog.doneLoop, he, if_true, hrem, hrun]
      simp
    · rw [hl2]; simp only [messageBuffer.len, hl1]

/-! ## Dispatch on the recording transport -/

theorem wire_append (t1 t2 : Trace) : wire (t1 ++ t2) = wire t1 ++ wire t2 := by
  simp [wire]

theorem written_append (t1 t2 : Trace) : written (t1 ++ t2) = written t1 ++ written t2 := by
  simp [written]

/-- The tail of `toSyslog` after a recorded call: the call reaches the wire, the
log line does not. -/
theorem recordCall_then_log (T : Transport) (m : Method) (st : GoString) (t : Trace) :
    wire (match (recordCall T m st t).1 with
        | some err => traceRuntime.logPrintf (.cannotSend err) (recordCall T m st t).2
        | none => (recordCall T m st t).2) = wire t ++ [Wire.call m st] ∧
    written (match (recordCall T m st t).1 with
        | some err => traceRuntime.logPrintf (.cannotSend err) (recordCall T m st t).2
        | none => (recordCall T m st t).2) = written t ++ [(m, st)] ∧
    List.countP isDial (match (recordCall T m st t).1 with
        | some err => traceRuntime.logPrintf (.cannotSend err) (recordCall T m st t).2
        | none => (recordCall T m st t).2) = List.countP isDial t := by
  simp only [recordCall, traceRuntime]
  cases T.writeErr (List.countP isCall t) <;>
    simp [wire, written, Event.wire, isDial]

/-- On the recording transport `toSyslog` makes the one call selected by the level, or none. -/
theorem syslog.toSyslog_recording (T : Transport) (lvl : Int) (st : GoString) (t : Trace) :
    wire (syslog.toSyslog traceRuntime (recordingWriter T) lvl st t)
      = wire t ++ ((methodOf lvl).map (fun m => Wire.call m st)).toList ∧
    written (syslog.toSyslog traceRuntime (recordingWriter T) lvl st t)
      = written t ++ ((methodOf lvl).map (fun m => (m, st))).toList ∧
    List.countP isDial (syslog.toSyslog traceRuntime (recordingWriter T) lvl st t)
      = List.countP isDial t := by
  unfold syslog.toSyslog methodOf
  split_ifs
  · exact recordCall_then_log T .Emerg st t
  · exact recordCall_then_log T .Alert st t
  · exact recordCall_then_log T .Crit st t
  · exact recordCall_then_log T .Err st t
  · exact recordCall_then_log T .Warning st t
  · exact recordCall_then_log T .Notice st t
  · exact recordCall_then_log T .Info st t
  · exact recordCall_then_log T .Debug st t
  · simp

theorem syslog.writeRecords_recording (T : Transport) :
    ∀ (rs : List bufferRecord) (t : Trace),
      ∃ t1, syslog.writeRecords traceRuntime (recordingWriter T) (rs.map some) t = .ok t1 ∧
        wire t1 = wire t ++ (callsOf rs).map (fun c => Wire.call c.1 c.2) ∧
        written t1 = written t ++ callsOf rs := by
  intro rs
  induction rs with
  | nil => intro t; exact ⟨t, rfl, by simp [callsOf], by simp [callsOf]⟩
  | cons r rs ih =>
    intro t
    obtain ⟨hw, hwr, _⟩ := syslog.toSyslog_recording T r.level r.value t
    obtain ⟨t1, hrun, hw1, hwr1⟩ :=
      ih (syslog.toSyslog traceRuntime (recordingWriter T) r.level r.value t)
    refine ⟨t1, by simp only [List.map_cons, syslog.writeRecords, hrun], ?_, ?_⟩
    · rw [hw1, hw]
      cases h : methodOf r.level <;> simp [callsOf, List.filterMap_cons, h]
    · rw [hwr1, hwr]
      cases h : methodOf r.level <;> simp [callsOf, List.filterMap_cons, h]

/-- Dispatch of a batch on the recording transport, when the configuration is not empty and
the next dial succeeds: one session carrying the calls of the batch, or nothing at all for an
empty batch. -/
theorem syslog.toSyslogBulk_recording (T : Transport) (s : syslog Trace) (ctx : Context)
    (rs : List bufferRecord) (t : Trace) (fuel : Nat) (hfuel : 0 < fuel)
    (hcfg : s.syslogProtocol ≠ [] ∧ s.syslogAddr ≠ [] ∧ s.syslogTag ≠ [])
    (hdial : s.dialMethod = some (recordingDial T))
    (hok : T.dialOk (t.countP isDial) = true) :
    ∃ t1, syslog.toSyslogBulk traceRuntime fuel s ctx (rs.map some) t = .ok t1 ∧
      wire t1 = wire t ++ sessionWire s ctx rs ∧
      written t1 = written t ++ callsOf rs := by
  obtain ⟨f, rfl⟩ : ∃ f, fuel = f + 1 := ⟨fuel - 1, by omega⟩
  cases rs with
  | nil => exact ⟨t, by simp [syslog.toSyslogBulk], by simp [sessionWire], by simp [callsOf]⟩
  | cons r rs =>
    obtain ⟨hp, ha, htag⟩ := hcfg
    obtain ⟨t1, hrun, hw1, hwr1⟩ := syslog.writeRecords_recording T (r :: rs)
      (t ++ [.dial ctx s.syslogProtocol s.syslogAddr s.syslogTag true])
    refine ⟨(t1 ++ [.close (T.closeErr (t1.countP isClose))]), ?_, ?_, ?_⟩
    · have hcond : ¬ (s.syslogProtocol = [] ∨ s.syslogAddr = [] ∨ s.syslogTag = [] ∨
          ((r :: rs).map some).length = 0) := by
        simp [hp, ha, htag]
      simp only [syslog.toSyslogBulk, if_neg hcond, hdial, syslog.dialLoop, recordingDial, hok,
        if_true, hrun]
      simp only [recordingWriter]
    · rw [wire_append, hw1, wire_append]
      simp [wire, Event.wire, sessionWire]
    · rw [written_append, hwr1, written_append]
      simp [written]

theorem sessionWire_config (s s1 : syslog Trace) (ctx : Context) (rs : List bufferRecord)
    (hp : s1.syslogProtocol = s.syslogProtocol) (ha : s1.syslogAddr = s.syslogAddr)
    (ht : s1.syslogTag = s.syslogTag) : sessionWire s1 ctx rs = sessionWire s ctx rs := by
  cases rs <;> simp [sessionWire, hp, ha, ht]

theorem messageBuffer.size_of_contents (mb : messageBuffer) (hwf : mb.wf)
    (q : List (Option bufferRecord)) (hq : mb.contents = q) : mb.size = q.length := by
  have hl := mb.contents_length
  have hb := (mb.size_bounds hwf).1
  rw [hq] at hl
  omega

theorem methodOf_severity (lvl : Int) (h : isSeverity lvl) : ∃ m, methodOf lvl = some m := by
  obtain ⟨h0, h7⟩ := h
  unfold methodOf LOG_EMERG LOG_ALERT LOG_CRIT LOG_ERR LOG_WARNING LOG_NOTICE LOG_INFO LOG_DEBUG
  split_ifs <;> first | exact ⟨_, rfl⟩ | omega

/-- For records whose levels are severities, `callsOf` has one call per record: the method of
the record's level with the record's value. -/
theorem callsOf_severity (rs : List bufferRecord) (hsev : ∀ r ∈ rs, isSeverity r.level) :
    (callsOf rs).map (fun c => (some c.1, c.2)) = rs.map (fun r => (methodOf r.level, r.value)) := by
  induction rs with
  | nil => rfl
  | cons r rs ih =>
    obtain ⟨m, hm⟩ := methodOf_severity r.level (hsev r (List.mem_cons_self _ _))
    have ih1 := ih (fun x hx => hsev x (List.mem_cons_of_mem _ hx))
    simp only [callsOf] at ih1
    simp [callsOf, List.filterMap_cons, hm, ih1]

/-- The tick case on the recording transport. -/
theorem syslog.tickCase_recording (T : Transport) (s : syslog Trace) (mb : messageBuffer)
    (q : List bufferRecord) (M : Nat) (recs : List (Option bufferRecord)) (t : Trace)
    (ctx : Context) (fuel : Nat) (b : Bool)
    (hbuf : s.syslogBuffer = some mb) (hwf : mb.wf) (hq : mb.contents = q.map some)
    (hrecs : recs.length = M)
    (hcfg : s.syslogProtocol ≠ [] ∧ s.syslogAddr ≠ [] ∧ s.syslogTag ≠ [])
    (hdial : s.dialMethod = some (recordingDial T))
    (hok : T.dialOk (t.countP isDial) = true) (hfuel : q.length < fuel) :
    ∃ st1 mb1, syslog.tickCase traceRuntime fuel ctx M ⟨s, recs, b, t⟩ = .ok st1 ∧
      st1.stopped = false ∧ st1.s.syslogBuffer = some mb1 ∧ mb1.wf ∧ mb1.len = mb.len ∧
      st1.recs.length = M ∧
      st1.s.syslogProtocol = s.syslogProtocol ∧ st1.s.syslogAddr = s.syslogAddr ∧
      st1.s.syslogTag = s.syslogTag ∧ st1.s.dialMethod = s.dialMethod ∧
      mb.size = q.length ∧
      mb1.size = q.length - min q.length M ∧
      mb1.contents = (q.drop (min q.length M)).map some ∧
      wire st1.w = wire t ++ sessionWire s ctx (q.take (min q.length M)) ∧
      written st1.w = written t ++ callsOf (q.take (min q.length M)) ∧
      syslog.toSyslogBulk traceRuntime fuel st1.s ctx ((q.take (min q.length M)).map some) t
        = .ok st1.w := by
  obtain ⟨mb1, recs1, hloop, hwf1, hl1, hc1, hlen1, htake1⟩ :=
    syslog.tickLoop_spec traceRuntime M (q.map some) fuel mb 0 recs t hwf hq (Nat.zero_le _) hrecs
      (by simpa using hfuel)
  simp only [List.length_map, Nat.sub_zero, Nat.zero_add, List.take_zero, List.nil_append,
    Nat.cast_ofNat] at hloop hc1 htake1
  have hcfg1 : ({ s with syslogBuffer := some mb1 } : syslog Trace).syslogProtocol ≠ [] ∧
      ({ s with syslogBuffer := some mb1 } : syslog Trace).syslogAddr ≠ [] ∧
      ({ s with syslogBuffer := some mb1 } : syslog Trace).syslogTag ≠ [] := hcfg
  obtain ⟨t1, hbulk, hw1, hwr1⟩ := syslog.toSyslogBulk_recording T
    { s with syslogBuffer := some mb1 } ctx (q.take (min q.length M)) t fuel (by omega) hcfg1
    hdial hok
  refine ⟨⟨{ s with syslogBuffer := some mb1 }, recs1, false, t1⟩, mb1, ?_, rfl, rfl, hwf1, hl1,
    hlen1, rfl, rfl, rfl, rfl, ?_, ?_, ?_, ?_, hwr1, hbulk⟩
  · simp only [syslog.tickCase, hbuf]
    rw [show ((0 : Nat) : Int) = 0 from rfl] at hloop
    simp only [hloop, Int.toNat_ofNat, htake1, ← List.map_take, hbulk]
  · have := mb.size_of_contents hwf _ hq
    simpa using this
  · have := mb1.size_of_contents hwf1 _ hc1
    simp only [List.length_map, List.length_drop] at this
    rw [this]
    omega
  · rw [hc1, List.map_drop]
  · rw [hw1]
    congr 1

/-- C3. Periodic drain is bounded and oldest-first: one tick on a sender whose buffer queues the
`K` records `q` (oldest first), with batch cap `M ≥ 0`, a non-empty protocol, address and tag and
a dial that succeeds, ends (for every fuel above `K`) with exactly the `min K M` oldest records
removed and handed, as one batch, to `toSyslogBulk`, which dispatches them on the transport as
one session: one dial, for each of those records in order the writer call its level selects (for
records carrying severities, one call per record), one close; no session for an empty batch.  The
other `K - min K M` records stay queued in their order. -/
theorem C3_periodic_drain (T : Transport) (s : syslog Trace) (mb : messageBuffer)
    (q : List bufferRecord) (M : Nat) (recs : List (Option bufferRecord)) (t : Trace)
    (ctx : Context) (fuel : Nat)
    (hbuf : s.syslogBuffer = some mb) (hwf : mb.wf) (hq : mb.contents = q.map some)
    (hrecs : recs.length = M)
    (hcfg : s.syslogProtocol ≠ [] ∧ s.syslogAddr ≠ [] ∧ s.syslogTag ≠ [])
    (hdial : s.dialMethod = some (recordingDial T))
    (hok : T.dialOk (t.countP isDial) = true) (hfuel : q.length < fuel) :
    ∃ st1 mb1, syslog.tickCase traceRuntime fuel ctx M ⟨s, recs, false, t⟩ = .ok st1 ∧
      st1.stopped = false ∧ st1.s.syslogBuffer = some mb1 ∧ mb1.wf ∧ mb1.len = mb.len ∧
      mb.size = q.length ∧
      mb1.size = q.length - min q.length M ∧
      mb1.contents = (q.drop (min q.length M)).map some ∧
      syslog.toSyslogBulk traceRuntime fuel st1.s ctx ((q.take (min q.length M)).map some) t
        = .ok st1.w ∧
      wire st1.w = wire t ++ sessionWire s ctx (q.take (min q.length M)) ∧
      written st1.w = written t ++ callsOf (q.take (min q.length M)) ∧
      ((∀ r ∈ q, isSeverity r.level) →
        (callsOf (q.take (min q.length M))).map (fun c => (some c.1, c.2))
          = (q.take (min q.length M)).map (fun r => (methodOf r.level, r.value))) := by
  obtain ⟨st1, mb1, h1, h2, h3, h4, h5, _, _, _, _, _, h6, h7, h8, h9, h10, h11⟩ :=
    syslog.tickCase_recording T s mb q M recs t ctx fuel false hbuf hwf hq hrecs hcfg hdial hok
      hfuel
  exact ⟨st1, mb1, h1, h2, h3, h4, h5, h6, h7, h8, h11, h9, h10,
    fun hsev => callsOf_severity _ (fun r hr => hsev r (List.mem_of_mem_take hr))⟩

theorem syslog.Send_accept {W : Type} (s : syslog W) (mb : messageBuffer)
    (hs : s.syslogBuffer = some mb) (hwf : mb.wf) (hroom : mb.size ≠ mb.len)
    (now : GoString) (ctx : Context) (level : Int) (v : GoString) :
    ∃ mb1, s.Send now ctx level v = .ok (none, { s with syslogBuffer := some mb1 }) ∧
      mb1.wf ∧ mb1.len = mb.len ∧ mb1.size = mb.size + 1 ∧
      mb1.contents = mb.contents ++ [some ⟨ctx, now, level, v⟩] := by
  obtain ⟨mb1, hadd, hwf1, hl, hsz, hc⟩ := mb.add_spec (some ⟨ctx, now, level, v⟩) hwf hroom
  exact ⟨mb1, by simp only [syslog.Send, hs, hadd], hwf1, by simp only [messageBuffer.len, hl],
    hsz, hc⟩

theorem syslog.Send_full {W : Type} (s : syslog W) (mb : messageBuffer)
    (hs : s.syslogBuffer = some mb) (hfull : mb.size = mb.len)
    (now : GoString) (ctx : Context) (level : Int) (v : GoString) :
    s.Send now ctx level v
      = .ok (some (.cannotAdd .bufferFull), { s with syslogBuffer := some mb }) := by
  simp only [syslog.Send, hs, mb.add_full _ hfull]

theorem callsOf_append (a b : List bufferRecord) : callsOf (a ++ b) = callsOf a ++ callsOf b := by
  simp [callsOf]

/-- The cancellation case on the recording transport: every queued record is taken and
dispatched as one session, the buffer is left empty and the loop is left. -/
theorem syslog.doneCase_recording (T : Transport) (s : syslog Trace) (mb : messageBuffer)
    (q : List bufferRecord) (recs : List (Option bufferRecord)) (t : Trace)
    (ctx : Context) (fuel : Nat) (b : Bool)
    (hbuf : s.syslogBuffer = some mb) (hwf : mb.wf) (hq : mb.contents = q.map some)
    (hcfg : s.syslogProtocol ≠ [] ∧ s.syslogAddr ≠ [] ∧ s.syslogTag ≠ [])
    (hdial : s.dialMethod = some (recordingDial T))
    (hok : T.dialOk (t.countP isDial) = true) (hfuel : q.length < fuel) :
    ∃ st1 mb1, syslog.doneCase traceRuntime fuel ctx ⟨s, recs, b, t⟩ = .ok st1 ∧
      st1.stopped = true ∧ st1.s.syslogBuffer = some mb1 ∧ mb1.wf ∧ mb1.len = mb.len ∧
      mb1.contents = [] ∧ mb1.empty = true ∧ mb1.size = 0 ∧
      st1.recs = recs ∧
      st1.s.syslogProtocol = s.syslogProtocol ∧ st1.s.syslogAddr = s.syslogAddr ∧
      st1.s.syslogTag = s.syslogTag ∧ st1.s.dialMethod = s.dialMethod ∧
      wire st1.w = wire t ++ sessionWire s ctx q ∧
      written st1.w = written t ++ callsOf q := by
  obtain ⟨mb1, hloop, hwf1, hl1, hc1, he1⟩ :=
    syslog.doneLoop_spec traceRuntime (q.map some) fuel mb [] t hwf hq (by simpa using hfuel)
  have hcfg1 : ({ s with syslogBuffer := some mb1 } : syslog Trace).syslogProtocol ≠ [] ∧
      ({ s with syslogBuffer := some mb1 } : syslog Trace).syslogAddr ≠ [] ∧
      ({ s with syslogBuffer := some mb1 } : syslog Trace).syslogTag ≠ [] := hcfg
  obtain ⟨t1, hbulk, hw1, hwr1⟩ := syslog.toSyslogBulk_recording T
    { s with syslogBuffer := some mb1 } ctx q t fuel (by omega) hcfg1 hdial hok
  refine ⟨⟨{ s with syslogBuffer := some mb1 }, recs, true, t1⟩, mb1, ?_, rfl, rfl, hwf1, hl1,
    hc1, he1, (mb1.empty_iff_size hwf1).mp he1, rfl, rfl, rfl, rfl, rfl, ?_, hwr1⟩
  · simp only [syslog.doneCase, hbuf, hloop, List.nil_append, hbulk]
  · rw [hw1]
    congr 1

/-- C10. A write failure does not abort the batch: for every non-empty batch of records whose
levels are among the eight severities and for every behaviour of the transport's writer calls
(any pattern of returned errors), `toSyslogBulk` with a non-empty configuration and a dial that
succeeds returns, having made on the transport exactly one successful dial, then one writer call
per record in batch order (the method of the record's level with the record's value), then one
close.  No call is repeated, and the function has no access to the buffer to queue a record
again. -/
theorem C10_write_failure_keeps_batch (T : Transport) (s : syslog Trace) (ctx : Context)
    (rs : List bufferRecord) (t : Trace) (fuel : Nat) (hfuel : 0 < fuel)
    (hne : rs ≠ []) (hsev : ∀ r ∈ rs, isSeverity r.level)
    (hcfg : s.syslogProtocol ≠ [] ∧ s.syslogAddr ≠ [] ∧ s.syslogTag ≠ [])
    (hdial : s.dialMethod = some (recordingDial T))
    (hok : T.dialOk (t.countP isDial) = true) :
    ∃ (t1 : Trace) (calls : List (Method × GoString)),
      syslog.toSyslogBulk traceRuntime fuel s ctx (rs.map some) t = .ok t1 ∧
      calls.map (fun c => (some c.1, c.2)) = rs.map (fun r => (methodOf r.level, r.value)) ∧
      wire t1 = wire t ++
        (Wire.dial ctx s.syslogProtocol s.syslogAddr s.syslogTag true ::
          (calls.map (fun c => Wire.call c.1 c.2) ++ [Wire.close])) := by
  obtain ⟨t1, hrun, hw, _⟩ := syslog.toSyslogBulk_recording T s ctx rs t fuel hfuel hcfg hdial hok
  refine ⟨t1, callsOf rs, hrun, ?_, ?_⟩
  · exact callsOf_severity rs hsev
  · rw [hw]
    cases rs with
    | nil => exact absurd rfl hne
    | cons r rs => rfl

/-! ## Sequences of steps -/

theorem Sys.run_append (fuel : Nat) (ctx : Context) (M : Int) (xs ys : List Step) :
    ∀ (st st1 st2 : Sys Trace) (e1 e2 : List (Option GoError)),
      Sys.run traceRuntime fuel ctx M st xs = .ok (st1, e1) →
      Sys.run traceRuntime fuel ctx M st1 ys = .ok (st2, e2) →
      Sys.run traceRuntime fuel ctx M st (xs ++ ys) = .ok (st2, e1 ++ e2) := by
  induction xs with
  | nil =>
    intro st st1 st2 e1 e2 h1 h2
    simp only [Sys.run, Except.ok.injEq, Prod.mk.injEq] at h1
    obtain ⟨rfl, rfl⟩ := h1
    simpa using h2
  | cons x xs ih =>
    intro st st1 st2 e1 e2 h1 h2
    simp only [Sys.run] at h1
    cases hx : st.step traceRuntime fuel ctx M x with
    | error f => rw [hx] at h1; exact Except.noConfusion h1
    | ok p =>
      obtain ⟨sta, r⟩ := p
      rw [hx] at h1
      simp only at h1
      cases hr : Sys.run traceRuntime fuel ctx M sta xs with
      | error f => rw [hr] at h1; exact Except.noConfusion h1
      | ok p2 =>
        obtain ⟨stb, rs⟩ := p2
        rw [hr] at h1
        simp only [Except.ok.injEq, Prod.mk.injEq] at h1
        obtain ⟨rfl, rfl⟩ := h1
        have := ih sta stb st2 rs e2 hr h2
        have e : (x :: xs) ++ ys = x :: (xs ++ ys) := rfl
        rw [e]
        simp only [Sys.run, hx, this, List.append_assoc]

/-- One `Send` or tick step keeps the invariant of the running sender; what has been written
together with what is queued grows by the record just accepted, if any. -/
theorem Sys.step_inv (T : Transport) (hT : ∀ n, T.dialOk n = true) (C : Int) (M : Nat)
    (fuel : Nat) (hfuel : C < fuel) (ctx : Context) (st : Sys Trace) (q : List bufferRecord)
    (hinv : Sys.Inv T C M st q) (hrun : st.stopped = false) (x : Step) (hx : x ≠ .done) :
    ∃ st1 r q1, st.step traceRuntime fuel ctx M x = .ok (st1, r) ∧ Sys.Inv T C M st1 q1 ∧
      st1.stopped = false ∧
      (x.record = none → r = none) ∧ (x.record ≠ none → r ≠ none) ∧
      written st1.w ++ callsOf q1
        = written st.w ++ callsOf (q ++ accepted x.record.toList r.toList) := by
  obtain ⟨s, recs, stopped, w⟩ := st
  obtain ⟨mb, hbuf, hwf, hlen, hq, hrecs, hp, ha, htag, hdial⟩ := hinv
  simp only at hbuf hrecs hp ha htag hdial hrun
  subst hrun
  have hsize := mb.size_of_contents hwf _ hq
  have hbound := (mb.size_bounds hwf).2
  simp only [List.length_map] at hsize
  cases x with
  | done => exact absurd rfl hx
  | send now c level v =>
    by_cases hfull : mb.size = mb.len
    · refine ⟨⟨{ s with syslogBuffer := some mb }, recs, false, w⟩, some (some (.cannotAdd .bufferFull)),
        q, ?_, ⟨mb, rfl, hwf, hlen, hq, hrecs, hp, ha, htag, hdial⟩, rfl, ?_, ?_, ?_⟩
      · simp only [Sys.step, s.Send_full mb hbuf hfull]
      · intro h; exact absurd h (by simp [Step.record])
      · intro _; simp
      · simp [Step.record, accepted]
    · obtain ⟨mb1, hsend, hwf1, hl1, _, hc1⟩ := s.Send_accept mb hbuf hwf hfull now c level v
      refine ⟨⟨{ s with syslogBuffer := some mb1 }, recs, false, w⟩, some none,
        q ++ [⟨c, now, level, v⟩], ?_, ⟨mb1, rfl, hwf1, by rw [hl1, hlen], ?_, hrecs, hp, ha, htag,
          hdial⟩, rfl, ?_, ?_, ?_⟩
      · simp only [Sys.step, hsend]
      · rw [hc1, hq]; simp
      · intro h; exact absurd h (by simp [Step.record])
      · intro _; simp
      · simp [Step.record, accepted]
  | tick =>
    obtain ⟨st1, mb1, htick, hstop, hbuf1, hwf1, hl1, hrecs1, hp1, ha1, ht1, hd1, _, _, hc1, _,
        hwr1, _⟩ :=
      syslog.tickCase_recording T s mb q M recs w ctx fuel false hbuf hwf hq hrecs ⟨hp, ha, htag⟩
        hdial (hT _) (by omega)
    refine ⟨st1, none, q.drop (min q.length M), ?_, ⟨mb1, hbuf1, hwf1, by rw [hl1, hlen], hc1,
      hrecs1, by rw [hp1]; exact hp, by rw [ha1]; exact ha, by rw [ht1]; exact htag,
      by rw [hd1]; exact hdial⟩, hstop, ?_, ?_, ?_⟩
    · simp only [Sys.step, htick]
      simp
    · intro _; rfl
    · intro h; exact absurd rfl h
    · rw [hwr1]
      simp only [Step.record, Option.toList, accepted, List.append_nil, List.append_assoc,
        ← callsOf_append, List.take_append_drop]

theorem accepted_step (x : Step) (r : Option (Option GoError)) (rs : List bufferRecord)
    (es : List (Option GoError)) (h1 : x.record = none → r = none)
    (h2 : x.record ≠ none → r ≠ none) :
    accepted (x.record.toList ++ rs) (r.toList ++ es)
      = accepted x.record.toList r.toList ++ accepted rs es := by
  cases hx : x.record with
  | none => rw [h1 hx]; simp [accepted]
  | some a =>
    have hr := h2 (by rw [hx]; simp)
    cases r with
    | none => exact absurd rfl hr
    | some e => cases e <;> simp [accepted]

/-- Any sequence of `Send` and tick steps keeps the invariant; what has been written together
with what is queued is what was written and queued before, followed by the accepted records. -/
theorem Sys.run_inv (T : Transport) (hT : ∀ n, T.dialOk n = true) (C : Int) (M : Nat)
    (fuel : Nat) (hfuel : C < fuel) (ctx : Context) :
    ∀ (steps : List Step) (st : Sys Trace) (q : List bufferRecord),
      Sys.Inv T C M st q → st.stopped = false → Step.done ∉ steps →
      ∃ st1 errs q1, Sys.run traceRuntime fuel ctx M st steps = .ok (st1, errs) ∧
        Sys.Inv T C M st1 q1 ∧ st1.stopped = false ∧
        errs.length = (sendsOf steps).length ∧
        written st1.w ++ callsOf q1
          = written st.w ++ callsOf (q ++ accepted (sendsOf steps) errs) := by
  intro steps
  induction steps with
  | nil =>
    intro st q hinv hrun _
    exact ⟨st, [], q, rfl, hinv, hrun, rfl, by simp [sendsOf, accepted]⟩
  | cons x xs ih =>
    intro st q hinv hrun hnd
    have hx : x ≠ .done := fun h => hnd (by rw [h]; exact List.mem_cons_self _ _)
    obtain ⟨st1, r, qa, hstep, hinv1, hrun1, hr1, hr2, hw1⟩ :=
      Sys.step_inv T hT C M fuel hfuel ctx st q hinv hrun x hx
    obtain ⟨st2, es, q2, hrest, hinv2, hrun2, hlen2, hw2⟩ :=
      ih st1 qa hinv1 hrun1 (fun h => hnd (List.mem_cons_of_mem _ h))
    refine ⟨st2, r.toList ++ es, q2, ?_, hinv2, hrun2, ?_, ?_⟩
    · simp only [Sys.run, hstep, hrest]
    · simp only [sendsOf, List.filterMap_cons, List.length_append]
      cases hrec : x.record with
      | none => rw [hr1 hrec]; simpa [sendsOf] using hlen2
      | some a =>
        have := hr2 (by rw [hrec]; simp)
        cases r with
        | none => exact absurd rfl this
        | some e =>
          simp only [sendsOf] at hlen2
          simp [hlen2]; omega
    · have hs : sendsOf (x :: xs) = x.record.toList ++ sendsOf xs := by
        simp only [sendsOf, List.filterMap_cons]
        cases x.record <;> rfl
      rw [hw2, hs, accepted_step x r _ es hr1 hr2, callsOf_append, ← List.append_assoc, hw1]
      simp only [callsOf_append, List.append_assoc]

/-- While there is room every `Send` is accepted; the world is not touched. -/
theorem Sys.run_sends_accept (T : Transport) (C : Int) (M : Nat) (fuel : Nat) (ctx : Context) :
    ∀ (rs : List bufferRecord) (st : Sys Trace) (q : List bufferRecord),
      Sys.Inv T C M st q → (q.length : Int) + rs.length ≤ C →
      ∃ st1, Sys.run traceRuntime fuel ctx M st (rs.map sendStep)
          = .ok (st1, List.replicate rs.length none) ∧
        Sys.Inv T C M st1 (q ++ rs) ∧ st1.w = st.w ∧ st1.stopped = st.stopped ∧
        st1.s.syslogProtocol = st.s.syslogProtocol ∧ st1.s.syslogAddr = st.s.syslogAddr ∧
        st1.s.syslogTag = st.s.syslogTag := by
  intro rs
  induction rs with
  | nil => intro st q hinv _; exact ⟨st, rfl, by simpa using hinv, rfl, rfl, rfl, rfl, rfl⟩
  | cons r rs ih =>
    intro st q hinv hroom
    obtain ⟨s, recs, stopped, w⟩ := st
    obtain ⟨mb, hbuf, hwf, hlen, hq, hrecs, hp, ha, htag, hdial⟩ := hinv
    simp only at hbuf hrecs hp ha htag hdial
    have hsize := mb.size_of_contents hwf _ hq
    simp only [List.length_map, List.length_cons, Nat.cast_add, Nat.cast_one] at hsize hroom
    obtain ⟨mb1, hsend, hwf1, hl1, _, hc1⟩ :=
      s.Send_accept mb hbuf hwf (by omega) r.ts r.ctx r.level r.value
    obtain ⟨st1, hrest, hinv1, hw1, hs1, hc1, hc2, hc3⟩ :=
      ih ⟨{ s with syslogBuffer := some mb1 }, recs, stopped, w⟩ (q ++ [r])
        ⟨mb1, rfl, hwf1, by rw [hl1, hlen], by rw [hc1, hq]; simp, hrecs, hp, ha, htag, hdial⟩
        (by simp only [List.length_append, List.length_singleton, Nat.cast_add, Nat.cast_one]
            omega)
    refine ⟨st1, ?_, by simpa using hinv1, hw1, hs1, hc1, hc2, hc3⟩
    simp only [List.map_cons, Sys.run, sendStep, Sys.step, hsend]
    rw [hrest]
    rfl

/-- On a full buffer every `Send` is rejected; nothing changes. -/
theorem Sys.run_sends_full (T : Transport) (C : Int) (M : Nat) (fuel : Nat) (ctx : Context) :
    ∀ (rs : List bufferRecord) (st : Sys Trace) (q : List bufferRecord),
      Sys.Inv T C M st q → (q.length : Int) = C →
      ∃ st1, Sys.run traceRuntime fuel ctx M st (rs.map sendStep)
          = .ok (st1, List.replicate rs.length (some (.cannotAdd .bufferFull))) ∧
        Sys.Inv T C M st1 q ∧ st1.w = st.w ∧ st1.stopped = st.stopped := by
  intro rs
  induction rs with
  | nil => intro st q hinv _; exact ⟨st, rfl, hinv, rfl, rfl⟩
  | cons r rs ih =>
    intro st q hinv hfull
    obtain ⟨s, recs, stopped, w⟩ := st
    obtain ⟨mb, hbuf, hwf, hlen, hq, hrecs, hp, ha, htag, hdial⟩ := hinv
    simp only at hbuf hrecs hp ha htag hdial
    have hsize := mb.size_of_contents hwf _ hq
    simp only [List.length_map] at hsize
    have hsend := s.Send_full mb hbuf (by omega) r.ts r.ctx r.level r.value
    obtain ⟨st1, hrest, hinv1, hw1, hs1⟩ :=
      ih ⟨{ s with syslogBuffer := some mb }, recs, stopped, w⟩ q
        ⟨mb, rfl, hwf, hlen, hq, hrecs, hp, ha, htag, hdial⟩ hfull
    refine ⟨st1, ?_, hinv1, hw1, hs1⟩
    simp only [List.map_cons, Sys.run, sendStep, Sys.step, hsend]
    rw [hrest]
    rfl

theorem Sys.Inv_length (T : Transport) (C : Int) (M : Nat) (st : Sys Trace)
    (q : List bufferRecord) (hinv : Sys.Inv T C M st q) : (q.length : Int) ≤ C := by
  obtain ⟨mb, _, hwf, hlen, hq, _⟩ := hinv
  have hsize := mb.size_of_contents hwf _ hq
  have hbound := (mb.size_bounds hwf).2
  simp only [List.length_map] at hsize
  omega

/-- A tick step on the running sender. -/
theorem Sys.tick_inv (T : Transport) (hT : ∀ n, T.dialOk n = true) (C : Int) (M : Nat)
    (fuel : Nat) (hfuel : C < fuel) (ctx : Context) (st : Sys Trace) (q : List bufferRecord)
    (hinv : Sys.Inv T C M st q) (hrun : st.stopped = false) :
    ∃ st1, st.step traceRuntime fuel ctx M .tick = .ok (st1, none) ∧
      Sys.Inv T C M st1 (q.drop (min q.length M)) ∧ st1.stopped = false ∧
      written st1.w = written st.w ++ callsOf (q.take (min q.length M)) := by
  have hql := Sys.Inv_length T C M st q hinv
  obtain ⟨s, recs, stopped, w⟩ := st
  obtain ⟨mb, hbuf, hwf, hlen, hq, hrecs, hp, ha, htag, hdial⟩ := hinv
  simp only at hbuf hrecs hp ha htag hdial hrun
  subst hrun
  obtain ⟨st1, mb1, htick, hstop, hbuf1, hwf1, hl1, hrecs1, hp1, ha1, ht1, hd1, _, _, hc1, _,
      hwr1, _⟩ :=
    syslog.tickCase_recording T s mb q M recs w ctx fuel false hbuf hwf hq hrecs ⟨hp, ha, htag⟩
      hdial (hT _) (by omega)
  refine ⟨st1, ?_, ⟨mb1, hbuf1, hwf1, by rw [hl1, hlen], hc1,
    hrecs1, by rw [hp1]; exact hp, by rw [ha1]; exact ha, by rw [ht1]; exact htag,
    by rw [hd1]; exact hdial⟩, hstop, hwr1⟩
  simp only [Sys.step, htick]
  simp

/-- The cancellation step on the running sender. -/
theorem Sys.done_inv (T : Transport) (hT : ∀ n, T.dialOk n = true) (C : Int) (M : Nat)
    (fuel : Nat) (hfuel : C < fuel) (ctx : Context) (st : Sys Trace) (q : List bufferRecord)
    (hinv : Sys.Inv T C M st q) (hrun : st.stopped = false) :
    ∃ st1 mb1, st.step traceRuntime fuel ctx M .done = .ok (st1, none) ∧
      Sys.Inv T C M st1 [] ∧ st1.stopped = true ∧
      st1.s.syslogBuffer = some mb1 ∧ mb1.empty = true ∧ mb1.size = 0 ∧
      wire st1.w = wire st.w ++ sessionWire st.s { ctx with done := true } q ∧
      written st1.w = written st.w ++ callsOf q := by
  have hql := Sys.Inv_length T C M st q hinv
  obtain ⟨s, recs, stopped, w⟩ := st
  obtain ⟨mb, hbuf, hwf, hlen, hq, hrecs, hp, ha, htag, hdial⟩ := hinv
  simp only at hbuf hrecs hp ha htag hdial hrun
  subst hrun
  obtain ⟨st1, mb1, hdone, hstop, hbuf1, hwf1, hl1, hc1, he1, hs1, hrecs1, hp1, ha1, ht1, hd1,
      hw1, hwr1⟩ :=
    syslog.doneCase_recording T s mb q recs w { ctx with done := true } fuel false hbuf hwf hq
      ⟨hp, ha, htag⟩ hdial (hT _) (by omega)
  refine ⟨st1, mb1, ?_, ⟨mb1, hbuf1, hwf1, by rw [hl1, hlen], by rw [hc1]; rfl,
    by rw [hrecs1]; exact hrecs, by rw [hp1]; exact hp, by rw [ha1]; exact ha,
    by rw [ht1]; exact htag, by rw [hd1]; exact hdial⟩, hstop, hbuf1, he1, hs1, hw1, hwr1⟩
  simp only [Sys.step, hdone]
  simp

theorem Sys.run_single (fuel : Nat) (ctx : Context) (M : Int) (st st1 : Sys Trace) (x : Step)
    (r : Option (Option GoError))
    (h : st.step traceRuntime fuel ctx M x = .ok (st1, r)) :
    Sys.run traceRuntime fuel ctx M st [x] = .ok (st1, r.toList) := by
  simp [Sys.run, h]

/-- The sender as `New`, `SetDialMethod` and the start of `syslogSend` leave it. -/
theorem Sys.init_inv (T : Transport) (dial0 : dialMethodFunc Trace)
    (protocol addr tag : GoString) (C : Int) (M : Nat) (t : Trace) (hC : 0 ≤ C)
    (hcfg : protocol ≠ [] ∧ addr ≠ [] ∧ tag ≠ []) :
    ∃ s0 st0, New dial0 protocol addr tag C = .ok s0 ∧
      syslog.syslogSendInit (s0.SetDialMethod (some (recordingDial T))) M t = .ok st0 ∧
      Sys.Inv T C M st0 [] ∧ st0.stopped = false ∧ st0.w = t := by
  obtain ⟨mb, hnew, hwf, hlen, hc, _, _⟩ := newMessageBuffer_spec C hC
  refine ⟨⟨protocol, addr, tag, some dial0, some mb⟩,
    ⟨⟨protocol, addr, tag, some (recordingDial T), some mb⟩, List.replicate M none, false, t⟩,
    ?_, ?_, ⟨mb, rfl, hwf, hlen, by rw [hc]; rfl, by simp, hcfg.1, hcfg.2.1, hcfg.2.2, rfl⟩,
    rfl, rfl⟩
  · simp only [New, hnew]
  · simp [syslog.syslogSendInit, syslog.SetDialMethod]

theorem accepted_subset : ∀ (rs : List bufferRecord) (es : List (Option GoError)) (r : bufferRecord),
    r ∈ accepted rs es → r ∈ rs := by
  intro rs
  induction rs with
  | nil => intro es r h; cases es <;> simp [accepted] at h
  | cons a rs ih =>
    intro es r h
    cases es with
    | nil => simp [accepted] at h
    | cons e es =>
      cases e with
      | none =>
        simp only [accepted, List.mem_cons] at h
        rcases h with h | h
        · rw [h]; exact List.mem_cons_self _ _
        · exact List.mem_cons_of_mem _ (ih es r h)
      | some x =>
        simp only [accepted] at h
        exact List.mem_cons_of_mem _ (ih es r h)

/-! ## Shutdown, ordering and the end-to-end scenario -/

/-- C4, as stated, fails: a sender of capacity 1 on a transport where nothing fails, with
non-empty protocol, address and tag, accepts one `Send` whose level 8 is not one of the eight
severities (the returned error is nil); the shutdown drain then empties the buffer and leaves the
loop, but no message has been written to the transport. -/
theorem C4_counterexample :
    (startSys okTransport (ascii "tcp") (ascii "host:514") (ascii "tag") 1 1).map
      (fun st => Sys.observe (Sys.run traceRuntime 2 ctx0 1 st
        [.send (ascii "ts") ctx0 8 (ascii "x"), .done]))
      = some (some ([none], [], true, some [])) := by
  rfl

/-- C4 (amended). Drain on shutdown: on a sender with non-empty protocol, address and tag and a
dial that succeeds, whose buffer queues the records `q` and has room for the records `rs`, all
with levels among the eight severities, the `Send` calls for `rs` are all accepted and the
cancellation case that follows (no tick in between) takes every queued record whatever the
batch cap (the length of `recs`), dispatches them as one session in acceptance order, leaves the
buffer empty and leaves the loop: every record of `q ++ rs` has been written to the transport,
by the method of its level. -/
theorem C4_drain_on_shutdown (T : Transport) (hT : ∀ n, T.dialOk n = true)
    (s : syslog Trace) (mb : messageBuffer) (q rs : List bufferRecord)
    (recs : List (Option bufferRecord)) (t : Trace) (ctx : Context) (fuel : Nat)
    (hbuf : s.syslogBuffer = some mb) (hwf : mb.wf) (hq : mb.contents = q.map some)
    (hroom : (q.length : Int) + rs.length ≤ mb.len)
    (hsev : ∀ r ∈ q ++ rs, isSeverity r.level)
    (hcfg : s.syslogProtocol ≠ [] ∧ s.syslogAddr ≠ [] ∧ s.syslogTag ≠ [])
    (hdial : s.dialMethod = some (recordingDial T)) (hfuel : mb.len < fuel) :
    ∃ st1 mb1, Sys.run traceRuntime fuel ctx recs.length ⟨s, recs, false, t⟩
          (rs.map sendStep ++ [.done]) = .ok (st1, List.replicate rs.length none) ∧
      st1.stopped = true ∧ st1.s.syslogBuffer = some mb1 ∧ mb1.empty = true ∧ mb1.size = 0 ∧
      wire st1.w = wire t ++ sessionWire s { ctx with done := true } (q ++ rs) ∧
      (written st1.w).map (fun c => (some c.1, c.2))
        = (written t).map (fun c => (some c.1, c.2))
          ++ (q ++ rs).map (fun r => (methodOf r.level, r.value)) := by
  have hinv : Sys.Inv T mb.len recs.length ⟨s, recs, false, t⟩ q :=
    ⟨mb, hbuf, hwf, rfl, hq, rfl, hcfg.1, hcfg.2.1, hcfg.2.2, hdial⟩
  obtain ⟨sta, hsends, hinva, hwa, hsa, hc1, hc2, hc3⟩ :=
    Sys.run_sends_accept T mb.len recs.length fuel ctx rs _ q hinv hroom
  simp only at hwa hsa hc1 hc2 hc3
  obtain ⟨st1, mb1, hdone, _, hstop, hbuf1, he1, hs1, hw1, hwr1⟩ :=
    Sys.done_inv T hT mb.len recs.length fuel hfuel ctx sta (q ++ rs) hinva hsa
  have hrun := Sys.run_append fuel ctx recs.length (rs.map sendStep) [.done] _ sta st1 _ _ hsends
    (Sys.run_single fuel ctx recs.length sta st1 .done none hdone)
  refine ⟨st1, mb1, by simpa using hrun, hstop, hbuf1, he1, hs1, ?_, ?_⟩
  · rw [hw1, hwa, sessionWire_config s sta.s _ _ hc1 hc2 hc3]
  · rw [hwr1, hwa, List.map_append, callsOf_severity _ hsev]

/-- C5, as stated, fails: on a sender of capacity 2 with batch cap 1, a transport where nothing
fails and a non-empty configuration, the three `Send` calls "a" (level 3), "b" (level 8, not a
severity) and "c" (level 4), interleaved with two ticks and followed by the shutdown drain, all
return nil, yet only "a" and "c" are written to the transport: the accepted record "b" is
skipped. -/
theorem C5_counterexample :
    (startSys okTransport (ascii "tcp") (ascii "host:514") (ascii "tag") 2 1).map
      (fun st => Sys.observe (Sys.run traceRuntime 3 ctx0 1 st
        [.send (ascii "t0") ctx0 3 (ascii "a"), .send (ascii "t1") ctx0 8 (ascii "b"), .tick,
         .send (ascii "t2") ctx0 4 (ascii "c"), .tick, .done]))
      = some (some ([none, none, none], [(.Err, ascii "a"), (.Warning, ascii "c")], true,
          some [])) := by
  rfl

/-- C5 (amended). End-to-end ordering: take a sender made by `New` with capacity `C ≥ 0`, a
non-empty protocol, address and tag, the dial strategy of a transport whose dial succeeds, and
a loop with batch cap `M`.  For every sequence of `Send` calls and ticks in which every `Send`
carries one of the eight severities, followed by the shutdown drain, the run ends, the loop is
left, and the messages written to the transport are exactly the messages whose `Send` returned
nil, in the same order, each by the method of its level: none skipped, duplicated or
reordered. -/
theorem C5_end_to_end_order (T : Transport) (hT : ∀ n, T.dialOk n = true)
    (dial0 : dialMethodFunc Trace) (protocol addr tag : GoString) (C : Int) (M : Nat)
    (steps : List Step) (ctx : Context) (fuel : Nat)
    (hC : 0 ≤ C) (hcfg : protocol ≠ [] ∧ addr ≠ [] ∧ tag ≠ [])
    (hnd : Step.done ∉ steps) (hsev : ∀ r ∈ sendsOf steps, isSeverity r.level)
    (hfuel : C < fuel) :
    ∃ s0 st0 st1 errs, New dial0 protocol addr tag C = .ok s0 ∧
      syslog.syslogSendInit (s0.SetDialMethod (some (recordingDial T))) M [] = .ok st0 ∧
      Sys.run traceRuntime fuel ctx M st0 (steps ++ [.done]) = .ok (st1, errs) ∧
      errs.length = (sendsOf steps).length ∧ st1.stopped = true ∧
      (written st1.w).map (fun c => (some c.1, c.2))
        = (accepted (sendsOf steps) errs).map (fun r => (methodOf r.level, r.value)) := by
  obtain ⟨s0, st0, hnew, hinit, hinv0, hrun0, hw0⟩ :=
    Sys.init_inv T dial0 protocol addr tag C M [] hC hcfg
  obtain ⟨sta, errs, qa, hrun, hinva, hruna, hlen, hwa⟩ :=
    Sys.run_inv T hT C M fuel hfuel ctx steps st0 [] hinv0 hrun0 hnd
  obtain ⟨st1, mb1, hdone, _, hstop, _, _, _, _, hwr1⟩ :=
    Sys.done_inv T hT C M fuel hfuel ctx sta qa hinva hruna
  have hall := Sys.run_append fuel ctx M steps [.done] st0 sta st1 errs _ hrun
    (Sys.run_single fuel ctx M sta st1 .done none hdone)
  refine ⟨s0, st0, st1, errs, hnew, hinit, by simpa using hall, hlen, hstop, ?_⟩
  rw [hwr1, hwa, hw0]
  simp only [written, List.filterMap_nil, List.nil_append]
  exact callsOf_severity _ (fun r hr => hsev r (accepted_subset _ _ r hr))

/-- C6, as stated, fails: in `TestSyslog_Send` (capacity 32, batch cap 16, 34 `Send` calls of
level `LOG_ERR` with the values 0 to 33, a transport where nothing fails), two of the `Send` calls
return an error, and after three ticks and the shutdown drain 32 messages, not 34, have reached
the transport: the values 0 to 31. -/
theorem C6_counterexample :
    (startSys okTransport (ascii "1") (ascii "2") (ascii "3") 32 16).map (fun st =>
      (Sys.observe (Sys.run traceRuntime 33 ctx0 16 st
          (testSends ++ [.tick, .tick, .tick, .done]))).map
        (fun o => (o.1.countP Option.isSome, o.2.1.length, o.2.1.map Prod.snd)))
      = some (some (2, 32, (List.range 32).map (fun i => Itoa i))) := by
  rfl

/-- On the running sender an empty queue means an empty buffer. -/
theorem Sys.Inv_empty (T : Transport) (C : Int) (M : Nat) (st : Sys Trace)
    (hinv : Sys.Inv T C M st []) :
    ∃ mb, st.s.syslogBuffer = some mb ∧ mb.empty = true ∧ mb.size = 0 := by
  obtain ⟨mb, hbuf, hwf, _, hq, _⟩ := hinv
  have he : mb.empty = true := by
    simp only [messageBuffer.empty, decide_eq_true_eq]
    exact (mb.contents_nil_iff hwf).mp (by simpa using hq)
  exact ⟨mb, hbuf, he, (mb.empty_iff_size hwf).mp he⟩

/-- C6 (amended). End-to-end scenario: with buffer capacity 32 and batch cap 16, a non-empty
configuration and a transport whose dial succeeds, 34 consecutive `Send` calls carrying
severities (no tick in between) have the first 32 accepted and the last 2 rejected because the
buffer is full; the first tick then delivers exactly the first 16 records to the transport, and
after the second tick, or after the shutdown drain in its place, exactly the 32 accepted records
have reached the transport, in order; after the second tick the buffer is empty. -/
theorem C6_scenario (T : Transport) (hT : ∀ n, T.dialOk n = true)
    (dial0 : dialMethodFunc Trace) (protocol addr tag : GoString) (rs : List bufferRecord)
    (ctx : Context) (fuel : Nat) (hcfg : protocol ≠ [] ∧ addr ≠ [] ∧ tag ≠ [])
    (hlen : rs.length = 34) (hsev : ∀ r ∈ rs, isSeverity r.level) (hfuel : 32 < fuel) :
    ∃ s0 st0, New dial0 protocol addr tag 32 = .ok s0 ∧
      syslog.syslogSendInit (s0.SetDialMethod (some (recordingDial T))) 16 [] = .ok st0 ∧
      (∃ st1, Sys.run traceRuntime fuel ctx 16 st0 (rs.map sendStep ++ [.tick])
            = .ok (st1, List.replicate 32 none ++
                List.replicate 2 (some (.cannotAdd .bufferFull))) ∧
          (written st1.w).map (fun c => (some c.1, c.2))
            = (rs.take 16).map (fun r => (methodOf r.level, r.value))) ∧
      (∃ st2 mb2, Sys.run traceRuntime fuel ctx 16 st0 (rs.map sendStep ++ [.tick, .tick])
            = .ok (st2, List.replicate 32 none ++
                List.replicate 2 (some (.cannotAdd .bufferFull))) ∧
          (written st2.w).map (fun c => (some c.1, c.2))
            = (rs.take 32).map (fun r => (methodOf r.level, r.value)) ∧
          st2.s.syslogBuffer = some mb2 ∧ mb2.empty = true) ∧
      (∃ st3, Sys.run traceRuntime fuel ctx 16 st0 (rs.map sendStep ++ [.tick, .done])
            = .ok (st3, List.replicate 32 none ++
                List.replicate 2 (some (.cannotAdd .bufferFull))) ∧
          st3.stopped = true ∧
          (written st3.w).map (fun c => (some c.1, c.2))
            = (rs.take 32).map (fun r => (methodOf r.level, r.value))) := by
  have hfuel1 : (32 : Int) < (fuel : Int) := by omega
  obtain ⟨s0, st0, hnew, hinit, hinv0, hrun0, hw0⟩ :=
    Sys.init_inv T dial0 protocol addr tag 32 16 [] (by omega) hcfg
  have h32 : (rs.take 32).length = 32 := by simp [hlen]
  have h2 : (rs.drop 32).length = 2 := by simp [hlen]
  -- the 34 sends
  obtain ⟨sta, hsa, hinva, hwa, hstopa, _, _, _⟩ :=
    Sys.run_sends_accept T 32 16 fuel ctx (rs.take 32) st0 [] hinv0 (by simp [h32])
  rw [List.nil_append] at hinva
  obtain ⟨stb, hsb, hinvb, hwb, hstopb⟩ :=
    Sys.run_sends_full T 32 16 fuel ctx (rs.drop 32) sta (rs.take 32) hinva (by simp [h32])
  have hsends := Sys.run_append fuel ctx 16 _ _ st0 sta stb _ _ hsa hsb
  rw [← List.map_append, List.take_append_drop, h32, h2] at hsends
  have hwb0 : written stb.w = [] := by rw [hwb, hwa, hw0]; rfl
  have hstb : stb.stopped = false := by rw [hstopb, hstopa, hrun0]
  have hsevq : ∀ n : Nat, ∀ r ∈ rs.take n, isSeverity r.level :=
    fun n r hr => hsev r (List.mem_of_mem_take hr)
  -- the first tick
  obtain ⟨st1, htick1, hinv1, hstop1, hwr1⟩ :=
    Sys.tick_inv T hT 32 16 fuel hfuel1 ctx stb (rs.take 32) hinvb hstb
  have hmin1 : min (rs.take 32).length 16 = 16 := by rw [h32]; rfl
  rw [hmin1] at hinv1 hwr1
  rw [hwb0, List.nil_append, List.take_take] at hwr1
  have hq1 : (List.drop 16 (rs.take 32)).length = 16 := by simp [hlen]
  have hrun1 := Sys.run_append fuel ctx 16 _ [.tick] st0 stb st1 _ _ hsends
    (Sys.run_single fuel ctx 16 stb st1 .tick none htick1)
  -- the second tick
  obtain ⟨st2, htick2, hinv2, hstop2, hwr2⟩ :=
    Sys.tick_inv T hT 32 16 fuel hfuel1 ctx st1 _ hinv1 hstop1
  have hmin2 : min (List.drop 16 (rs.take 32)).length 16 = 16 := by rw [hq1]; rfl
  rw [hmin2] at hinv2 hwr2
  have hnil : List.drop 16 (List.drop 16 (rs.take 32)) = [] :=
    List.drop_eq_nil_of_le (by rw [hq1])
  have hfull : List.take 16 (List.drop 16 (rs.take 32)) = List.drop 16 (rs.take 32) :=
    List.take_of_length_le (by rw [hq1])
  rw [hnil] at hinv2
  have hw32 : written st1.w ++ callsOf (List.drop 16 (rs.take 32)) = callsOf (rs.take 32) := by
    rw [hwr1, ← callsOf_append]
    have : List.take (min 16 32) rs = List.take 16 (rs.take 32) := by rw [List.take_take]
    rw [this, List.take_append_drop]
  rw [hfull, hw32] at hwr2
  obtain ⟨mb2, hbuf2, he2, _⟩ := Sys.Inv_empty T 32 16 st2 hinv2
  have hrun2 := Sys.run_append fuel ctx 16 _ [.tick] st0 st1 st2 _ _ hrun1
    (Sys.run_single fuel ctx 16 st1 st2 .tick none htick2)
  -- the shutdown drain in place of the second tick
  obtain ⟨st3, mb3, hdone3, _, hstop3, _, _, _, _, hwr3⟩ :=
    Sys.done_inv T hT 32 16 fuel hfuel1 ctx st1 _ hinv1 hstop1
  rw [hw32] at hwr3
  have hrun3 := Sys.run_append fuel ctx 16 _ [.done] st0 st1 st3 _ _ hrun1
    (Sys.run_single fuel ctx 16 st1 st3 .done none hdone3)
  refine ⟨s0, st0, hnew, hinit, ⟨st1, by simpa using hrun1, ?_⟩,
    ⟨st2, mb2, by simpa using hrun2, ?_, hbuf2, he2⟩, ⟨st3, by simpa using hrun3, hstop3, ?_⟩⟩
  · rw [hwr1]
    exact callsOf_severity _ (hsevq _)
  · rw [hwr2]
    exact callsOf_severity _ (hsevq 32)
  · rw [hwr3]
    exact callsOf_severity _ (hsevq 32)

/-! ## Instances of the laws -/

theorem C1_fifo_law_witness :
    (([some recA, none, some recB] : List (Option bufferRecord)).length : Int) ≤ 3 ∧
    ∃ mb0 mb1 mb2, newMessageBuffer 3 = .ok mb0 ∧
      addAll mb0 [some recA, none, some recB] = .ok (List.replicate 3 none, mb1) ∧
      removeN 3 mb1 = .ok ([(some recA, none), (none, none), (some recB, none)], mb2) ∧
      mb2.empty = true :=
  ⟨by decide, C1_fifo_law 3 [some recA, none, some recB] (by decide)⟩

theorem C2_add_on_full_buffer_witness :
    (0 : Int) ≤ 1 ∧
    ∃ mb0 mb, newMessageBuffer 1 = .ok mb0 ∧
      runOps mb0 [.add (some recA), .remove, .add (some recB)] = .ok mb ∧ mb.len = 1 ∧
      ∃ err mb1, mb.add (some recC) = .ok (err, mb1) ∧ (err.isSome ↔ mb.size = 1) ∧
        (mb.size = 1 → err = some .bufferFull ∧ mb1 = mb) := by
  refine ⟨by decide, ?_⟩
  obtain ⟨mb0, mb, h1, h2, h3, ⟨err, mb1, h4, h5, h6, _⟩, _⟩ :=
    C2_add_on_full_buffer 1 (by decide) [.add (some recA), .remove, .add (some recB)] (some recC)
  exact ⟨mb0, mb, h1, h2, h3, err, mb1, h4, h5, h6⟩

theorem exBuffer_wf : exBuffer.wf := by
  simp [messageBuffer.wf, exBuffer]

theorem exBuffer1_wf : exBuffer1.wf := by
  simp [messageBuffer.wf, exBuffer1]

theorem C3_periodic_drain_witness :
    exBuffer.wf ∧ exBuffer.contents = [recA, recB, recC].map some ∧
    ∃ st1 mb1, syslog.tickCase traceRuntime 4 ctx0 2 ⟨exSender, [none, none], false, []⟩
        = .ok st1 ∧
      st1.stopped = false ∧ st1.s.syslogBuffer = some mb1 ∧ mb1.wf ∧ mb1.len = exBuffer.len ∧
      exBuffer.size = 3 ∧ mb1.size = 1 ∧ mb1.contents = [some recC] ∧
      syslog.toSyslogBulk traceRuntime 4 st1.s ctx0 [some recA, some recB] [] = .ok st1.w ∧
      wire st1.w = wire [] ++ sessionWire exSender ctx0 [recA, recB] ∧
      written st1.w = written [] ++ callsOf [recA, recB] ∧
      ((∀ r ∈ [recA, recB, recC], isSeverity r.level) →
        (callsOf [recA, recB]).map (fun c => (some c.1, c.2))
          = [recA, recB].map (fun r => (methodOf r.level, r.value))) :=
  ⟨exBuffer_wf, rfl,
    C3_periodic_drain failingWrites exSender exBuffer [recA, recB, recC] 2 [none, none] [] ctx0 4
      rfl exBuffer_wf rfl rfl (by decide) rfl rfl (by decide)⟩

theorem C10_write_failure_keeps_batch_witness :
    (∀ n, failingWrites.writeErr n = some (.io 1)) ∧
    ∃ (t1 : Trace) (calls : List (Method × GoString)),
      syslog.toSyslogBulk traceRuntime 1 exSender ctx0 ([recA, recB, recC].map some) [] = .ok t1 ∧
      calls.map (fun c => (some c.1, c.2))
        = [recA, recB, recC].map (fun r => (methodOf r.level, r.value)) ∧
      wire t1 = wire [] ++
        (Wire.dial ctx0 exSender.syslogProtocol exSender.syslogAddr exSender.syslogTag true ::
          (calls.map (fun c => Wire.call c.1 c.2) ++ [Wire.close])) :=
  ⟨fun _ => rfl,
    C10_write_failure_keeps_batch failingWrites exSender ctx0 [recA, recB, recC] [] 1 (by decide)
      (by simp) (by decide) (by decide) rfl rfl⟩

theorem C4_drain_on_shutdown_witness :
    exBuffer1.wf ∧ exBuffer1.contents = [recA].map some ∧
    ∃ st1 mb1, Sys.run traceRuntime 4 ctx0 ([none] : List (Option bufferRecord)).length
          ⟨exSender1, [none], false, []⟩
          ([recB, recC].map sendStep ++ [.done])
          = .ok (st1, List.replicate ([recB, recC] : List bufferRecord).length none) ∧
      st1.stopped = true ∧ st1.s.syslogBuffer = some mb1 ∧ mb1.empty = true ∧ mb1.size = 0 ∧
      wire st1.w = wire [] ++ sessionWire exSender1 { ctx0 with done := true }
        ([recA] ++ [recB, recC]) ∧
      (written st1.w).map (fun c => (some c.1, c.2))
        = (written []).map (fun c => (some c.1, c.2))
          ++ ([recA] ++ [recB, recC]).map (fun r => (methodOf r.level, r.value)) :=
  ⟨exBuffer1_wf, rfl,
    C4_drain_on_shutdown failingWrites (fun _ => rfl) exSender1 exBuffer1 [recA] [recB, recC]
      [none] [] ctx0 4 rfl exBuffer1_wf rfl (by decide) (by decide) (by decide) rfl (by decide)⟩

theorem C5_end_to_end_order_witness :
    Step.done ∉ [sendStep recA, sendStep recB, .tick, sendStep recC, .tick, .tick] ∧
    ∃ s0 st0 st1 errs,
      New (recordingDial okTransport) (ascii "tcp") (ascii "host:514") (ascii "tag") 1 = .ok s0 ∧
      syslog.syslogSendInit (s0.SetDialMethod (some (recordingDial failingWrites))) (1 : Nat) []
        = .ok st0 ∧
      Sys.run traceRuntime 2 ctx0 (1 : Nat) st0
        ([sendStep recA, sendStep recB, .tick, sendStep recC, .tick, .tick] ++ [.done])
        = .ok (st1, errs) ∧
      errs.length
        = (sendsOf [sendStep recA, sendStep recB, .tick, sendStep recC, .tick, .tick]).length ∧
      st1.stopped = true ∧
      (written st1.w).map (fun c => (some c.1, c.2))
        = (accepted (sendsOf [sendStep recA, sendStep recB, .tick, sendStep recC, .tick, .tick])
            errs).map (fun r => (methodOf r.level, r.value)) :=
  ⟨by decide,
    C5_end_to_end_order failingWrites (fun _ => rfl) (recordingDial okTransport) (ascii "tcp")
      (ascii "host:514") (ascii "tag") 1 1
      [sendStep recA, sendStep recB, .tick, sendStep recC, .tick, .tick] ctx0 2 (by decide)
      (by decide) (by decide) (by decide) (by decide)⟩

theorem C6_scenario_witness :
    ((List.replicate 34 recA).length = 34) ∧
    ∃ s0 st0,
      New (recordingDial okTransport) (ascii "1") (ascii "2") (ascii "3") 32 = .ok s0 ∧
      syslog.syslogSendInit (s0.SetDialMethod (some (recordingDial okTransport))) 16 [] = .ok st0 ∧
      (∃ st1, Sys.run traceRuntime 33 ctx0 16 st0 ((List.replicate 34 recA).map sendStep ++ [.tick])
            = .ok (st1, List.replicate 32 none ++
                List.replicate 2 (some (.cannotAdd .bufferFull))) ∧
          (written st1.w).map (fun c => (some c.1, c.2))
            = ((List.replicate 34 recA).take 16).map (fun r => (methodOf r.level, r.value))) ∧
      (∃ st2 mb2, Sys.run traceRuntime 33 ctx0 16 st0
              ((List.replicate 34 recA).map sendStep ++ [.tick, .tick])
            = .ok (st2, List.replicate 32 none ++
                List.replicate 2 (some (.cannotAdd .bufferFull))) ∧
          (written st2.w).map (fun c => (some c.1, c.2))
            = ((List.replicate 34 recA).take 32).map (fun r => (methodOf r.level, r.value)) ∧
          st2.s.syslogBuffer = some mb2 ∧ mb2.empty = true) ∧
      (∃ st3, Sys.run traceRuntime 33 ctx0 16 st0
              ((List.replicate 34 recA).map sendStep ++ [.tick, .done])
            = .ok (st3, List.replicate 32 none ++
                List.replicate 2 (some (.cannotAdd .bufferFull))) ∧
          st3.stopped = true ∧
          (written st3.w).map (fun c => (some c.1, c.2))
            = ((List.replicate 34 recA).take 32).map (fun r => (methodOf r.level, r.value))) :=
  ⟨by decide,
    C6_scenario okTransport (fun _ => rfl) (recordingDial okTransport) (ascii "1") (ascii "2")
      (ascii "3") (List.replicate 34 recA) ctx0 33 (by decide) (by decide)
      (by intro r hr; rw [List.eq_of_mem_replicate hr]; decide) (by decide)⟩

/-! ## The RELP client -/

/-- `sendMessage` on a live connection, spelled out by the outcome of the read. -/
theorem Client.sendMessage_eq (E : Env) (c : Client) (conn : Conn)
    (hc : c.connection = some conn) (msg : Message) (t : NetTrace) :
    c.sendMessage E msg t =
      match parseMessage (E.input (t.countP isNetRead)).1 (E.input (t.countP isNetRead)).2 with
      | .error f => .error f
      | .ok (_, some err) =>
        .ok (some err, { c with nextTxn := wrapInt64 (c.nextTxn + 1) },
          t ++ [.send conn msg (E.writeErr (t.countP isNetSend))] ++ [.read conn])
      | .ok (ack, none) =>
        .ok (if ack.Command ≠ CommandRsp then
              some (.badResponseCommand msg.Txn ack.Command ack.Data)
            else if ack.Txn ≠ msg.Txn then some (.badResponseTxn msg.Txn ack.Txn)
            else none,
          { c with nextTxn := wrapInt64 (c.nextTxn + 1) },
          t ++ [.send conn msg (E.writeErr (t.countP isNetSend))] ++ [.read conn]) := by
  have hcount : List.countP isNetRead
      (t ++ [NetEvent.send conn msg (E.writeErr (List.countP isNetSend t))])
      = List.countP isNetRead t := by
    simp [List.countP_append, isNetRead]
  simp only [Client.sendMessage, hc, Message.send, readMessage, hcount]
  cases hp : parseMessage (E.input (t.countP isNetRead)).1 (E.input (t.countP isNetRead)).2 with
  | error f => rfl
  | ok r =>
    obtain ⟨ack, e⟩ := r
    cases e with
    | some err => rfl
    | none =>
      simp only
      split_ifs <;> rfl

/-- C7. RELP ack correlation: on a live connection `sendMessage` for a request with transaction
id `msg.Txn` returns nil if and only if the next frame read from the connection is readable
(`readMessage` parses it without error) with command "rsp" and transaction id `msg.Txn`; a frame
read with another transaction id or another command, or a failed read, always gives a non-nil
error. -/
theorem C7_ack_correlation (E : Env) (c : Client) (conn : Conn)
    (hc : c.connection = some conn) (msg : Message) (t : NetTrace) :
    ((∃ c1 t1, c.sendMessage E msg t = .ok (none, c1, t1)) ↔
      ∃ ack, parseMessage (E.input (t.countP isNetRead)).1 (E.input (t.countP isNetRead)).2
          = .ok (ack, none) ∧ ack.Command = CommandRsp ∧ ack.Txn = msg.Txn) ∧
    (∀ ack e, parseMessage (E.input (t.countP isNetRead)).1 (E.input (t.countP isNetRead)).2
          = .ok (ack, e) →
        (e ≠ none ∨ ack.Command ≠ CommandRsp ∨ ack.Txn ≠ msg.Txn) →
        ∃ err c1 t1, c.sendMessage E msg t = .ok (some err, c1, t1)) := by
  rw [Client.sendMessage_eq E c conn hc msg t]
  cases hp : parseMessage (E.input (t.countP isNetRead)).1 (E.input (t.countP isNetRead)).2 with
  | error f =>
    refine ⟨⟨?_, ?_⟩, ?_⟩
    · rintro ⟨c1, t1, h⟩; exact Except.noConfusion h
    · rintro ⟨ack, h, _⟩; exact Except.noConfusion h
    · intro ack e h; exact Except.noConfusion h
  | ok r =>
    obtain ⟨ack, e⟩ := r
    cases e with
    | some err =>
      refine ⟨⟨?_, ?_⟩, ?_⟩
      · rintro ⟨c1, t1, h⟩
        simp at h
      · rintro ⟨ack1, h, _⟩
        simp at h
      · intro ack1 e1 _ _
        exact ⟨err, _, _, rfl⟩
    | none =>
      simp only
      have hiff : (if ack.Command ≠ CommandRsp then
            some (GoError.badResponseCommand msg.Txn ack.Command ack.Data)
          else if ack.Txn ≠ msg.Txn then some (GoError.badResponseTxn msg.Txn ack.Txn)
          else none) = none ↔ ack.Command = CommandRsp ∧ ack.Txn = msg.Txn := by
        split_ifs with h1 h2
        · simp only [ne_eq] at h1; simp [h1]
        · simp only [ne_eq] at h2; simp [h2]
        · simp only [ne_eq, not_not] at h1 h2; simp [h1, h2]
      generalize (if ack.Command ≠ CommandRsp then
            some (GoError.badResponseCommand msg.Txn ack.Command ack.Data)
          else if ack.Txn ≠ msg.Txn then some (GoError.badResponseTxn msg.Txn ack.Txn)
          else none) = err at hiff
      refine ⟨⟨?_, ?_⟩, ?_⟩
      · rintro ⟨c1, t1, h⟩
        simp only [Except.ok.injEq, Prod.mk.injEq] at h
        exact ⟨ack, rfl, hiff.mp h.1⟩
      · rintro ⟨ack1, heq, h3, h4⟩
        simp only [Except.ok.injEq, Prod.mk.injEq, and_true] at heq
        subst heq
        rw [hiff.mpr ⟨h3, h4⟩]
        exact ⟨_, _, rfl⟩
      · intro ack1 e1 heq hbad
        simp only [Except.ok.injEq, Prod.mk.injEq] at heq
        obtain ⟨rfl, rfl⟩ := heq
        have hne : err ≠ none := by
          intro h
          obtain ⟨h3, h4⟩ := hiff.mp h
          rcases hbad with hb | hb | hb
          · exact hb rfl
          · exact hb h3
          · exact hb h4
        obtain ⟨x, hx⟩ := Option.ne_none_iff_exists'.mp hne
        rw [hx]
        exact ⟨x, _, _, rfl⟩

theorem connects_append (t1 t2 : NetTrace) : connects (t1 ++ t2) = connects t1 + connects t2 := by
  simp [connects, List.countP_append]

theorem writeAttempts_append (t1 t2 : NetTrace) :
    writeAttempts (t1 ++ t2) = writeAttempts t1 + writeAttempts t2 := by
  simp [writeAttempts, List.countP_append]

/-- One `write` on a live connection is one `syslog` frame and no dial; it reports the length of
the message when it succeeds and 0 when it fails, and keeps the connection. -/
theorem Client.write_counts (E : Env) (c : Client) (conn : Conn)
    (hc : c.connection = some conn) (pr : Int) (tag s : GoString) (t : NetTrace)
    (r : Int × Option GoError) (c1 : Client) (t1 : NetTrace)
    (h : c.write E pr tag s t = .ok (r, c1, t1)) :
    connects t1 = connects t ∧ writeAttempts t1 = writeAttempts t + 1 ∧
      (r.2 = none → r.1 = (s.length : Int)) ∧ (r.2 ≠ none → r.1 = 0) ∧
      c1.connection = some conn := by
  simp only [Client.write, Client.sendString, Client.sendMessage_eq E c conn hc] at h
  cases hp : parseMessage (E.input (t.countP isNetRead)).1 (E.input (t.countP isNetRead)).2 with
  | error f => rw [hp] at h; exact Except.noConfusion h
  | ok x =>
    obtain ⟨ack, e⟩ := x
    rw [hp] at h
    have hcnt : ∀ (n : Int) (d : GoString) (w : Option GoError),
        connects (t ++ [NetEvent.send conn ⟨n, CommandSyslog, d⟩ w] ++ [NetEvent.read conn])
          = connects t ∧
        writeAttempts (t ++ [NetEvent.send conn ⟨n, CommandSyslog, d⟩ w] ++ [NetEvent.read conn])
          = writeAttempts t + 1 := by
      intro n d w
      simp [connects, writeAttempts, List.countP_append, isNetDial]
    cases e with
    | some err =>
      simp only [Except.ok.injEq, Prod.mk.injEq] at h
      obtain ⟨rfl, rfl, rfl⟩ := h
      obtain ⟨h1, h2⟩ := hcnt _ _ (E.writeErr (t.countP isNetSend))
      exact ⟨h1, h2, by simp, by simp, hc⟩
    | none =>
      simp only at h
      split_ifs at h <;>
        · simp only [Except.ok.injEq, Prod.mk.injEq] at h
          obtain ⟨rfl, rfl, rfl⟩ := h
          obtain ⟨h1, h2⟩ := hcnt _ _ (E.writeErr (t.countP isNetSend))
          exact ⟨h1, h2, by simp, by simp, hc⟩

/-- One `connect` is one dial and no `syslog` frame; when it succeeds the client has a
connection. -/
theorem Client.connect_counts (E : Env) (c : Client) (t : NetTrace)
    (e : Option GoError) (c1 : Client) (t1 : NetTrace)
    (h : c.connect E t = .ok (e, c1, t1)) :
    connects t1 = connects t + 1 ∧ writeAttempts t1 = writeAttempts t ∧
      (e = none → ∃ k, c1.connection = some k) := by
  have hopen : CommandOpen ≠ CommandSyslog := by decide
  unfold Client.connect at h
  generalize ht0 : (match c.connection with
    | some conn => t ++ [NetEvent.close conn (E.closeErr (List.countP isNetClose t))]
    | none => t) = t0 at h
  have h0 : connects t0 = connects t ∧ writeAttempts t0 = writeAttempts t := by
    rw [← ht0]
    cases c.connection <;> simp [connects, writeAttempts, List.countP_append, isNetDial]
  obtain ⟨hc0, hw0⟩ := h0
  simp only at h
  cases hd : E.dialErr (List.countP isNetDial t0) with
  | some x =>
    rw [hd] at h
    simp only [Except.ok.injEq, Prod.mk.injEq] at h
    obtain ⟨rfl, rfl, rfl⟩ := h
    refine ⟨?_, ?_, ?_⟩
    · rw [connects_append, hc0]; simp [connects, isNetDial]
    · rw [writeAttempts_append, hw0]; simp [writeAttempts]
    · intro hx; exact Option.noConfusion hx
  | none =>
    rw [hd] at h
    have hconn : (if c.hostname = [] then
        ({ c with connection := some (List.countP isNetDial t0), hostname := E.localAddr } : Client)
        else { c with connection := some (List.countP isNetDial t0) }).connection
          = some (List.countP isNetDial t0) := by
      split_ifs <;> rfl
    simp only [hconn, Message.send, readMessage] at h
    generalize parseMessage _ _ = pr at h
    cases pr with
    | error f => exact Except.noConfusion h
    | ok r =>
      obtain ⟨ack, e2⟩ := r
      cases e2 with
      | some err =>
        simp only [Except.ok.injEq, Prod.mk.injEq] at h
        obtain ⟨rfl, rfl, rfl⟩ := h
        refine ⟨?_, ?_, ?_⟩
        · simp only [connects_append, hc0]; simp [connects, isNetDial]
        · simp only [writeAttempts_append, hw0]; simp [writeAttempts, hopen]
        · intro hx; exact Option.noConfusion hx
      | none =>
        simp only [Except.ok.injEq, Prod.mk.injEq] at h
        obtain ⟨rfl, rfl, rfl⟩ := h
        refine ⟨?_, ?_, ?_⟩
        · simp only [connects_append, hc0]; simp [connects, isNetDial]
        · simp only [writeAttempts_append, hw0]; simp [writeAttempts, hopen]
        · intro _; exact ⟨_, rfl⟩

/-- `writeAndRetry` on a live connection, spelled out by the outcome of the first write. -/
theorem Client.writeAndRetry_eq (E : Env) (c : Client) (conn : Conn)
    (hc : c.connection = some conn) (p : Int) (tag s : GoString) (t : NetTrace) :
    c.writeAndRetry E p tag s t =
      match c.write E (or64 (and64 c.priority facilityMask) (and64 p severityMask)) tag s t with
      | .error f => .error f
      | .ok ((n, none), c1, t1) => .ok ((n, none), c1, t1)
      | .ok ((_, some _), c1, t1) =>
        match c1.connect E t1 with
        | .error f => .error f
        | .ok (some err, c2, t2) => .ok ((0, some err), c2, t2)
        | .ok (none, c2, t2) =>
          c2.write E (or64 (and64 c.priority facilityMask) (and64 p severityMask)) tag s t2 := by
  simp only [Client.writeAndRetry, hc]

/-- A `write` on a live connection returns unless the frame read declares a length that `make`
refuses. -/
theorem Client.write_total (E : Env) (c : Client) (conn : Conn) (hc : c.connection = some conn)
    (pr : Int) (tag s : GoString) (t : NetTrace)
    (hnp : ∀ k, ∃ r, parseMessage (E.input k).1 (E.input k).2 = .ok r) :
    ∃ r c1 t1, c.write E pr tag s t = .ok (r, c1, t1) := by
  obtain ⟨x, hx⟩ := hnp (t.countP isNetRead)
  obtain ⟨ack, e⟩ := x
  simp only [Client.write, Client.sendString, Client.sendMessage_eq E c conn hc, hx]
  cases e with
  | some err => exact ⟨_, _, _, rfl⟩
  | none =>
    simp only
    split <;> first | exact ⟨_, _, _, rfl⟩ | (rename_i h; exact Except.noConfusion h)

/-- A `connect` returns unless the frame read declares a length that `make` refuses. -/
theorem Client.connect_total (E : Env) (c : Client) (t : NetTrace)
    (hnp : ∀ k, ∃ r, parseMessage (E.input k).1 (E.input k).2 = .ok r) :
    ∃ e c1 t1, c.connect E t = .ok (e, c1, t1) := by
  unfold Client.connect
  generalize (match c.connection with
    | some conn => t ++ [NetEvent.close conn (E.closeErr (List.countP isNetClose t))]
    | none => t) = t0
  simp only
  cases hd : E.dialErr (List.countP isNetDial t0) with
  | some x => exact ⟨_, _, _, rfl⟩
  | none =>
    have hconn : (if c.hostname = [] then
        ({ c with connection := some (List.countP isNetDial t0), hostname := E.localAddr } : Client)
        else { c with connection := some (List.countP isNetDial t0) }).connection
          = some (List.countP isNetDial t0) := by
      split_ifs <;> rfl
    simp only [hconn, Message.send, readMessage]
    obtain ⟨x, hx⟩ := hnp (List.countP isNetRead
      (t0 ++ [NetEvent.dial c.raddr c.timeout none] ++
        [NetEvent.send (List.countP isNetDial t0)
          { Txn := 1, Command := CommandOpen,
            Data := ascii "relp_version=" ++ Itoa relpVersion ++ ascii "\nrelp_software=" ++
              relpSoftware ++ ascii "\ncommands=syslog" }
          (E.writeErr (List.countP isNetSend (t0 ++ [NetEvent.dial c.raddr c.timeout none])))]))
    rw [hx]
    obtain ⟨ack, e2⟩ := x
    cases e2 <;> exact ⟨_, _, _, rfl⟩

/-- C9. Reconnect on write failure: one call of `writeAndRetry` on a client with a live
connection makes at most two write attempts (`syslog` frames) and at most one connect (dial).
If the first write succeeds the call returns `(len(s), nil)` with no connect; if it fails,
`connect` is called exactly once, and either that connect fails, its error is returned with 0
and no second write is made, or the write is made once more and its result is the result of the
call.  The call returns unless a frame read declares a length that `make` refuses (the `make`
in `readMessage` panics there). -/
theorem C9_reconnect_on_write_failure (E : Env) (c : Client) (conn : Conn)
    (hc : c.connection = some conn) (p : Int) (tag s : GoString) (t : NetTrace) :
    (∀ r c1 t1, c.writeAndRetry E p tag s t = .ok (r, c1, t1) →
      writeAttempts t + 1 ≤ writeAttempts t1 ∧ writeAttempts t1 ≤ writeAttempts t + 2 ∧
      connects t ≤ connects t1 ∧ connects t1 ≤ connects t + 1) ∧
    (∀ n c1 t1,
      c.write E (or64 (and64 c.priority facilityMask) (and64 p severityMask)) tag s t
        = .ok ((n, none), c1, t1) →
      c.writeAndRetry E p tag s t = .ok (((s.length : Int), none), c1, t1) ∧
      connects t1 = connects t ∧ writeAttempts t1 = writeAttempts t + 1) ∧
    (∀ n e c1 t1,
      c.write E (or64 (and64 c.priority facilityMask) (and64 p severityMask)) tag s t
        = .ok ((n, some e), c1, t1) →
      connects t1 = connects t ∧ writeAttempts t1 = writeAttempts t + 1 ∧
      (∀ e2 c2 t2, c1.connect E t1 = .ok (some e2, c2, t2) →
        c.writeAndRetry E p tag s t = .ok ((0, some e2), c2, t2) ∧
        connects t2 = connects t + 1 ∧ writeAttempts t2 = writeAttempts t + 1) ∧
      (∀ c2 t2, c1.connect E t1 = .ok (none, c2, t2) →
        c.writeAndRetry E p tag s t
          = c2.write E (or64 (and64 c.priority facilityMask) (and64 p severityMask)) tag s t2 ∧
        connects t2 = connects t + 1 ∧ writeAttempts t2 = writeAttempts t + 1 ∧
        ∀ r c3 t3,
          c2.write E (or64 (and64 c.priority facilityMask) (and64 p severityMask)) tag s t2
            = .ok (r, c3, t3) →
          connects t3 = connects t + 1 ∧ writeAttempts t3 = writeAttempts t + 2)) ∧
    ((∀ k, ∃ r, parseMessage (E.input k).1 (E.input k).2 = .ok r) →
      ∃ r c1 t1, c.writeAndRetry E p tag s t = .ok (r, c1, t1)) := by
  have heq := Client.writeAndRetry_eq E c conn hc p tag s t
  generalize or64 (and64 c.priority facilityMask) (and64 p severityMask) = pr at heq ⊢
  -- the three cases of the first write
  have hfirst : ∀ n c1 t1, c.write E pr tag s t = .ok ((n, none), c1, t1) →
      c.writeAndRetry E p tag s t = .ok (((s.length : Int), none), c1, t1) ∧
      connects t1 = connects t ∧ writeAttempts t1 = writeAttempts t + 1 := by
    intro n c1 t1 hw
    obtain ⟨h1, h2, h3, _, _⟩ := Client.write_counts E c conn hc pr tag s t _ c1 t1 hw
    have hn : n = (s.length : Int) := h3 rfl
    subst hn
    rw [heq, hw]
    exact ⟨rfl, h1, h2⟩
  have hsecond : ∀ n e c1 t1, c.write E pr tag s t = .ok ((n, some e), c1, t1) →
      connects t1 = connects t ∧ writeAttempts t1 = writeAttempts t + 1 ∧
      (∀ e2 c2 t2, c1.connect E t1 = .ok (some e2, c2, t2) →
        c.writeAndRetry E p tag s t = .ok ((0, some e2), c2, t2) ∧
        connects t2 = connects t + 1 ∧ writeAttempts t2 = writeAttempts t + 1) ∧
      (∀ c2 t2, c1.connect E t1 = .ok (none, c2, t2) →
        c.writeAndRetry E p tag s t = c2.write E pr tag s t2 ∧
        connects t2 = connects t + 1 ∧ writeAttempts t2 = writeAttempts t + 1 ∧
        ∀ r c3 t3, c2.write E pr tag s t2 = .ok (r, c3, t3) →
          connects t3 = connects t + 1 ∧ writeAttempts t3 = writeAttempts t + 2) := by
    intro n e c1 t1 hw
    obtain ⟨h1, h2, _, _, _⟩ := Client.write_counts E c conn hc pr tag s t _ c1 t1 hw
    refine ⟨h1, h2, ?_, ?_⟩
    · intro e2 c2 t2 hcn
      obtain ⟨g1, g2, _⟩ := Client.connect_counts E c1 t1 _ c2 t2 hcn
      refine ⟨by rw [heq, hw]; simp only [hcn], by omega, by omega⟩
    · intro c2 t2 hcn
      obtain ⟨g1, g2, g3⟩ := Client.connect_counts E c1 t1 _ c2 t2 hcn
      obtain ⟨k, hk⟩ := g3 rfl
      refine ⟨by rw [heq, hw]; simp only [hcn], by omega, by omega, ?_⟩
      intro r c3 t3 hw2
      obtain ⟨f1, f2, _, _, _⟩ := Client.write_counts E c2 k hk pr tag s t2 r c3 t3 hw2
      exact ⟨by omega, by omega⟩
  refine ⟨?_, hfirst, hsecond, ?_⟩
  · intro r c1 t1 hret
    cases hw : c.write E pr tag s t with
    | error f => rw [heq, hw] at hret; exact Except.noConfusion hret
    | ok x =>
      obtain ⟨⟨n, e⟩, ca, ta⟩ := x
      cases e with
      | none =>
        obtain ⟨h1, h2, h3⟩ := hfirst n ca ta hw
        rw [h1] at hret
        simp only [Except.ok.injEq, Prod.mk.injEq] at hret
        obtain ⟨_, _, rfl⟩ := hret
        omega
      | some e1 =>
        obtain ⟨h1, h2, h3, h4⟩ := hsecond n e1 ca ta hw
        cases hcn : ca.connect E ta with
        | error f => rw [heq, hw] at hret; simp only [hcn] at hret; exact Except.noConfusion hret
        | ok y =>
          obtain ⟨e2, cb, tb⟩ := y
          cases e2 with
          | some e3 =>
            obtain ⟨g1, g2, g3⟩ := h3 e3 cb tb hcn
            rw [g1] at hret
            simp only [Except.ok.injEq, Prod.mk.injEq] at hret
            obtain ⟨_, _, rfl⟩ := hret
            omega
          | none =>
            obtain ⟨g1, g2, g3, g4⟩ := h4 cb tb hcn
            rw [g1] at hret
            obtain ⟨f1, f2⟩ := g4 r c1 t1 hret
            omega
  · intro hnp
    obtain ⟨⟨n, e⟩, ca, ta, hw⟩ := Client.write_total E c conn hc pr tag s t hnp
    cases e with
    | none => exact ⟨_, _, _, (hfirst n ca ta hw).1⟩
    | some e1 =>
      obtain ⟨_, _, h3, h4⟩ := hsecond n e1 ca ta hw
      obtain ⟨e2, cb, tb, hcn⟩ := Client.connect_total E ca ta hnp
      cases e2 with
      | some e3 => exact ⟨_, _, _, (h3 e3 cb tb hcn).1⟩
      | none =>
        obtain ⟨g1, g2, g3⟩ := Client.connect_counts E ca ta _ cb tb hcn
        obtain ⟨k, hk⟩ := g3 rfl
        obtain ⟨r, cc, tc, hw2⟩ := Client.write_total E cb k hk pr tag s tb hnp
        exact ⟨r, cc, tc, by rw [(h4 cb tb hcn).1, hw2]⟩

/-- Through the pointer receiver the transaction counter does advance: after `sendMessage`
returns, `nextTxn` is one more than before. -/
theorem Client.sendMessage_nextTxn (E : Env) (c : Client) (conn : Conn)
    (hc : c.connection = some conn) (msg : Message) (t : NetTrace)
    (e : Option GoError) (c1 : Client) (t1 : NetTrace)
    (h : c.sendMessage E msg t = .ok (e, c1, t1)) :
    c1.nextTxn = wrapInt64 (c.nextTxn + 1) := by
  rw [Client.sendMessage_eq E c conn hc msg t] at h
  cases hp : parseMessage (E.input (t.countP isNetRead)).1 (E.input (t.countP isNetRead)).2 with
  | error f => rw [hp] at h; exact Except.noConfusion h
  | ok x =>
    obtain ⟨ack, e2⟩ := x
    rw [hp] at h
    cases e2 <;>
      · simp only [Except.ok.injEq, Prod.mk.injEq] at h
        obtain ⟨_, rfl, _⟩ := h
        rfl

/-- C8 fails on the code: after `Dial`, three messages written through the public method
`Emerg`, each acknowledged by the server and none causing a reconnect, all go out in `syslog`
frames with transaction id 2.  The methods have value receivers, so the increment of `nextTxn`
made by `sendMessage` is made on a copy of the client. -/
theorem C8_transaction_id_reused :
    dialThenEmerg ackEnv [ascii "a", ascii "b", ascii "c"]
      = some ([none, none, none],
          [(CommandOpen, 1), (CommandSyslog, 2), (CommandSyslog, 2), (CommandSyslog, 2)]) := by
  rfl

theorem ackEnv_readable : ∀ k, ∃ r, parseMessage (ackEnv.input k).1 (ackEnv.input k).2 = .ok r := by
  intro k
  by_cases hk : k = 0
  · subst hk; exact ⟨_, rfl⟩
  · have : ackEnv.input k = (ascii "2 rsp 6 200 OK\n", .eof) := by simp [ackEnv, hk]
    rw [this]; exact ⟨_, rfl⟩

theorem C7_ack_correlation_witness :
    exClient.connection = some 0 ∧
    ((∃ c1 t1, exClient.sendMessage ackEnv ⟨2, CommandSyslog, ascii "m"⟩ exDialled
        = .ok (none, c1, t1)) ↔
      ∃ ack, parseMessage (ackEnv.input (exDialled.countP isNetRead)).1
            (ackEnv.input (exDialled.countP isNetRead)).2 = .ok (ack, none) ∧
          ack.Command = CommandRsp ∧ ack.Txn = (Message.mk 2 CommandSyslog (ascii "m")).Txn) ∧
    (∀ ack e, parseMessage (ackEnv.input (exDialled.countP isNetRead)).1
          (ackEnv.input (exDialled.countP isNetRead)).2 = .ok (ack, e) →
      (e ≠ none ∨ ack.Command ≠ CommandRsp ∨
        ack.Txn ≠ (Message.mk 2 CommandSyslog (ascii "m")).Txn) →
      ∃ err c1 t1, exClient.sendMessage ackEnv ⟨2, CommandSyslog, ascii "m"⟩ exDialled
        = .ok (some err, c1, t1)) :=
  ⟨rfl, C7_ack_correlation ackEnv exClient 0 rfl ⟨2, CommandSyslog, ascii "m"⟩ exDialled⟩

theorem C9_reconnect_on_write_failure_witness :
    exClient.connection = some 0 ∧
    (∀ r c1 t1, exClient.writeAndRetry ackEnv LOG_ERR (ascii "tag") (ascii "m") exDialled
        = .ok (r, c1, t1) →
      writeAttempts exDialled + 1 ≤ writeAttempts t1 ∧
      writeAttempts t1 ≤ writeAttempts exDialled + 2 ∧
      connects exDialled ≤ connects t1 ∧ connects t1 ≤ connects exDialled + 1) ∧
    ∃ r c1 t1, exClient.writeAndRetry ackEnv LOG_ERR (ascii "tag") (ascii "m") exDialled
      = .ok (r, c1, t1) :=
  ⟨rfl,
    (C9_reconnect_on_write_failure ackEnv exClient 0 rfl LOG_ERR (ascii "tag") (ascii "m")
      exDialled).1,
    (C9_reconnect_on_write_failure ackEnv exClient 0 rfl LOG_ERR (ascii "tag") (ascii "m")
      exDialled).2.2.2 ackEnv_readable⟩

/-! ## The dial loop -/

theorem retryEvents_succ (s : syslog Trace) (ctx : Context) (k : Nat) :
    retryEvents s ctx (k + 1)
      = [Event.dial ctx s.syslogProtocol s.syslogAddr s.syslogTag false, Event.sleep]
        ++ retryEvents s ctx k := by
  simp [retryEvents, List.replicate_succ]

theorem retryEvents_countP (s : syslog Trace) (ctx : Context) (k : Nat) :
    (retryEvents s ctx k).countP isDial = k := by
  induction k with
  | zero => rfl
  | succ k ih =>
    rw [retryEvents_succ, List.countP_append, ih]
    simp [isDial, List.countP_cons]
    omega

theorem wire_retryEvents (s : syslog Trace) (ctx : Context) (k : Nat) :
    wire (retryEvents s ctx k)
      = (List.replicate k
          [Wire.dial ctx s.syslogProtocol s.syslogAddr s.syslogTag false, Wire.sleep]).flatten := by
  induction k with
  | zero => rfl
  | succ k ih =>
    rw [retryEvents_succ, wire_append, ih]
    simp [wire, Event.wire, List.replicate_succ]

/-- When the dial strategy fails `k` times and then succeeds, the dial loop returns after
`k + 1` attempts and `k` sleeps, whatever the context. -/
theorem syslog.dialLoop_retry (T : Transport) (s : syslog Trace) (ctx : Context) :
    ∀ (k : Nat) (t : Trace) (fuel : Nat), k < fuel →
      (∀ j, j < k → T.dialOk (t.countP isDial + j) = false) →
      T.dialOk (t.countP isDial + k) = true →
      syslog.dialLoop traceRuntime (recordingDial T) s ctx fuel t
        = .ok (some (recordingWriter T),
            t ++ retryEvents s ctx k
              ++ [Event.dial ctx s.syslogProtocol s.syslogAddr s.syslogTag true]) := by
  intro k
  induction k with
  | zero =>
    intro t fuel hfuel _ hok
    obtain ⟨f, rfl⟩ : ∃ f, fuel = f + 1 := ⟨fuel - 1, by omega⟩
    simp only [Nat.add_zero] at hok
    simp [syslog.dialLoop, recordingDial, hok, retryEvents]
  | succ k ih =>
    intro t fuel hfuel hfail hok
    obtain ⟨f, rfl⟩ : ∃ f, fuel = f + 1 := ⟨fuel - 1, by omega⟩
    have h0 : T.dialOk (t.countP isDial) = false := by simpa using hfail 0 (by omega)
    have hc : List.countP isDial
        (t ++ [Event.dial ctx s.syslogProtocol s.syslogAddr s.syslogTag false] ++ [Event.sleep])
        = t.countP isDial + 1 := by
      simp [List.countP_append, isDial]
    have hrec := ih
      (t ++ [Event.dial ctx s.syslogProtocol s.syslogAddr s.syslogTag false] ++ [Event.sleep])
      f (by omega)
      (by intro j hj; rw [hc]; have := hfail (j + 1) (by omega); rwa [show t.countP isDial + 1 + j
            = t.countP isDial + (j + 1) by omega])
      (by rw [hc]; rwa [show t.countP isDial + 1 + k = t.countP isDial + (k + 1) by omega])
    simp only [syslog.dialLoop, recordingDial, h0, traceRuntime]
    simp only [traceRuntime] at hrec
    rw [retryEvents_succ]
    simpa using hrec

/-- When the dial strategy never succeeds, the dial loop goes on for as long as it is run,
whatever the context. -/
theorem syslog.dialLoop_dead (T : Transport) (hT : ∀ n, T.dialOk n = false) (s : syslog Trace)
    (ctx : Context) :
    ∀ (fuel : Nat) (t : Trace),
      syslog.dialLoop traceRuntime (recordingDial T) s ctx fuel t = .error .outOfFuel := by
  intro fuel
  induction fuel with
  | zero => intro t; rfl
  | succ f ih =>
    intro t
    simp only [syslog.dialLoop, recordingDial, hT]
    exact ih _

/-- C11, as stated, fails: with an already cancelled context, a non-empty configuration, a batch of
one record and a dial strategy that keeps failing, `toSyslogBulk` does not return, however long it
is run: the dial loop never looks at the context. -/
theorem C11_counterexample :
    ¬ ∃ fuel t1, syslog.toSyslogBulk traceRuntime fuel exSenderDead ctxDone [some recA] []
        = .ok t1 := by
  rintro ⟨fuel, t1, h⟩
  have hd := syslog.dialLoop_dead deadTransport (fun _ => rfl) exSenderDead ctxDone fuel []
  have hcond : ¬ (exSenderDead.syslogProtocol = [] ∨ exSenderDead.syslogAddr = [] ∨
      exSenderDead.syslogTag = [] ∨ ([some recA] : List (Option bufferRecord)).length = 0) := by
    decide
  simp only [syslog.toSyslogBulk, if_neg hcond] at h
  have hdm : exSenderDead.dialMethod = some (recordingDial deadTransport) := rfl
  rw [hdm] at h
  simp only [hd] at h
  exact Except.noConfusion h

/-- C11 (amended). Dial retry is bounded by success only: during dispatch of a non-empty batch
(non-empty configuration) the dial strategy is called again and again, with a sleep after every
failure, until it succeeds; the context, cancelled or not, is only passed on to the strategy.
If the strategy fails `k` times and then succeeds, `toSyslogBulk` returns after `k + 1` dials and
`k` sleeps with the batch dispatched; if the strategy keeps failing, `toSyslogBulk` keeps retrying
and does not return, also when the context is already cancelled. -/
theorem C11_dial_retry (T : Transport) (s : syslog Trace) (ctx : Context)
    (r : bufferRecord) (rs : List bufferRecord) (t : Trace)
    (hcfg : s.syslogProtocol ≠ [] ∧ s.syslogAddr ≠ [] ∧ s.syslogTag ≠ [])
    (hdial : s.dialMethod = some (recordingDial T)) :
    (∀ k fuel, k < fuel →
      (∀ j, j < k → T.dialOk (t.countP isDial + j) = false) →
      T.dialOk (t.countP isDial + k) = true →
      ∃ t1, syslog.toSyslogBulk traceRuntime fuel s ctx ((r :: rs).map some) t = .ok t1 ∧
        wire t1 = wire t
          ++ (List.replicate k
              [Wire.dial ctx s.syslogProtocol s.syslogAddr s.syslogTag false, Wire.sleep]).flatten
          ++ sessionWire s ctx (r :: rs)) ∧
    ((∀ n, T.dialOk n = false) →
      ∀ fuel, syslog.toSyslogBulk traceRuntime fuel s ctx ((r :: rs).map some) t
        = .error .outOfFuel) := by
  obtain ⟨hp, ha, htag⟩ := hcfg
  have hcond : ¬ (s.syslogProtocol = [] ∨ s.syslogAddr = [] ∨ s.syslogTag = [] ∨
      ((r :: rs).map some).length = 0) := by
    simp [hp, ha, htag]
  constructor
  · intro k fuel hfuel hfail hok
    have hloop := syslog.dialLoop_retry T s ctx k t fuel hfuel hfail hok
    obtain ⟨t1, hrun, hw1, _⟩ := syslog.writeRecords_recording T (r :: rs)
      (t ++ retryEvents s ctx k ++ [.dial ctx s.syslogProtocol s.syslogAddr s.syslogTag true])
    refine ⟨t1 ++ [.close (T.closeErr (t1.countP isClose))], ?_, ?_⟩
    · simp only [syslog.toSyslogBulk, if_neg hcond, hdial, hloop, hrun]
      simp only [recordingWriter]
    · rw [wire_append, hw1, wire_append, wire_append, wire_retryEvents]
      simp [wire, Event.wire, sessionWire]
  · intro hT fuel
    simp only [syslog.toSyslogBulk, if_neg hcond, hdial,
      syslog.dialLoop_dead T hT s ctx fuel t]

/-! ## The buffer refines the queue of the specification -/

theorem messageBuffer.reset_contents (mb : messageBuffer) : mb.reset.contents = [] := by
  simp [messageBuffer.contents, messageBuffer.reset, messageBuffer.size]

/-- One call on a well-formed buffer returns what the queue of the specification returns, and
leaves a well-formed buffer that holds the queue of the specification. -/
theorem messageBuffer.call_spec (mb : messageBuffer) (C : Int) (hwf : mb.wf) (hlen : mb.len = C)
    (c : Call) :
    ∃ mb1, mb.call c = .ok ((specCall C mb.contents c).1, mb1) ∧ mb1.wf ∧ mb1.len = C ∧
      mb1.contents = (specCall C mb.contents c).2 := by
  have hsize := mb.size_of_contents hwf _ rfl
  cases c with
  | add v =>
    by_cases hfull : mb.size = mb.len
    · have hq : (mb.contents.length : Int) = C := by rw [← hsize, hfull, hlen]
      exact ⟨mb, by simp only [messageBuffer.call, mb.add_full v hfull, specCall, if_pos hq], hwf,
        hlen, by simp only [specCall, if_pos hq]⟩
    · have hq : ¬ (mb.contents.length : Int) = C := by rw [← hsize, ← hlen]; exact hfull
      obtain ⟨mb1, hadd, hwf1, hl1, _, hc1⟩ := mb.add_spec v hwf hfull
      exact ⟨mb1, by simp only [messageBuffer.call, hadd, specCall, if_neg hq], hwf1,
        by rw [← hlen]; simp only [messageBuffer.len, hl1],
        by simp only [specCall, if_neg hq, hc1]⟩
  | remove =>
    by_cases he : mb.head = mb.tail
    · have hq : mb.contents = [] := (mb.contents_nil_iff hwf).mpr he
      exact ⟨mb, by simp only [messageBuffer.call, mb.remove_empty he, hq, specCall], hwf, hlen,
        by simp only [hq, specCall]⟩
    · obtain ⟨v, mb1, hrem, hwf1, hl1, _, _, _, hc1⟩ := mb.remove_spec hwf he
      exact ⟨mb1, by simp only [messageBuffer.call, hrem, hc1, specCall], hwf1,
        by rw [← hlen]; simp only [messageBuffer.len, hl1], by simp only [hc1, specCall]⟩
  | size => exact ⟨mb, by simp only [messageBuffer.call, specCall, hsize], hwf, hlen, rfl⟩
  | empty =>
    refine ⟨mb, ?_, hwf, hlen, rfl⟩
    have : mb.empty = mb.contents.isEmpty := by
      by_cases he : mb.head = mb.tail
      · simp [messageBuffer.empty, he, (mb.contents_nil_iff hwf).mpr he]
      · have hne : mb.contents ≠ [] := fun h => he ((mb.contents_nil_iff hwf).mp h)
        simp [messageBuffer.empty, he, List.isEmpty_iff, hne]
    simp only [messageBuffer.call, specCall, this]
  | len => exact ⟨mb, by simp only [messageBuffer.call, specCall, hlen], hwf, hlen, rfl⟩
  | reset =>
    exact ⟨mb.reset, rfl, (mb.reset_wf hwf).1, by rw [(mb.reset_wf hwf).2, hlen],
      by simp only [specCall, mb.reset_contents]⟩

/-- A sequence of calls on a well-formed buffer returns what the queue of the specification
returns. -/
theorem messageBuffer.calls_spec (C : Int) (cs : List Call) :
    ∀ mb : messageBuffer, mb.wf → mb.len = C →
      ∃ mb1, mb.calls cs = .ok ((specCalls C mb.contents cs).1, mb1) ∧ mb1.wf ∧ mb1.len = C ∧
        mb1.contents = (specCalls C mb.contents cs).2 := by
  induction cs with
  | nil => intro mb hwf hlen; exact ⟨mb, rfl, hwf, hlen, rfl⟩
  | cons c cs ih =>
    intro mb hwf hlen
    obtain ⟨mb1, h1, hwf1, hl1, hc1⟩ := mb.call_spec C hwf hlen c
    obtain ⟨mb2, h2, hwf2, hl2, hc2⟩ := ih mb1 hwf1 hl1
    refine ⟨mb2, ?_, hwf2, hl2, ?_⟩
    · simp only [messageBuffer.calls, h1, h2, specCalls, hc1]
    · simp only [specCalls, hc2, hc1]

theorem applyOp_eq_call (mb : messageBuffer) (op : BufOp) :
    applyOp mb op = (match mb.call op.toCall with
      | .error f => .error f
      | .ok (_, mb1) => .ok mb1) := by
  cases op with
  | add v =>
    simp only [applyOp, BufOp.toCall, messageBuffer.call]
    cases mb.add v with
    | error f => rfl
    | ok x => rfl
  | remove =>
    simp only [applyOp, BufOp.toCall, messageBuffer.call]
    cases mb.remove with
    | error f => rfl
    | ok x => rfl
  | reset => rfl

theorem runOps_eq_calls (ops : List BufOp) :
    ∀ mb : messageBuffer, runOps mb ops = (match mb.calls (ops.map BufOp.toCall) with
      | .error f => .error f
      | .ok (_, mb1) => .ok mb1) := by
  induction ops with
  | nil => intro mb; rfl
  | cons op ops ih =>
    intro mb
    simp only [runOps, applyOp_eq_call, List.map_cons, messageBuffer.calls]
    cases mb.call op.toCall with
    | error f => rfl
    | ok x =>
      obtain ⟨r, mb1⟩ := x
      simp only [ih mb1]
      cases mb1.calls (ops.map BufOp.toCall) with
      | error f => rfl
      | ok y => rfl

/-- Every state reached from `newMessageBuffer C` holds the queue of the specification. -/
theorem reachable_spec (C : Int) (hC : 0 ≤ C) (ops : List BufOp) :
    ∃ mb0 mb, newMessageBuffer C = .ok mb0 ∧ runOps mb0 ops = .ok mb ∧ mb0.wf ∧ mb0.len = C ∧
      mb0.contents = [] ∧ mb.wf ∧ mb.len = C ∧ mb.contents = specQueue C ops := by
  obtain ⟨mb0, hnew, hwf0, hlen0, hc0, _, _⟩ := newMessageBuffer_spec C hC
  obtain ⟨mb, hcalls, hwf, hlen, hc⟩ := messageBuffer.calls_spec C (ops.map BufOp.toCall) mb0 hwf0
    hlen0
  refine ⟨mb0, mb, hnew, ?_, hwf0, hlen0, hc0, hwf, hlen, ?_⟩
  · rw [runOps_eq_calls, hcalls]
  · rw [hc, hc0]; rfl

theorem specCalls_count (C : Int) (cs : List Call) :
    ∀ q : List (Option bufferRecord), Call.reset ∉ cs →
      (((specCalls C q cs).2.length : Int) + removesOk (specCalls C q cs).1
        = q.length + addsOk (specCalls C q cs).1) := by
  induction cs with
  | nil => intro q _; simp [specCalls, addsOk, removesOk]
  | cons c cs ih =>
    intro q hnr
    have hc : c ≠ .reset := fun h => hnr (by rw [h]; exact List.mem_cons_self _ _)
    have ih1 := ih (specCall C q c).2 (fun h => hnr (List.mem_cons_of_mem _ h))
    simp only [specCalls, addsOk, removesOk, List.countP_cons] at ih1 ⊢
    cases c with
    | reset => exact absurd rfl hc
    | add v =>
      by_cases hq : (q.length : Int) = C
      · simp only [specCall, if_pos hq] at ih1 ⊢
        simp only [Bool.false_eq_true, if_false, Nat.add_zero] at ih1 ⊢
        exact ih1
      · simp only [specCall, if_neg hq] at ih1 ⊢
        simp only [List.length_append, List.length_singleton, Nat.cast_add, Nat.cast_one,
          Bool.false_eq_true, if_false, if_true, Nat.add_zero] at ih1 ⊢
        omega
    | remove =>
      cases q with
      | nil =>
        simp only [specCall] at ih1 ⊢
        simp only [Bool.false_eq_true, if_false, Nat.add_zero] at ih1 ⊢
        exact ih1
      | cons v q1 =>
        simp only [specCall] at ih1 ⊢
        simp only [List.length_cons, Nat.cast_add, Nat.cast_one, Bool.false_eq_true, if_false,
          if_true, Nat.add_zero] at ih1 ⊢
        omega
    | size =>
      simp only [specCall] at ih1 ⊢
      simp only [Bool.false_eq_true, if_false, Nat.add_zero] at ih1 ⊢
      exact ih1
    | empty =>
      simp only [specCall] at ih1 ⊢
      simp only [Bool.false_eq_true, if_false, Nat.add_zero] at ih1 ⊢
      exact ih1
    | len =>
      simp only [specCall] at ih1 ⊢
      simp only [Bool.false_eq_true, if_false, Nat.add_zero] at ih1 ⊢
      exact ih1

theorem messageBuffer.size_eq_mod (mb : messageBuffer) (hwf : mb.wf) :
    mb.size = (mb.tail - mb.head + mb.buffer.length) % mb.buffer.length := by
  obtain ⟨h0, h1, t0, t1⟩ := hwf
  unfold messageBuffer.size
  split
  · rw [Int.emod_eq_of_lt (by omega) (by omega)]; omega
  · rw [Int.add_emod_self, Int.emod_eq_of_lt (by omega) (by omega)]

/-- C14. `size()` counts the queued records: after every sequence of calls without `reset` on a
fresh buffer of capacity `C ≥ 0`, in which `k` calls of `add` and `r` calls of `remove` returned
nil, `size() = k - r`; this is `(tail - head + len(buffer)) mod len(buffer)`, and `empty()` is
true exactly when `size() = 0`. -/
theorem C14_size_counts (C : Int) (hC : 0 ≤ C) (cs : List Call) (hcs : Call.reset ∉ cs) :
    ∃ mb0 rs mb, newMessageBuffer C = .ok mb0 ∧ mb0.calls cs = .ok (rs, mb) ∧
      mb.size = (addsOk rs : Int) - removesOk rs ∧
      mb.size = (mb.tail - mb.head + mb.buffer.length) % mb.buffer.length ∧
      (mb.empty = true ↔ mb.size = 0) := by
  obtain ⟨mb0, hnew, hwf0, hlen0, hc0, _, _⟩ := newMessageBuffer_spec C hC
  obtain ⟨mb, hcalls, hwf, _, hc⟩ := messageBuffer.calls_spec C cs mb0 hwf0 hlen0
  rw [hc0] at hcalls hc
  refine ⟨mb0, _, mb, hnew, hcalls, ?_, mb.size_eq_mod hwf, mb.empty_iff_size hwf⟩
  have hcount := specCalls_count C cs [] hcs
  rw [← hc] at hcount
  rw [mb.size_of_contents hwf _ rfl]
  simp only [List.length_nil, Nat.cast_zero] at hcount
  omega

/-- C15. `remove()` on an empty buffer fails and changes nothing: in every state reached from
`newMessageBuffer C` (`C ≥ 0`) by `add`, `remove` and `reset` calls, `remove()` returns an error
if and only if `head == tail`, and then the state (head, tail and all slots) is unchanged;
otherwise it returns nil as error together with the oldest queued record (the head of the queue
of the specification), the other records stay queued in order and `size()` shrinks by exactly
one. -/
theorem C15_remove_on_empty (C : Int) (hC : 0 ≤ C) (ops : List BufOp) :
    ∃ mb0 mb, newMessageBuffer C = .ok mb0 ∧ runOps mb0 ops = .ok mb ∧
      ∃ v err mb1, mb.remove = .ok ((v, err), mb1) ∧
        (err.isSome ↔ mb.head = mb.tail) ∧
        (mb.head = mb.tail → v = none ∧ err = some .bufferEmpty ∧ mb1 = mb) ∧
        (mb.head ≠ mb.tail → err = none ∧ mb1.size = mb.size - 1 ∧
          ∃ rest, specQueue C ops = v :: rest ∧ mb1.contents = rest) := by
  obtain ⟨mb0, mb, hnew, hrun, _, _, _, hwf, _, hc⟩ := reachable_spec C hC ops
  refine ⟨mb0, mb, hnew, hrun, ?_⟩
  by_cases he : mb.head = mb.tail
  · refine ⟨none, some .bufferEmpty, mb, mb.remove_empty he, by simp [he], ?_, ?_⟩
    · intro _; exact ⟨rfl, rfl, rfl⟩
    · intro h; exact absurd he h
  · obtain ⟨v, mb1, hrem, _, _, hsz, _, _, hc1⟩ := mb.remove_spec hwf he
    refine ⟨v, none, mb1, hrem, by simp [he], ?_, ?_⟩
    · intro h; exact absurd h he
    · intro _; exact ⟨rfl, hsz, mb1.contents, by rw [← hc, hc1], rfl⟩

/-- C16. Wrap-around and reset return to a state equivalent to fresh: `reset()` from every state
yields `empty() == true` and `size() == 0`; and whenever a buffer reached from
`newMessageBuffer C` (`C ≥ 0`) by `add`, `remove` and `reset` calls is empty again, or has just
been reset, every sequence of `add`, `remove`, `size`, `empty`, `len` and `reset` calls returns on
it the same results as on the fresh buffer `newMessageBuffer C`. -/
theorem C16_empty_as_fresh (C : Int) (hC : 0 ≤ C) (ops : List BufOp) (cs : List Call) :
    ∃ mb0 mb, newMessageBuffer C = .ok mb0 ∧ runOps mb0 ops = .ok mb ∧
      (∀ x : messageBuffer, x.reset.empty = true ∧ x.reset.size = 0) ∧
      (∃ rs mb1 mb2, mb.reset.calls cs = .ok (rs, mb1) ∧ mb0.calls cs = .ok (rs, mb2)) ∧
      (mb.empty = true →
        ∃ rs mb1 mb2, mb.calls cs = .ok (rs, mb1) ∧ mb0.calls cs = .ok (rs, mb2)) := by
  obtain ⟨mb0, mb, hnew, hrun, hwf0, hlen0, hc0, hwf, hlen, _⟩ := reachable_spec C hC ops
  obtain ⟨mb2, hfresh, _, _, _⟩ := messageBuffer.calls_spec C cs mb0 hwf0 hlen0
  rw [hc0] at hfresh
  refine ⟨mb0, mb, hnew, hrun, ?_, ?_, ?_⟩
  · intro x
    simp [messageBuffer.reset, messageBuffer.empty, messageBuffer.size]
  · obtain ⟨mb1, h1, _, _, _⟩ := messageBuffer.calls_spec C cs mb.reset (mb.reset_wf hwf).1
      (by rw [(mb.reset_wf hwf).2, hlen])
    rw [mb.reset_contents] at h1
    exact ⟨_, mb1, mb2, h1, hfresh⟩
  · intro he
    have hq : mb.contents = [] := by
      apply (mb.contents_nil_iff hwf).mpr
      simpa [messageBuffer.empty] using he
    obtain ⟨mb1, h1, _, _, _⟩ := messageBuffer.calls_spec C cs mb hwf hlen
    rw [hq] at h1
    exact ⟨_, mb1, mb2, h1, hfresh⟩

/-! ## Severity dispatch -/

/-- C17. Severity dispatch: for each of the eight severities `L` and every message `m`,
`toSyslog` with level `L` calls exactly one method of the writer, the one named for `L`, exactly
once, with `m` unchanged (seen on the recording transport); on the mock writer the count for `L`
and the total count each grow by one, the new message of level `L` is `m`, and no other
severity's count changes. -/
theorem C17_severity_dispatch (L : Int) (hL : isSeverity L) (m : GoString) :
    (methodOf LOG_EMERG = some .Emerg ∧ methodOf LOG_ALERT = some .Alert ∧
      methodOf LOG_CRIT = some .Crit ∧ methodOf LOG_ERR = some .Err ∧
      methodOf LOG_WARNING = some .Warning ∧ methodOf LOG_NOTICE = some .Notice ∧
      methodOf LOG_INFO = some .Info ∧ methodOf LOG_DEBUG = some .Debug) ∧
    (∀ (T : Transport) (t : Trace), ∃ meth, methodOf L = some meth ∧
      wire (syslog.toSyslog traceRuntime (recordingWriter T) L m t)
        = wire t ++ [Wire.call meth m]) ∧
    (∀ (rt : Runtime mock.SyslogWriter) (w : mock.SyslogWriter),
      (syslog.toSyslog rt mock.writer L m w).Messages L = w.Messages L + 1 ∧
      (syslog.toSyslog rt mock.writer L m w).TotalMessages = w.TotalMessages + 1 ∧
      (syslog.toSyslog rt mock.writer L m w).Message L (w.Messages L) = m ∧
      ∀ L2, isSeverity L2 → L2 ≠ L →
        (syslog.toSyslog rt mock.writer L m w).Messages L2 = w.Messages L2) := by
  refine ⟨by decide, ?_, ?_⟩
  · intro T t
    obtain ⟨meth, hm⟩ := methodOf_severity L hL
    refine ⟨meth, hm, ?_⟩
    rw [(syslog.toSyslog_recording T L m t).1, hm]
    rfl
  · intro rt w
    obtain ⟨h0, h7⟩ := hL
    interval_cases L
    all_goals
      refine ⟨?_, ?_, ?_, ?_⟩
      · simp [syslog.toSyslog, mock.writer, mock.SyslogWriter.Messages, LOG_EMERG, LOG_ALERT,
          LOG_CRIT, LOG_ERR, LOG_WARNING, LOG_NOTICE, LOG_INFO, LOG_DEBUG,
          mock.SyslogWriter.Emerg, mock.SyslogWriter.Alert, mock.SyslogWriter.Crit,
          mock.SyslogWriter.Err, mock.SyslogWriter.Warning, mock.SyslogWriter.Notice,
          mock.SyslogWriter.Info, mock.SyslogWriter.Debug]
      · simp [syslog.toSyslog, mock.writer, mock.SyslogWriter.TotalMessages, LOG_EMERG, LOG_ALERT,
          LOG_CRIT, LOG_ERR, LOG_WARNING, LOG_NOTICE, LOG_INFO, LOG_DEBUG,
          mock.SyslogWriter.Emerg, mock.SyslogWriter.Alert, mock.SyslogWriter.Crit,
          mock.SyslogWriter.Err, mock.SyslogWriter.Warning, mock.SyslogWriter.Notice,
          mock.SyslogWriter.Info, mock.SyslogWriter.Debug]
        omega
      · simp [syslog.toSyslog, mock.writer, mock.SyslogWriter.Messages,
          mock.SyslogWriter.Message, LOG_EMERG, LOG_ALERT,
          LOG_CRIT, LOG_ERR, LOG_WARNING, LOG_NOTICE, LOG_INFO, LOG_DEBUG,
          mock.SyslogWriter.Emerg, mock.SyslogWriter.Alert, mock.SyslogWriter.Crit,
          mock.SyslogWriter.Err, mock.SyslogWriter.Warning, mock.SyslogWriter.Notice,
          mock.SyslogWriter.Info, mock.SyslogWriter.Debug]
      · intro L2 hL2 hne
        obtain ⟨g0, g7⟩ := hL2
        interval_cases L2 <;>
          simp [syslog.toSyslog, mock.writer, mock.SyslogWriter.Messages, LOG_EMERG, LOG_ALERT,
            LOG_CRIT, LOG_ERR, LOG_WARNING, LOG_NOTICE, LOG_INFO, LOG_DEBUG,
            mock.SyslogWriter.Emerg, mock.SyslogWriter.Alert, mock.SyslogWriter.Crit,
            mock.SyslogWriter.Err, mock.SyslogWriter.Warning, mock.SyslogWriter.Notice,
            mock.SyslogWriter.Info, mock.SyslogWriter.Debug] at hne ⊢

/-! ## Concurrent producers -/

/-- The two critical sections of `add`, run one right after the other, are `add`. -/
theorem messageBuffer.add_eq_sections (mb : messageBuffer) (v : Option bufferRecord) :
    mb.add v = (if mb.addCheck then .ok (some .bufferFull, mb)
      else match mb.addInsert v with
        | .error f => .error f
        | .ok mb1 => .ok (none, mb1)) := by
  unfold messageBuffer.add messageBuffer.addCheck messageBuffer.addInsert
  by_cases h : mb.size = mb.len
  · simp [h]
  · simp only [h, if_false, decide_False, Bool.false_eq_true]
    split_ifs <;> rfl

/-- C18 fails on the code: on a buffer of capacity 1, two goroutines that call `add` and both
pass the check `size() == len()` before either inserts both return nil; two records are then
stored (more than the capacity), `tail` has advanced onto `head`, and `size()` is 0 and `empty()`
true, so both records are lost.  Run one after the other, the second `add` is refused. -/
theorem C18_check_then_insert_race :
    raceOutcome 1 [some recA, some recB] [0, 1, 0, 1]
      = some ([some recA, some recB], 0, 0, 0, true, [some none, some none]) ∧
    raceOutcome 1 [some recA, some recB] [0, 0, 1, 1]
      = some ([some recA, none], 0, 1, 1, false, [some none, some (some .bufferFull)]) := by
  constructor <;> rfl

/-! ## The open handshake -/

/-- `connect`, spelled out by the outcome of the dial and of the read of the response. -/
theorem Client.connect_outcome (E : Env) (c : Client) (t : NetTrace) :
    (∀ x, E.dialErr (t.countP isNetDial) = some x →
      ∃ c1 t1, c.connect E t = .ok (some x, c1, t1)) ∧
    (E.dialErr (t.countP isNetDial) = none →
      (∀ f, parseMessage (E.input (t.countP isNetRead)).1 (E.input (t.countP isNetRead)).2
          = .error f → c.connect E t = .error f) ∧
      (∀ msg e, parseMessage (E.input (t.countP isNetRead)).1 (E.input (t.countP isNetRead)).2
          = .ok (msg, e) →
        ∃ c1 t1, c.connect E t = .ok (e, c1, t1) ∧ (e = none → c1.nextTxn = 2))) := by
  unfold Client.connect
  generalize ht0 : (match c.connection with
    | some conn => t ++ [NetEvent.close conn (E.closeErr (List.countP isNetClose t))]
    | none => t) = t0
  have hd0 : List.countP isNetDial t0 = List.countP isNetDial t := by
    rw [← ht0]; cases c.connection <;> simp [List.countP_append, isNetDial]
  have hr0 : List.countP isNetRead t0 = List.countP isNetRead t := by
    rw [← ht0]; cases c.connection <;> simp [List.countP_append, isNetRead]
  simp only [hd0]
  constructor
  · intro x hx
    rw [hx]
    exact ⟨_, _, rfl⟩
  · intro hnone
    rw [hnone]
    have hconn : (if c.hostname = [] then
        ({ c with connection := some (List.countP isNetDial t), hostname := E.localAddr } : Client)
        else { c with connection := some (List.countP isNetDial t) }).connection
          = some (List.countP isNetDial t) := by
      split_ifs <;> rfl
    have hcount : ∀ (m : Message) (w : Option GoError), List.countP isNetRead
        (t0 ++ [NetEvent.dial c.raddr c.timeout none]
          ++ [NetEvent.send (List.countP isNetDial t) m w]) = List.countP isNetRead t := by
      intro m w
      simp [List.countP_append, isNetRead, hr0]
    simp only [hconn, Message.send, readMessage, hcount]
    constructor
    · intro f hf
      rw [hf]
    · intro msg e hp
      rw [hp]
      cases e with
      | some err => exact ⟨_, _, rfl, fun h => Option.noConfusion h⟩
      | none => exact ⟨_, _, rfl, fun _ => rfl⟩

/-- C20. The open handshake does not validate the response: when the dial succeeds, `connect`
returns nil for every response frame that `readMessage` reads without error, whatever its
payload (beginning with "200 OK" or not), and then sets the next transaction id to 2; `connect`
returns an error only when the dial fails (that error) or the read of the response frame fails
(that error); the outcome of sending the offer plays no part. -/
theorem C20_open_handshake_unvalidated (E : Env) (c : Client) (t : NetTrace) :
    (∀ msg, E.dialErr (t.countP isNetDial) = none →
      parseMessage (E.input (t.countP isNetRead)).1 (E.input (t.countP isNetRead)).2
        = .ok (msg, none) →
      ∃ c1 t1, c.connect E t = .ok (none, c1, t1) ∧ c1.nextTxn = 2) ∧
    (∀ err c1 t1, c.connect E t = .ok (some err, c1, t1) →
      E.dialErr (t.countP isNetDial) = some err ∨
      (E.dialErr (t.countP isNetDial) = none ∧
        ∃ msg, parseMessage (E.input (t.countP isNetRead)).1 (E.input (t.countP isNetRead)).2
          = .ok (msg, some err))) ∧
    (∀ x, E.dialErr (t.countP isNetDial) = some x →
      ∃ c1 t1, c.connect E t = .ok (some x, c1, t1)) ∧
    (∀ msg x, E.dialErr (t.countP isNetDial) = none →
      parseMessage (E.input (t.countP isNetRead)).1 (E.input (t.countP isNetRead)).2
        = .ok (msg, some x) →
      ∃ c1 t1, c.connect E t = .ok (some x, c1, t1)) := by
  obtain ⟨hdial, hrest⟩ := Client.connect_outcome E c t
  refine ⟨?_, ?_, hdial, ?_⟩
  · intro msg hd hp
    obtain ⟨c1, t1, h1, h2⟩ := (hrest hd).2 msg none hp
    exact ⟨c1, t1, h1, h2 rfl⟩
  · intro err c1 t1 hret
    cases hd : E.dialErr (t.countP isNetDial) with
    | some x =>
      obtain ⟨c2, t2, h2⟩ := hdial x hd
      rw [h2] at hret
      simp only [Except.ok.injEq, Prod.mk.injEq, Option.some.injEq] at hret
      left; rw [hret.1]
    | none =>
      right
      refine ⟨rfl, ?_⟩
      cases hp : parseMessage (E.input (t.countP isNetRead)).1
          (E.input (t.countP isNetRead)).2 with
      | error f =>
        rw [(hrest hd).1 f hp] at hret
        exact Except.noConfusion hret
      | ok r =>
        obtain ⟨msg, e⟩ := r
        obtain ⟨c2, t2, h2, _⟩ := (hrest hd).2 msg e hp
        rw [h2] at hret
        simp only [Except.ok.injEq, Prod.mk.injEq] at hret
        exact ⟨msg, by rw [hret.1]⟩
  · intro msg x hd hp
    obtain ⟨c1, t1, h1, _⟩ := (hrest hd).2 msg (some x) hp
    exact ⟨c1, t1, h1⟩

/-! ## Decimal numbers -/

theorem digit_toNat (d : Nat) (h : d < 10) : (UInt8.ofNat (48 + d)).toNat = 48 + d :=
  UInt8.toNat_ofNat_of_lt (by simp only [UInt8.size]; omega)

/-- The digits written for `n` are decimal digits. -/
theorem natDigits_digits : ∀ (f n : Nat), ∀ b ∈ natDigits f n, 48 ≤ b.toNat ∧ b.toNat ≤ 57 := by
  intro f
  induction f with
  | zero => intro n b hb; simp [natDigits] at hb
  | succ f ih =>
    intro n b hb
    simp only [natDigits] at hb
    split_ifs at hb with h
    · simp only [List.mem_singleton] at hb
      rw [hb, digit_toNat n h]; omega
    · simp only [List.mem_append, List.mem_singleton] at hb
      rcases hb with hb | hb
      · exact ih _ b hb
      · rw [hb, digit_toNat _ (Nat.mod_lt _ (by omega))]
        have := Nat.mod_lt n (show 10 > 0 by omega)
        omega

/-- With enough fuel the digits written for `n` start with a digit that is `0` only for
`n = 0`. -/
theorem natDigits_head : ∀ (f n : Nat), n < f →
    ∃ b rest, natDigits f n = b :: rest ∧ 48 ≤ b.toNat ∧ b.toNat ≤ 57 ∧
      (b.toNat = 48 → n = 0 ∧ rest = []) := by
  intro f
  induction f with
  | zero => intro n h; omega
  | succ f ih =>
    intro n hn
    simp only [natDigits]
    split_ifs with h
    · exact ⟨_, [], rfl, by rw [digit_toNat n h]; omega, by rw [digit_toNat n h]; omega,
        fun h0 => ⟨by rw [digit_toNat n h] at h0; omega, rfl⟩⟩
    · obtain ⟨b, rest, hb, h1, h2, h3⟩ := ih (n / 10) (by omega)
      refine ⟨b, rest ++ [UInt8.ofNat (48 + n % 10)], by rw [hb]; rfl, h1, h2, ?_⟩
      intro h0
      have := (h3 h0).1
      omega

theorem digitsValue_single (d : UInt8) (h : 48 ≤ d.toNat ∧ d.toNat ≤ 57) :
    digitsValue [d] = some (d.toNat - 48) := by
  simp [digitsValue, h]

theorem digitsValue_snoc (xs : GoString) (hne : xs ≠ []) (d : UInt8) (n : Nat)
    (hx : digitsValue xs = some n) (h : 48 ≤ d.toNat ∧ d.toNat ≤ 57) :
    digitsValue (xs ++ [d]) = some (n * 10 + (d.toNat - 48)) := by
  cases xs with
  | nil => exact absurd rfl hne
  | cons x xs =>
    simp only [digitsValue, List.cons_append, List.foldl_cons, List.foldl_append,
      List.foldl_nil] at hx ⊢
    rw [hx]
    simp [h]

/-- With enough fuel the digits written for `n` have the value `n`. -/
theorem digitsValue_natDigits : ∀ (f n : Nat), n < f → digitsValue (natDigits f n) = some n := by
  intro f
  induction f with
  | zero => intro n h; omega
  | succ f ih =>
    intro n hn
    simp only [natDigits]
    split_ifs with h
    · rw [digitsValue_single _ (by rw [digit_toNat n h]; omega), digit_toNat n h]
      congr 1
      omega
    · have hlt : n / 10 < f := by omega
      obtain ⟨b, rest, hb, _⟩ := natDigits_head f (n / 10) hlt
      have hmod := Nat.mod_lt n (show 10 > 0 by omega)
      rw [digitsValue_snoc _ (by rw [hb]; exact List.cons_ne_nil _ _) _ (n / 10) (ih _ hlt)
        (by rw [digit_toNat _ hmod]; omega), digit_toNat _ hmod]
      congr 1
      omega

theorem foldl_digits_none (cs : GoString) :
    cs.foldl (fun (acc : Option Nat) (b : UInt8) =>
      match acc with
      | none => none
      | some n => if 48 ≤ b.toNat ∧ b.toNat ≤ 57 then some (n * 10 + (b.toNat - 48)) else none)
      none = none := by
  induction cs with
  | nil => rfl
  | cons c cs ih => simpa only [List.foldl_cons] using ih

/-- On digits whose value fits `uint64` the loop of `ParseUint` computes that value. -/
theorem scanDigits_of_value : ∀ (ds : GoString) (acc n : Nat),
    ds.foldl (fun (acc : Option Nat) (b : UInt8) =>
      match acc with
      | none => none
      | some n => if 48 ≤ b.toNat ∧ b.toNat ≤ 57 then some (n * 10 + (b.toNat - 48)) else none)
      (some acc) = some n →
    n < 2 ^ 64 → scanDigits ds acc = (n, none) ∧ acc ≤ n := by
  intro ds
  induction ds with
  | nil =>
    intro acc n h _
    simp only [List.foldl_nil, Option.some.injEq] at h
    subst h
    exact ⟨rfl, le_refl _⟩
  | cons c cs ih =>
    intro acc n h hn
    simp only [List.foldl_cons] at h
    by_cases hd : 48 ≤ c.toNat ∧ c.toNat ≤ 57
    · simp only [hd, and_self, if_true] at h
      obtain ⟨h1, h2⟩ := ih _ n h hn
      have hc1 : ¬ (acc ≥ (2 ^ 64 - 1) / 10 + 1) := by
        norm_num
        norm_num at hn
        omega
      have hc2 : ¬ (acc * 10 + (c.toNat - 48) > 2 ^ 64 - 1) := by
        norm_num
        norm_num at hn
        omega
      refine ⟨?_, by omega⟩
      simp only [scanDigits, hd, and_self, if_true, if_neg hc1, if_neg hc2, h1]
    · simp only [hd, if_false] at h
      rw [foldl_digits_none] at h
      exact Option.noConfusion h

theorem ParseUint_of_digitsValue (ds : GoString) (n : Nat) (h : digitsValue ds = some n)
    (hn : n < 2 ^ 64) : ParseUint ds = (n, none) := by
  cases ds with
  | nil => exact Option.noConfusion h
  | cons c cs =>
    have hne : c :: cs ≠ [] := List.cons_ne_nil _ _
    simp only [ParseUint, hne, if_false]
    exact (scanDigits_of_value (c :: cs) 0 n h hn).1

/-- `Atoi` reads back what `Itoa` writes, for every Go `int`. -/
theorem Atoi_Itoa (i : Int) (hlo : -(2 ^ 63) ≤ i) (hhi : i < 2 ^ 63) :
    Atoi (Itoa i) = (i, none) := by
  have hv := digitsValue_natDigits (i.natAbs + 1) i.natAbs (by omega)
  have hu := ParseUint_of_digitsValue _ _ hv (by omega)
  obtain ⟨b, rest, hb, h1, h2, _⟩ := natDigits_head (i.natAbs + 1) i.natAbs (by omega)
  by_cases hneg : i < 0
  · have h45 : (45 : UInt8) ≠ 43 := by decide
    simp only [Itoa, if_pos hneg, Atoi, List.head?_cons, List.drop_succ_cons, List.drop_zero,
      true_or, if_true, hu, decide_True]
    have hle : ¬ i.natAbs > 2 ^ 63 := by omega
    simp only [if_neg hle]
    congr 1
    omega
  · have hb45 : b ≠ 45 := by intro h; rw [h] at h1; exact absurd h1 (by decide)
    have hb43 : b ≠ 43 := by intro h; rw [h] at h1; exact absurd h1 (by decide)
    simp only [Itoa, if_neg hneg, Atoi, hb, List.head?_cons, Option.some.injEq, hb45, hb43,
      or_self, if_false, decide_False]
    rw [← hb, hu]
    have hlt : ¬ i.natAbs ≥ 2 ^ 63 := by omega
    simp only [Bool.false_eq_true, if_false, if_neg hlt]
    congr 1
    omega

/-! ## Trimming and reading up to a space -/

theorem stripOne_none (seqs : List GoString) (b : UInt8) (rest : GoString)
    (h : ∀ p ∈ seqs, ∃ p0 ps, p = p0 :: ps ∧ p0 ≠ b) : stripOne seqs (b :: rest) = none := by
  induction seqs with
  | nil => rfl
  | cons p seqs ih =>
    obtain ⟨p0, ps, rfl, hne⟩ := h p (List.mem_cons_self _ _)
    have ih1 := ih (fun q hq => h q (List.mem_cons_of_mem _ hq))
    have hbeq : (p0 == b) = false := by simp [hne]
    simp only [stripOne] at ih1 ⊢
    simp only [List.findSome?, List.isPrefixOf, hbeq, Bool.false_and,
      Bool.false_eq_true, if_false]
    exact ih1

theorem spaceSeqs_heads : ∀ p ∈ spaceSeqs, ∃ p0 ps, p = p0 :: ps ∧ ¬ plainByte p0 := by
  have h : (spaceSeqs.all (fun p => match p with
      | [] => false
      | p0 :: _ => decide (p0.toNat ≤ 32 ∨ 128 ≤ p0.toNat))) = true := by decide
  intro p hp
  have hp1 := List.all_eq_true.mp h p hp
  cases p with
  | nil => simp at hp1
  | cons p0 ps =>
    simp only [decide_eq_true_eq] at hp1
    exact ⟨p0, ps, rfl, by unfold plainByte; omega⟩

theorem spaceSeqs_lasts : ∀ p ∈ spaceSeqs.map List.reverse,
    ∃ p0 ps, p = p0 :: ps ∧ ¬ plainByte p0 := by
  have h : ((spaceSeqs.map List.reverse).all (fun p => match p with
      | [] => false
      | p0 :: _ => decide (p0.toNat ≤ 32 ∨ 128 ≤ p0.toNat))) = true := by decide
  intro p hp
  have hp1 := List.all_eq_true.mp h p hp
  cases p with
  | nil => simp at hp1
  | cons p0 ps =>
    simp only [decide_eq_true_eq] at hp1
    exact ⟨p0, ps, rfl, by unfold plainByte; omega⟩

/-- Trimming stops at a printing ASCII byte. -/
theorem trimFront_plain (seqs : List GoString)
    (hseqs : ∀ p ∈ seqs, ∃ p0 ps, p = p0 :: ps ∧ ¬ plainByte p0)
    (b : UInt8) (hb : plainByte b) (rest : GoString) (n : Nat) :
    trimFront seqs n (b :: rest) = b :: rest := by
  cases n with
  | zero => rfl
  | succ n =>
    have hnone : stripOne seqs (b :: rest) = none := by
      apply stripOne_none
      intro p hp
      obtain ⟨p0, ps, hpe, hnp⟩ := hseqs p hp
      exact ⟨p0, ps, hpe, fun h => hnp (h ▸ hb)⟩
    simp only [trimFront, hnone]

/-- `TrimSpace` removes the one space that follows a string which starts and ends with a
printing ASCII byte, and nothing else. -/
theorem TrimSpace_snoc_space (s : GoString)
    (hhead : ∃ b rest, s = b :: rest ∧ plainByte b)
    (hlast : ∃ init l, s = init ++ [l] ∧ plainByte l) :
    TrimSpace (s ++ [32]) = s := by
  obtain ⟨b, rest, hs, hb⟩ := hhead
  obtain ⟨init, l, hs2, hl⟩ := hlast
  have h1 : trimFront spaceSeqs (s ++ [32]).length (s ++ [32]) = s ++ [32] := by
    rw [hs]; exact trimFront_plain spaceSeqs spaceSeqs_heads b hb _ _
  have hstrip : ∀ x : GoString,
      stripOne (spaceSeqs.map List.reverse) (32 :: x) = some x := by
    intro x
    simp [stripOne, spaceSeqs, List.findSome?, List.isPrefixOf]
  have h2 : trimFront (spaceSeqs.map List.reverse) (s ++ [32]).length (s ++ [32]).reverse
      = s.reverse := by
    rw [List.reverse_append, List.length_append]
    simp only [List.reverse_cons, List.reverse_nil, List.nil_append, List.singleton_append,
      List.length_singleton, trimFront, hstrip]
    rw [hs2, List.reverse_append]
    exact trimFront_plain _ spaceSeqs_lasts l hl _ _
  simp only [TrimSpace, h1, h2, List.reverse_reverse]

theorem natDigits_last (f n : Nat) :
    ∃ init d, natDigits (f + 1) n = init ++ [d] ∧ 48 ≤ d.toNat ∧ d.toNat ≤ 57 := by
  simp only [natDigits]
  split_ifs with h
  · exact ⟨[], _, rfl, by rw [digit_toNat n h]; omega, by rw [digit_toNat n h]; omega⟩
  · have hmod := Nat.mod_lt n (show 10 > 0 by omega)
    exact ⟨_, _, rfl, by rw [digit_toNat _ hmod]; omega, by rw [digit_toNat _ hmod]; omega⟩

/-- A decimal number followed by a space is trimmed to the number. -/
theorem TrimSpace_Itoa (i : Int) : TrimSpace (Itoa i ++ [32]) = Itoa i := by
  obtain ⟨b, rest, hb, h1, h2, _⟩ := natDigits_head (i.natAbs + 1) i.natAbs (by omega)
  obtain ⟨init, d, hd, g1, g2⟩ := natDigits_last i.natAbs i.natAbs
  apply TrimSpace_snoc_space
  · unfold Itoa
    split_ifs
    · exact ⟨45, _, rfl, by unfold plainByte; decide⟩
    · exact ⟨b, rest, hb, by unfold plainByte; omega⟩
  · unfold Itoa
    split_ifs
    · exact ⟨45 :: init, d, by rw [hd]; rfl, by unfold plainByte; omega⟩
    · exact ⟨init, d, hd, by unfold plainByte; omega⟩

/-- A decimal number contains no space. -/
theorem space_not_mem_Itoa (i : Int) : (32 : UInt8) ∉ Itoa i := by
  have hd := natDigits_digits (i.natAbs + 1) i.natAbs
  have h32 : ¬ (48 ≤ (32 : UInt8).toNat ∧ (32 : UInt8).toNat ≤ 57) := by decide
  unfold Itoa
  split_ifs
  · intro h
    simp only [List.mem_cons] at h
    rcases h with h | h
    · exact absurd h (by decide)
    · exact h32 (hd _ h)
  · intro h
    exact h32 (hd _ h)

/-- `ReadString(' ')` on bytes without a space, followed by a space: the bytes and the space are
read, the rest remains. -/
theorem readString_append (xs rest : List UInt8) (h : (32 : UInt8) ∉ xs) :
    readString 32 (xs ++ 32 :: rest) = (xs ++ [32], true, rest) := by
  induction xs with
  | nil => simp [readString]
  | cons x xs ih =>
    have hx : x ≠ 32 := fun e => h (by rw [e]; exact List.mem_cons_self _ _)
    have ih1 := ih (fun e => h (List.mem_cons_of_mem _ e))
    simp only [List.cons_append, readString, hx, if_false, List.append_eq, ih1]

/-! ## Frames -/

theorem command_facts (cmd : GoString)
    (h : cmd ∈ [CommandOpen, CommandSyslog, CommandClose, CommandRsp, CommandAbort]) :
    TrimSpace (cmd ++ [32]) = cmd ∧ (32 : UInt8) ∉ cmd := by
  simp only [List.mem_cons, List.mem_singleton, List.not_mem_nil, or_false] at h
  rcases h with rfl | rfl | rfl | rfl | rfl <;> exact ⟨by decide, by decide⟩

/-- `readMessage` on a frame header written by `send`: transaction id and command are read back,
and the rest of the body of `readMessage` runs on what follows the command. -/
theorem parseMessage_header (txn : Int) (cmd tail : GoString) (endErr : GoError)
    (hlo : -(2 ^ 63) ≤ txn) (hhi : txn < 2 ^ 63)
    (hcmd : cmd ∈ [CommandOpen, CommandSyslog, CommandClose, CommandRsp, CommandAbort]) :
    parseMessage (Itoa txn ++ 32 :: (cmd ++ 32 :: tail)) endErr =
      (if tail.take 1 ≠ [48] then
        if (readString 32 tail).2.1 = false then
          .ok ({ Txn := txn, Command := cmd, Data := [] }, some endErr)
        else
          match Atoi (TrimSpace (readString 32 tail).1) with
          | (_, some e) => .ok ({ Txn := txn, Command := cmd, Data := [] }, some e)
          | (dataLen, none) =>
            if dataLen < 0 ∨ dataLen > maxAlloc then .error .panic
            else if (readString 32 tail).2.2.length < dataLen.toNat then
              .ok ({ Txn := txn, Command := cmd, Data := [] },
                some (if (readString 32 tail).2.2 ≠ [] ∧ endErr = .eof then .unexpectedEOF
                  else endErr))
            else .ok ({ Txn := txn, Command := cmd,
                        Data := (readString 32 tail).2.2.take dataLen.toNat },
                      if tail = [] then some endErr else none)
      else .ok ({ Txn := txn, Command := cmd, Data := [] },
        if tail = [] then some endErr else none)) := by
  obtain ⟨hc1, hc2⟩ := command_facts cmd hcmd
  have hx := space_not_mem_Itoa txn
  have ht := TrimSpace_Itoa txn
  have ha := Atoi_Itoa txn hlo hhi
  generalize Itoa txn = x at hx ht ha ⊢
  simp only [parseMessage, readString_append _ _ hx, readString_append _ _ hc2, ht, ha, hc1,
    Bool.true_eq_false, if_false]


theorem Itoa_pos_head (n : Nat) (h : 0 < n) :
    ∃ b rest, Itoa (n : Int) = b :: rest ∧ b ≠ 48 := by
  obtain ⟨b, rest, hb, _, _, h0⟩ := natDigits_head (n + 1) n (by omega)
  refine ⟨b, rest, ?_, ?_⟩
  · have : ¬ ((n : Int) < 0) := by omega
    simp only [Itoa, this, if_false, Int.natAbs_ofNat]
    exact hb
  · intro e
    rw [e] at h0
    have := (h0 (by decide)).1
    omega

/-- `readMessage` on a header that declares `n > 0` data bytes, followed by the bytes
`avail`: `make` panics when `n` is beyond `maxAlloc`; otherwise the first `n` bytes are the data
when there are that many, and the read comes up short when there are not. -/
theorem parseMessage_body (txn : Int) (cmd avail : GoString) (n : Nat) (endErr : GoError)
    (hlo : -(2 ^ 63) ≤ txn) (hhi : txn < 2 ^ 63)
    (hcmd : cmd ∈ [CommandOpen, CommandSyslog, CommandClose, CommandRsp, CommandAbort])
    (hn : 0 < n) (hn2 : (n : Int) < 2 ^ 63) :
    parseMessage (Itoa txn ++ 32 :: (cmd ++ 32 :: (Itoa (n : Int) ++ 32 :: avail))) endErr =
      if (n : Int) > maxAlloc then .error .panic
      else if avail.length < n then
        .ok ({ Txn := txn, Command := cmd, Data := [] },
          some (if avail ≠ [] ∧ endErr = .eof then .unexpectedEOF else endErr))
      else .ok ({ Txn := txn, Command := cmd, Data := avail.take n }, none) := by
  rw [parseMessage_header txn cmd _ endErr hlo hhi hcmd]
  obtain ⟨b, rest, hb, hb48⟩ := Itoa_pos_head n hn
  have htake : (Itoa (n : Int) ++ 32 :: avail).take 1 ≠ [48] := by
    rw [hb]
    simp [hb48]
  have hne : Itoa (n : Int) ++ 32 :: avail ≠ [] := by simp
  have hneg : ¬ ((n : Int) < 0) := by omega
  simp only [htake, readString_append _ _ (space_not_mem_Itoa (n : Int)), TrimSpace_Itoa,
    Atoi_Itoa (n : Int) (by omega) hn2, hne, hneg, Int.toNat_ofNat, ne_eq, not_false_eq_true,
    if_true, if_false, Bool.true_eq_false, false_or]


/-- Frame round trip.  For a message whose `Command` is one of open, syslog, close, rsp,
abort, whose `Txn` is a Go `int` and whose `Data` is any byte string (of a length that can be
allocated), `readMessage` on exactly the bytes of the frame written by `send` returns no error
and the same message.  When the byte after the command is `0`, the data is empty whatever
follows (no data segment is read); when fewer bytes than a declared number within `maxAlloc` are
there, `readMessage` returns an error (`io.ErrUnexpectedEOF` after some bytes and an end of
file, the error of the reader otherwise). -/
theorem frame_round_trip (m : Message) (endErr : GoError)
    (hcmd : m.Command ∈ [CommandOpen, CommandSyslog, CommandClose, CommandRsp, CommandAbort])
    (hlo : -(2 ^ 63) ≤ m.Txn) (hhi : m.Txn < 2 ^ 63) (hlen : (m.Data.length : Int) ≤ maxAlloc) :
    (∀ (E : Env) (k : Conn) (t : NetTrace), E.input (t.countP isNetRead) = (m.frame, endErr) →
      readMessage E (some k) t = .ok ((m, none), t ++ [.read k])) ∧
    parseMessage m.frame endErr = .ok (m, none) ∧
    (∀ rest : GoString,
      parseMessage (Itoa m.Txn ++ [32] ++ m.Command ++ [32] ++ [48] ++ rest) endErr
        = .ok ({ m with Data := [] }, none)) ∧
    (∀ (n : Nat) (avail : GoString), 0 < n → (n : Int) ≤ maxAlloc → avail.length < n →
      parseMessage (Itoa m.Txn ++ [32] ++ m.Command ++ [32] ++ Itoa (n : Int) ++ [32] ++ avail)
          endErr
        = .ok ({ m with Data := [] },
            some (if avail ≠ [] ∧ endErr = .eof then .unexpectedEOF else endErr))) := by
  obtain ⟨txn, cmd, data⟩ := m
  simp only at hcmd hlo hhi hlen
  have hmax : maxAlloc < 2 ^ 63 := by decide
  have hzero : ∀ rest : GoString,
      parseMessage (Itoa txn ++ [32] ++ cmd ++ [32] ++ [48] ++ rest) endErr
        = .ok ({ Txn := txn, Command := cmd, Data := [] }, none) := by
    intro rest
    have e : Itoa txn ++ [32] ++ cmd ++ [32] ++ [48] ++ rest
        = Itoa txn ++ 32 :: (cmd ++ 32 :: (48 :: rest)) := by simp
    rw [e, parseMessage_header txn cmd _ endErr hlo hhi hcmd]
    simp
  have hframe : parseMessage (Message.frame ⟨txn, cmd, data⟩) endErr
      = .ok (⟨txn, cmd, data⟩, none) := by
    cases data with
    | nil =>
      have e : Message.frame ⟨txn, cmd, []⟩ = Itoa txn ++ [32] ++ cmd ++ [32] ++ [48] ++ [32, 10] := by
        simp [Message.frame, Itoa, natDigits]
      rw [e, hzero]
    | cons d ds =>
      have e : Message.frame ⟨txn, cmd, d :: ds⟩
          = Itoa txn ++ 32 :: (cmd ++ 32 :: (Itoa ((ds.length + 1 : Nat) : Int) ++ 32 ::
              ((d :: ds) ++ [10]))) := by
        simp [Message.frame]
      have hl : ((ds.length + 1 : Nat) : Int) ≤ maxAlloc := by simpa using hlen
      rw [e, parseMessage_body txn cmd _ (ds.length + 1) endErr hlo hhi hcmd (by omega)
        (by omega), if_neg (by omega)]
      simp
  refine ⟨?_, hframe, hzero, ?_⟩
  · intro E k t hin
    simp only [readMessage, hin, hframe]
  · intro n avail hn hn2 hshort
    have e : Itoa txn ++ [32] ++ cmd ++ [32] ++ Itoa (n : Int) ++ [32] ++ avail
        = Itoa txn ++ 32 :: (cmd ++ 32 :: (Itoa (n : Int) ++ 32 :: avail)) := by simp
    rw [e, parseMessage_body txn cmd avail n endErr hlo hhi hcmd hn (by omega),
      if_neg (by omega), if_pos hshort]

/-- The round trip at a message whose data holds spaces and a line feed. -/
theorem frame_round_trip_example :
    exMessage.frame = ascii "7 syslog 5 a b\nc\n" ∧
    parseMessage exMessage.frame .eof = .ok (exMessage, none) :=
  ⟨by decide,
    (frame_round_trip exMessage .eof (by decide) (by decide) (by decide) (by decide)).2.1⟩

/-! ## The syslog line -/

theorem natDigits_eq_digits : ∀ (f n : Nat), n < f → 0 < n →
    natDigits f n = (Nat.digits 10 n).reverse.map (fun d => UInt8.ofNat (48 + d)) := by
  intro f
  induction f with
  | zero => intro n h; omega
  | succ f ih =>
    intro n hf hn
    unfold natDigits
    by_cases h10 : n < 10
    · rw [if_pos h10, Nat.digits_of_lt 10 n (by omega) h10]
      rfl
    · rw [if_neg h10, Nat.digits_def' (by decide) hn, ih (n / 10) (by omega) (by omega)]
      simp

theorem Itoa_eq_decimal (i : Int) : Itoa i = decimal i := by
  have h : natDigits (i.natAbs + 1) i.natAbs =
      if i.natAbs = 0 then [48]
      else (Nat.digits 10 i.natAbs).reverse.map (fun d => UInt8.ofNat (48 + d)) := by
    by_cases h0 : i.natAbs = 0
    · rw [if_pos h0, h0]; rfl
    · rw [if_neg h0]; exact natDigits_eq_digits _ _ (by omega) (by omega)
  simp only [Itoa, decimal, h]

theorem endsWith_newline (s : GoString) : endsWith s [10] = true ↔ s.getLast? = some 10 := by
  rcases s.eq_nil_or_concat with rfl | ⟨xs, x, rfl⟩
  · simp [endsWith]
  · simp only [endsWith, List.concat_eq_append, List.reverse_append, List.reverse_cons,
      List.reverse_nil, List.nil_append, List.singleton_append, List.isPrefixOf, Bool.and_true,
      beq_iff_eq, List.getLast?_append, List.getLast?_singleton, Option.or_some,
      Option.some.injEq]
    exact eq_comm

/-- `syslogMessage` in the words of the specification. -/
theorem syslogMessage_eq (now : GoString) (pid p : Int) (hostname tag msg : GoString) :
    syslogMessage now pid p hostname tag msg =
      ascii "<" ++ decimal p ++ ascii ">" ++ now ++ ascii " " ++ hostname ++ ascii " " ++ tag ++
        ascii "[" ++ decimal pid ++ ascii "]: " ++
        (if msg.getLast? = some 10 then msg.dropLast else msg) := by
  have hm : (if endsWith msg [10] then TrimSuffix msg [10] else msg)
      = (if msg.getLast? = some 10 then msg.dropLast else msg) := by
    by_cases h : msg.getLast? = some 10
    · have h1 := (endsWith_newline msg).mpr h
      simp only [h1, h, if_true, TrimSuffix, List.dropLast_eq_take, List.length_singleton]
    · have h1 : ¬ (endsWith msg [10] = true) := fun x => h ((endsWith_newline msg).mp x)
      simp [h1, h]
  simp only [syslogMessage, hm, Itoa_eq_decimal]

theorem toU64_nat (a : Nat) (ha : (a : Int) < 2 ^ 63) : toU64 (a : Int) = a := by
  have h : (a : Int) % 2 ^ 64 = (a : Int) := Int.emod_eq_of_lt (by omega) (by omega)
  simp only [toU64, h, Int.toNat_ofNat]

theorem ofU64_nat (n : Nat) (hn : n < 2 ^ 63) : ofU64 n = (n : Int) := by
  simp only [ofU64, hn, if_true]

/-- On non-negative values, `&` and `|` of Go are the bitwise operations on natural numbers. -/
theorem and64_or64_nat (a b : Nat) (ha : (a : Int) < 2 ^ 63) (hb : (b : Int) < 2 ^ 63) :
    and64 (a : Int) (b : Int) = ((a &&& b : Nat) : Int) ∧
    or64 (a : Int) (b : Int) = ((a ||| b : Nat) : Int) := by
  have ha1 : a < 2 ^ 63 := by omega
  have hb1 : b < 2 ^ 63 := by omega
  constructor
  · rw [and64, toU64_nat a ha, toU64_nat b hb, ofU64_nat]
    exact lt_of_le_of_lt Nat.and_le_left ha1
  · rw [or64, toU64_nat a ha, toU64_nat b hb, ofU64_nat]
    exact Nat.or_lt_two_pow ha1 hb1


/-- The events of one `write` on a live connection: the `syslog` frame with the formatted line
and the next transaction id, then the read of the response. -/
theorem Client.write_trace (E : Env) (c : Client) (conn : Conn)
    (hc : c.connection = some conn) (pr : Int) (tag s : GoString) (t : NetTrace)
    (r : Int × Option GoError) (c1 : Client) (t1 : NetTrace)
    (h : c.write E pr tag s t = .ok (r, c1, t1)) :
    t1 = t ++ [NetEvent.send conn
          ⟨c.nextTxn, CommandSyslog, syslogMessage (E.clock t.length) E.pid pr c.hostname tag s⟩
          (E.writeErr (t.countP isNetSend)), NetEvent.read conn] := by
  simp only [Client.write, Client.sendString, Client.sendMessage_eq E c conn hc] at h
  cases hp : parseMessage (E.input (t.countP isNetRead)).1 (E.input (t.countP isNetRead)).2 with
  | error f => rw [hp] at h; exact Except.noConfusion h
  | ok x =>
    obtain ⟨ack, e⟩ := x
    rw [hp] at h
    cases e with
    | some err =>
      simp only [Except.ok.injEq, Prod.mk.injEq] at h
      obtain ⟨_, _, rfl⟩ := h
      simp
    | none =>
      simp only at h
      split_ifs at h <;>
        · simp only [Except.ok.injEq, Prod.mk.injEq] at h
          obtain ⟨_, _, rfl⟩ := h
          simp

/-- The events of one `connect`: no frame other than the offer is sent, and the host name of
the client is kept unless it was empty, when it becomes the local address. -/
theorem Client.connect_sends (E : Env) (c : Client) (t : NetTrace)
    (e : Option GoError) (c1 : Client) (t1 : NetTrace)
    (h : c.connect E t = .ok (e, c1, t1)) :
    ∃ new, t1 = t ++ new ∧
      (∀ k msg w, NetEvent.send k msg w ∈ new → msg.Command = CommandOpen) ∧
      (c1.hostname = c.hostname ∨ (c.hostname = [] ∧ c1.hostname = E.localAddr)) := by
  unfold Client.connect at h
  generalize ht0 : (match c.connection with
    | some conn => t ++ [NetEvent.close conn (E.closeErr (List.countP isNetClose t))]
    | none => t) = t0 at h
  have h0 : ∃ pre, t0 = t ++ pre ∧ ∀ k msg w, NetEvent.send k msg w ∉ pre := by
    rw [← ht0]
    cases c.connection with
    | none => exact ⟨[], by simp, by simp⟩
    | some conn => exact ⟨_, rfl, by simp⟩
  obtain ⟨pre, rfl, hpre⟩ := h0
  simp only at h
  cases hd : E.dialErr (List.countP isNetDial (t ++ pre)) with
  | some x =>
    rw [hd] at h
    simp only [Except.ok.injEq, Prod.mk.injEq] at h
    obtain ⟨_, rfl, rfl⟩ := h
    refine ⟨pre ++ [NetEvent.dial c.raddr c.timeout (some x)], by simp, ?_, Or.inl rfl⟩
    intro k msg w hmem
    simp only [List.mem_append, List.mem_singleton] at hmem
    rcases hmem with hm | hm
    · exact absurd hm (hpre k msg w)
    · exact NetEvent.noConfusion hm
  | none =>
    rw [hd] at h
    have hconn : (if c.hostname = [] then
        ({ c with connection := some (List.countP isNetDial (t ++ pre)),
                  hostname := E.localAddr } : Client)
        else { c with connection := some (List.countP isNetDial (t ++ pre)) }).connection
          = some (List.countP isNetDial (t ++ pre)) := by
      split_ifs <;> rfl
    have hhost : (if c.hostname = [] then
        ({ c with connection := some (List.countP isNetDial (t ++ pre)),
                  hostname := E.localAddr } : Client)
        else { c with connection := some (List.countP isNetDial (t ++ pre)) }).hostname
          = c.hostname ∨
        (c.hostname = [] ∧ (if c.hostname = [] then
        ({ c with connection := some (List.countP isNetDial (t ++ pre)),
                  hostname := E.localAddr } : Client)
        else { c with connection := some (List.countP isNetDial (t ++ pre)) }).hostname
          = E.localAddr) := by
      by_cases hh : c.hostname = []
      · right; simp [hh]
      · left; simp [hh]
    simp only [hconn, Message.send, readMessage] at h
    generalize parseMessage _ _ = pr at h
    cases pr with
    | error f => exact Except.noConfusion h
    | ok r =>
      obtain ⟨ack, e2⟩ := r
      have hsends : ∀ (w0 : Option GoError) (m0 : Message) (k0 : Conn), m0.Command = CommandOpen →
          ∀ k msg w, NetEvent.send k msg w ∈
            pre ++ [NetEvent.dial c.raddr c.timeout none, NetEvent.send k0 m0 w0,
              NetEvent.read k0] → msg.Command = CommandOpen := by
        intro w0 m0 k0 hm0 k msg w hmem
        simp only [List.mem_append, List.mem_cons, List.mem_singleton, List.not_mem_nil,
          or_false] at hmem
        rcases hmem with hm | hm | hm | hm
        · exact absurd hm (hpre k msg w)
        · exact NetEvent.noConfusion hm
        · simp only [NetEvent.send.injEq] at hm
          rw [hm.2.1]; exact hm0
        · exact NetEvent.noConfusion hm
      cases e2 with
      | some err =>
        simp only [Except.ok.injEq, Prod.mk.injEq] at h
        obtain ⟨_, rfl, rfl⟩ := h
        refine ⟨pre ++ [NetEvent.dial c.raddr c.timeout none,
          NetEvent.send (List.countP isNetDial (t ++ pre))
            { Txn := 1, Command := CommandOpen,
              Data := ascii "relp_version=" ++ Itoa relpVersion ++ ascii "\nrelp_software=" ++
                relpSoftware ++ ascii "\ncommands=syslog" }
            (E.writeErr (List.countP isNetSend (t ++ pre ++ [NetEvent.dial c.raddr c.timeout none]))),
          NetEvent.read (List.countP isNetDial (t ++ pre))], ?_, ?_, hhost⟩
        · simp only [List.append_assoc, List.cons_append, List.nil_append]
        · exact hsends _ _ _ rfl
      | none =>
        simp only [Except.ok.injEq, Prod.mk.injEq] at h
        obtain ⟨_, rfl, rfl⟩ := h
        refine ⟨pre ++ [NetEvent.dial c.raddr c.timeout none,
          NetEvent.send (List.countP isNetDial (t ++ pre))
            { Txn := 1, Command := CommandOpen,
              Data := ascii "relp_version=" ++ Itoa relpVersion ++ ascii "\nrelp_software=" ++
                relpSoftware ++ ascii "\ncommands=syslog" }
            (E.writeErr (List.countP isNetSend (t ++ pre ++ [NetEvent.dial c.raddr c.timeout none]))),
          NetEvent.read (List.countP isNetDial (t ++ pre))], ?_, ?_, hhost⟩
        · simp only [List.append_assoc, List.cons_append, List.nil_append]
        · exact hsends _ _ _ rfl


/-- A call of `writeAndRetry` on a live connection returns unless a frame read declares a
length that `make` refuses. -/
theorem Client.writeAndRetry_total (E : Env) (c : Client) (conn : Conn)
    (hc : c.connection = some conn) (p : Int) (tag s : GoString) (t : NetTrace)
    (hnp : ∀ k, ∃ r, parseMessage (E.input k).1 (E.input k).2 = .ok r) :
    ∃ r c1 t1, c.writeAndRetry E p tag s t = .ok (r, c1, t1) := by
  rw [Client.writeAndRetry_eq E c conn hc p tag s t]
  generalize or64 (and64 c.priority facilityMask) (and64 p severityMask) = pr
  obtain ⟨⟨n, e⟩, ca, ta, hw⟩ := Client.write_total E c conn hc pr tag s t hnp
  rw [hw]
  cases e with
  | none => exact ⟨_, _, _, rfl⟩
  | some e1 =>
    obtain ⟨e2, cb, tb, hcn⟩ := Client.connect_total E ca ta hnp
    simp only [hcn]
    cases e2 with
    | some e3 => exact ⟨_, _, _, rfl⟩
    | none =>
      obtain ⟨_, _, g3⟩ := Client.connect_counts E ca ta _ cb tb hcn
      obtain ⟨k, hk⟩ := g3 rfl
      exact Client.write_total E cb k hk pr tag s tb hnp

/-- The priority value of a line for a non-negative facility and severity. -/
theorem priority_bits (P s : Int) (hP0 : 0 ≤ P) (hP : P < 2 ^ 63) (hs0 : 0 ≤ s) (hs : s < 2 ^ 63) :
    or64 (and64 P facilityMask) (and64 s severityMask)
      = (((P.toNat &&& 0xf8) ||| (s.toNat &&& 0x07) : Nat) : Int) := by
  obtain ⟨a, rfl⟩ := Int.eq_ofNat_of_zero_le hP0
  obtain ⟨b, rfl⟩ := Int.eq_ofNat_of_zero_le hs0
  have h1 := (and64_or64_nat a 0xf8 hP (by norm_num)).1
  have h2 := (and64_or64_nat b 0x07 hs (by norm_num)).1
  have hf : facilityMask = ((0xf8 : Nat) : Int) := rfl
  have hv : severityMask = ((0x07 : Nat) : Int) := rfl
  have b1 : a &&& 0xf8 ≤ 0xf8 := Nat.and_le_right
  have b2 : b &&& 0x07 ≤ 0x07 := Nat.and_le_right
  rw [hf, hv, h1, h2, (and64_or64_nat _ _ (by omega) (by omega)).2]
  simp only [Int.toNat_ofNat]

/-- C13: message formatting.  On a client with a live connection, a call with severity `s`, tag
`tag` and message `m` first sends a `syslog` frame whose data is the line of the specification
for the priority value `(priority & 0xf8) | (s & 0x07)`, the clock reading of that moment, the
host name of the client and the pid; any further `syslog` frame of the call (the second write
after a reconnect) carries the same line for its own clock reading and the host name of the
client then.  For a non-negative facility and severity the priority value is the bitwise
`(P AND 0xf8) OR (s AND 0x07)` on natural numbers; exactly one trailing line feed is removed
from `m`; and the call returns when the frames read are readable. -/
theorem C13_message_formatting (E : Env) (c : Client) (conn : Conn)
    (hc : c.connection = some conn) (s : Int) (tag m : GoString) (t : NetTrace) :
    (∀ r c1 t1, c.writeAndRetry E s tag m t = .ok (r, c1, t1) →
      ∃ rest, t1 = t ++ NetEvent.send conn
            ⟨c.nextTxn, CommandSyslog,
              specLine (or64 (and64 c.priority 0xf8) (and64 s 0x07)) (E.clock t.length)
                c.hostname tag E.pid m⟩
            (E.writeErr (t.countP isNetSend)) :: NetEvent.read conn :: rest ∧
        ∀ k msg w, NetEvent.send k msg w ∈ rest → msg.Command = CommandSyslog →
          ∃ n h, msg.Data
            = specLine (or64 (and64 c.priority 0xf8) (and64 s 0x07)) (E.clock n) h tag E.pid m) ∧
    (0 ≤ c.priority → c.priority < 2 ^ 63 → 0 ≤ s → s < 2 ^ 63 →
      or64 (and64 c.priority 0xf8) (and64 s 0x07)
        = (((c.priority.toNat &&& 0xf8) ||| (s.toNat &&& 0x07) : Nat) : Int)) ∧
    (∀ pr ts h pid body, specLine pr ts h tag pid (body ++ [10])
        = specLine pr ts h tag pid [] ++ body) ∧
    (∀ pr ts h pid, m.getLast? ≠ some 10 →
      specLine pr ts h tag pid m = specLine pr ts h tag pid [] ++ m) ∧
    ((∀ k, ∃ r, parseMessage (E.input k).1 (E.input k).2 = .ok r) →
      ∃ r c1 t1, c.writeAndRetry E s tag m t = .ok (r, c1, t1)) := by
  have hline : ∀ now pid p hostname, syslogMessage now pid p hostname tag m
      = specLine p now hostname tag pid m := by
    intro now pid p hostname
    rw [syslogMessage_eq]; rfl
  have hpr : or64 (and64 c.priority 0xf8) (and64 s 0x07)
      = or64 (and64 c.priority facilityMask) (and64 s severityMask) := rfl
  refine ⟨?_, ?_, ?_, ?_, ?_⟩
  · intro r c1 t1 hret
    rw [Client.writeAndRetry_eq E c conn hc s tag m t] at hret
    rw [hpr]
    generalize or64 (and64 c.priority facilityMask) (and64 s severityMask) = pr at hret ⊢
    cases hw : c.write E pr tag m t with
    | error f => rw [hw] at hret; exact Except.noConfusion hret
    | ok x =>
      obtain ⟨⟨n, e⟩, ca, ta⟩ := x
      have hta := Client.write_trace E c conn hc pr tag m t _ ca ta hw
      rw [hline] at hta
      rw [hw] at hret
      cases e with
      | none =>
        simp only [Except.ok.injEq, Prod.mk.injEq] at hret
        obtain ⟨_, _, rfl⟩ := hret
        exact ⟨[], hta, by simp⟩
      | some e1 =>
        simp only at hret
        cases hcn : ca.connect E ta with
        | error f => rw [hcn] at hret; exact Except.noConfusion hret
        | ok y =>
          obtain ⟨e2, cb, tb⟩ := y
          rw [hcn] at hret
          obtain ⟨new, hnew, hsend, _⟩ := Client.connect_sends E ca ta e2 cb tb hcn
          have hopen : CommandOpen ≠ CommandSyslog := by decide
          cases e2 with
          | some e3 =>
            simp only [Except.ok.injEq, Prod.mk.injEq] at hret
            obtain ⟨_, _, rfl⟩ := hret
            refine ⟨new, by rw [hnew, hta]; simp, ?_⟩
            intro k msg w hmem hcmd
            exact absurd ((hsend k msg w hmem).symm.trans hcmd) hopen
          | none =>
            simp only at hret
            obtain ⟨_, _, g3⟩ := Client.connect_counts E ca ta _ cb tb hcn
            obtain ⟨k2, hk2⟩ := g3 rfl
            have htb := Client.write_trace E cb k2 hk2 pr tag m tb r c1 t1 hret
            rw [hline] at htb
            refine ⟨new ++ [NetEvent.send k2 ⟨cb.nextTxn, CommandSyslog,
                specLine pr (E.clock tb.length) cb.hostname tag E.pid m⟩
                (E.writeErr (tb.countP isNetSend)), NetEvent.read k2], ?_, ?_⟩
            · rw [htb, hnew, hta]; simp
            · intro k msg w hmem hcmd
              simp only [List.mem_append, List.mem_cons, List.mem_singleton, List.not_mem_nil,
                or_false] at hmem
              rcases hmem with hm | hm | hm
              · exact absurd ((hsend k msg w hm).symm.trans hcmd) hopen
              · simp only [NetEvent.send.injEq] at hm
                exact ⟨tb.length, cb.hostname, by rw [hm.2.1]⟩
              · exact NetEvent.noConfusion hm
  · intro h1 h2 h3 h4
    exact priority_bits c.priority s h1 h2 h3 h4
  · intro pr ts h pid body
    simp [specLine]
  · intro pr ts h pid hlast
    simp [specLine, hlast]
  · exact Client.writeAndRetry_total E c conn hc s tag m t


theorem C13_message_formatting_witness :
    exClient.connection = some 0 ∧
    exClient.writeAndRetry ackEnv LOG_ERR (ascii "tag") (ascii "a\n\n") exDialled
      = .ok ((3, none), { exClient with nextTxn := 3 },
          exDialled ++ [.send 0 ⟨2, CommandSyslog,
            ascii "<27>2006-01-02T15:04:05Z host tag[42]: a\n"⟩ none, .read 0]) ∧
    (∀ r c1 t1, exClient.writeAndRetry ackEnv LOG_ERR (ascii "tag") (ascii "a\n\n") exDialled
        = .ok (r, c1, t1) →
      ∃ rest, t1 = exDialled ++ NetEvent.send 0
            ⟨exClient.nextTxn, CommandSyslog,
              specLine (or64 (and64 exClient.priority 0xf8) (and64 LOG_ERR 0x07))
                (ackEnv.clock exDialled.length) exClient.hostname (ascii "tag") ackEnv.pid
                (ascii "a\n\n")⟩
            (ackEnv.writeErr (exDialled.countP isNetSend)) :: NetEvent.read 0 :: rest ∧
        ∀ k msg w, NetEvent.send k msg w ∈ rest → msg.Command = CommandSyslog →
          ∃ n h, msg.Data
            = specLine (or64 (and64 exClient.priority 0xf8) (and64 LOG_ERR 0x07))
                (ackEnv.clock n) h (ascii "tag") ackEnv.pid (ascii "a\n\n")) :=
  ⟨rfl, rfl,
    (C13_message_formatting ackEnv exClient 0 rfl LOG_ERR (ascii "tag") (ascii "a\n\n")
      exDialled).1⟩

/-! ## The frame written by `send` -/

/-- C12: frame encoding.  The string that `send` hands to `Write` is the decimal numeral of
`Txn`, one space, `Command`, one space, the decimal numeral of the number of bytes of `Data`, one
space, `Data`, and a line feed; `send` makes exactly one `Write`, of exactly these bytes, on the
connection it was given, and returns what that `Write` returned (the number of bytes of the frame
when it did not fail). -/
theorem C12_frame_encoding (E : Env) (m : Message) (conn : Conn) (t : NetTrace) :
    m.frame = decimal m.Txn ++ [32] ++ m.Command ++ [32] ++ decimal (m.Data.length : Int) ++ [32]
      ++ m.Data ++ [10] ∧
    (∃ r t1, m.send E (some conn) t = .ok (r, t1) ∧
      wireBytes t1 = wireBytes t ++ [(conn, m.frame)] ∧
      t1 = t ++ [.send conn m (E.writeErr (t.countP isNetSend))] ∧
      r.2 = E.writeErr (t.countP isNetSend) ∧
      (r.2 = none → r.1 = (m.frame.length : Int))) ∧
    m.frame.length = (decimal m.Txn).length + m.Command.length
      + (decimal (m.Data.length : Int)).length + m.Data.length + 4 ∧
    (Message.mk 1 CommandSyslog [0xC3, 0xA9]).frame = ascii "1 syslog 2 " ++ [0xC3, 0xA9, 10] := by
  refine ⟨?_, ?_, ?_, by decide⟩
  · simp only [Message.frame, Itoa_eq_decimal]
  · refine ⟨_, _, rfl, ?_, rfl, rfl, ?_⟩
    · simp [wireBytes, List.filterMap_append]
    · intro h
      simp only at h
      simp [h]
  · simp only [Message.frame, Itoa_eq_decimal, List.length_append, List.length_singleton]
    omega


/-! ## Further instances -/

theorem C11_dial_retry_witness :
    (exSenderSlow.syslogProtocol ≠ [] ∧ exSenderSlow.syslogAddr ≠ [] ∧
      exSenderSlow.syslogTag ≠ []) ∧
    exSenderSlow.dialMethod = some (recordingDial slowTransport) ∧
    ∃ t1, syslog.toSyslogBulk traceRuntime 3 exSenderSlow ctxDone ([recA].map some) [] = .ok t1 ∧
      wire t1 = wire []
        ++ (List.replicate 2
            [Wire.dial ctxDone exSenderSlow.syslogProtocol exSenderSlow.syslogAddr
              exSenderSlow.syslogTag false, Wire.sleep]).flatten
        ++ sessionWire exSenderSlow ctxDone [recA] :=
  ⟨by decide, rfl,
    (C11_dial_retry slowTransport exSenderSlow ctxDone recA [] [] (by decide) rfl).1 2 3
      (by decide) (by intro j hj; interval_cases j <;> rfl) rfl⟩

theorem C14_size_counts_witness :
    (0 : Int) ≤ 2 ∧
    Call.reset ∉ [Call.add (some recA), Call.add (some recB), Call.add (some recC), Call.size,
      Call.remove, Call.empty] ∧
    ∃ mb0 rs mb, newMessageBuffer 2 = .ok mb0 ∧
      mb0.calls [Call.add (some recA), Call.add (some recB), Call.add (some recC), Call.size,
        Call.remove, Call.empty] = .ok (rs, mb) ∧
      mb.size = (addsOk rs : Int) - removesOk rs ∧
      mb.size = (mb.tail - mb.head + mb.buffer.length) % mb.buffer.length ∧
      (mb.empty = true ↔ mb.size = 0) :=
  ⟨by decide, by decide, C14_size_counts 2 (by decide) _ (by decide)⟩

theorem C15_remove_on_empty_witness :
    (0 : Int) ≤ 1 ∧
    ∃ mb0 mb, newMessageBuffer 1 = .ok mb0 ∧
      runOps mb0 [BufOp.add (some recA), BufOp.remove] = .ok mb ∧
      ∃ v err mb1, mb.remove = .ok ((v, err), mb1) ∧
        (err.isSome ↔ mb.head = mb.tail) ∧
        (mb.head = mb.tail → v = none ∧ err = some .bufferEmpty ∧ mb1 = mb) ∧
        (mb.head ≠ mb.tail → err = none ∧ mb1.size = mb.size - 1 ∧
          ∃ rest, specQueue 1 [BufOp.add (some recA), BufOp.remove] = v :: rest ∧
            mb1.contents = rest) :=
  ⟨by decide, C15_remove_on_empty 1 (by decide) [BufOp.add (some recA), BufOp.remove]⟩

theorem C16_empty_as_fresh_witness :
    (0 : Int) ≤ 1 ∧
    ∃ mb0 mb, newMessageBuffer 1 = .ok mb0 ∧
      runOps mb0 [BufOp.add (some recA), BufOp.remove] = .ok mb ∧
      (∀ x : messageBuffer, x.reset.empty = true ∧ x.reset.size = 0) ∧
      (∃ rs mb1 mb2, mb.reset.calls [Call.add (some recB), Call.size, Call.remove] = .ok (rs, mb1) ∧
        mb0.calls [Call.add (some recB), Call.size, Call.remove] = .ok (rs, mb2)) ∧
      (mb.empty = true →
        ∃ rs mb1 mb2, mb.calls [Call.add (some recB), Call.size, Call.remove] = .ok (rs, mb1) ∧
          mb0.calls [Call.add (some recB), Call.size, Call.remove] = .ok (rs, mb2)) :=
  ⟨by decide, C16_empty_as_fresh 1 (by decide) [BufOp.add (some recA), BufOp.remove]
    [Call.add (some recB), Call.size, Call.remove]⟩

theorem C17_severity_dispatch_witness :
    isSeverity LOG_ERR ∧
    (∀ (T : Transport) (t : Trace), ∃ meth, methodOf LOG_ERR = some meth ∧
      wire (syslog.toSyslog traceRuntime (recordingWriter T) LOG_ERR (ascii "m") t)
        = wire t ++ [Wire.call meth (ascii "m")]) ∧
    (syslog.toSyslog mockRuntime mock.writer LOG_ERR (ascii "m") mock.empty).Messages LOG_ERR = 1 ∧
    (syslog.toSyslog mockRuntime mock.writer LOG_ERR (ascii "m") mock.empty).TotalMessages = 1 :=
  ⟨⟨by decide, by decide⟩,
    (C17_severity_dispatch LOG_ERR ⟨by decide, by decide⟩ (ascii "m")).2.1,
    by decide, by decide⟩

theorem C12_frame_encoding_witness :
    exMessage.frame = decimal exMessage.Txn ++ [32] ++ exMessage.Command ++ [32]
      ++ decimal (exMessage.Data.length : Int) ++ [32] ++ exMessage.Data ++ [10] ∧
    exMessage.frame = ascii "7 syslog 5 a b\nc\n" ∧
    exMessage.send ackEnv (some 0) exDialled
      = .ok ((17, none), exDialled ++ [.send 0 exMessage none]) :=
  ⟨(C12_frame_encoding ackEnv exMessage 0 exDialled).1, by decide, rfl⟩

theorem C20_open_handshake_unvalidated_witness :
    refusingEnv.dialErr (List.countP isNetDial []) = none ∧
    parseMessage (refusingEnv.input (List.countP isNetRead [])).1
        (refusingEnv.input (List.countP isNetRead [])).2
      = .ok (⟨1, CommandRsp, ascii "500 nope"⟩, none) ∧
    ∃ c1 t1, exFreshClient.connect refusingEnv [] = .ok (none, c1, t1) ∧ c1.nextTxn = 2 :=
  ⟨rfl, rfl,
    (C20_open_handshake_unvalidated refusingEnv exFreshClient []).1
      ⟨1, CommandRsp, ascii "500 nope"⟩ rfl rfl⟩

/-! ## The indices stay inside the array -/

/-- In a well-formed state neither `add` nor `remove` panics. -/
theorem messageBuffer.calls_return (mb : messageBuffer) (hwf : mb.wf) :
    (∀ v, ∃ r, mb.add v = .ok r) ∧ ∃ r, mb.remove = .ok r := by
  obtain ⟨h0, h1, t0, t1⟩ := hwf
  constructor
  · intro v
    by_cases hfull : mb.size = mb.len
    · simp only [messageBuffer.add, hfull, if_true]
      exact ⟨_, rfl⟩
    · have hidx : 0 ≤ mb.tail ∧ mb.tail < (mb.buffer.length : Int) := ⟨t0, t1⟩
      simp only [messageBuffer.add, hfull, hidx, and_self, if_true, if_false]
      exact ⟨_, rfl⟩
  · by_cases hempty : mb.empty = true
    · simp only [messageBuffer.remove, hempty, if_true]
      exact ⟨_, rfl⟩
    · have hidx : 0 ≤ mb.head ∧ mb.head < (mb.buffer.length : Int) := ⟨h0, h1⟩
      simp only [messageBuffer.remove, hempty, hidx, and_self, if_true, if_false]
      exact ⟨_, rfl⟩

/-- C21: index and capacity invariant of the ring buffer.  For every capacity `C ≥ 0` and every
sequence of `add`, `remove` and `reset` calls on `newMessageBuffer(C)`, no call panics and in the
state reached the array has `C + 1` slots, `len() == C`, `0 ≤ head ≤ C`, `0 ≤ tail ≤ C` and
`0 ≤ size() ≤ C`; so `tail` and `head` are indices of the array, the modulus `len(buffer)` is not
zero, and the next `add` and the next `remove` return. -/
theorem C21_index_capacity_invariant (C : Int) (hC : 0 ≤ C) (ops : List BufOp) :
    ∃ mb0 mb, newMessageBuffer C = .ok mb0 ∧ runOps mb0 ops = .ok mb ∧
      (mb.buffer.length : Int) = C + 1 ∧ mb.len = C ∧
      (0 ≤ mb.head ∧ mb.head ≤ C) ∧ (0 ≤ mb.tail ∧ mb.tail ≤ C) ∧
      (0 ≤ mb.size ∧ mb.size ≤ C) ∧
      (0 ≤ mb.tail ∧ mb.tail < mb.buffer.length) ∧
      (0 ≤ mb.head ∧ mb.head < mb.buffer.length) ∧
      (mb.buffer.length : Int) ≠ 0 ∧
      (∀ v, ∃ r, mb.add v = .ok r) ∧ ∃ r, mb.remove = .ok r := by
  obtain ⟨mb0, mb, hnew, hrun, hwf, hlen⟩ := reachable_wf C hC ops
  have hsz := mb.size_bounds hwf
  have hret := mb.calls_return hwf
  obtain ⟨h0, h1, t0, t1⟩ := hwf
  have hl : (mb.buffer.length : Int) = C + 1 := by
    unfold messageBuffer.len at hlen
    omega
  refine ⟨mb0, mb, hnew, hrun, hl, hlen, ⟨h0, by omega⟩, ⟨t0, by omega⟩,
    ⟨hsz.1, by rw [← hlen]; exact hsz.2⟩, ⟨t0, t1⟩, ⟨h0, h1⟩, by omega, hret⟩

theorem C21_index_capacity_invariant_witness :
    (0 : Int) ≤ 1 ∧
    ∃ mb0 mb, newMessageBuffer 1 = .ok mb0 ∧
      runOps mb0 [BufOp.add (some recA), BufOp.add (some recB), BufOp.remove,
        BufOp.add (some recC), BufOp.remove, BufOp.remove, BufOp.reset, BufOp.add none]
        = .ok mb ∧
      (mb.buffer.length : Int) = 1 + 1 ∧ mb.len = 1 ∧
      (0 ≤ mb.head ∧ mb.head ≤ 1) ∧ (0 ≤ mb.tail ∧ mb.tail ≤ 1) ∧
      (0 ≤ mb.size ∧ mb.size ≤ 1) ∧
      (0 ≤ mb.tail ∧ mb.tail < mb.buffer.length) ∧
      (0 ≤ mb.head ∧ mb.head < mb.buffer.length) ∧
      (mb.buffer.length : Int) ≠ 0 ∧
      (∀ v, ∃ r, mb.add v = .ok r) ∧ ∃ r, mb.remove = .ok r :=
  ⟨by decide, C21_index_capacity_invariant 1 (by decide) _⟩

/-! ## A declared length that cannot be allocated -/

/-- A header that declares more data bytes than `make` allocates makes `readMessage` panic,
whatever follows it. -/
theorem parseMessage_large_length (txn : Int) (cmd avail : GoString) (n : Nat) (endErr : GoError)
    (hlo : -(2 ^ 63) ≤ txn) (hhi : txn < 2 ^ 63)
    (hcmd : cmd ∈ [CommandOpen, CommandSyslog, CommandClose, CommandRsp, CommandAbort])
    (hn : maxAlloc < (n : Int)) (hn2 : (n : Int) < 2 ^ 63) :
    parseMessage (Itoa txn ++ 32 :: (cmd ++ 32 :: (Itoa (n : Int) ++ 32 :: avail))) endErr
      = .error .panic := by
  have hpos : 0 < n := by
    have : (0 : Int) ≤ maxAlloc := by decide
    omega
  rw [parseMessage_body txn cmd avail n endErr hlo hhi hcmd hpos hn2, if_pos hn]

/-- C19: short reads.  A frame that declares `2^62` data bytes and carries fewer makes
`readMessage` panic in `make([]byte, dataLen)` and not return an error, and a client that
reads it as the response to a message panics with it; a frame that declares 9 bytes and carries
7 gives `io.ErrUnexpectedEOF`. -/
theorem C19_declared_length_panics :
    parseMessage (ascii "2 rsp 4611686018427387904 200 OK\n") .eof = .error .panic ∧
    exClient.Emerg hugeLengthEnv (ascii "m") exDialled = .error .panic ∧
    parseMessage (ascii "2 rsp 9 200 OK\n") .eof
      = .ok (⟨2, CommandRsp, []⟩, some .unexpectedEOF) := by
  refine ⟨?_, ?_, ?_⟩ <;> rfl

end Slogger
